import Mathlib

/-!
Orange Sky shift finder: the normalisation pipeline.

A shallow embedding of the pure parts of `src/api_scraper.js` and `src/scraper.js`
(field resolution, state inference, the completeness filter, CSV encoding and the
HTML fallback parser) together with the properties stated about them.

JavaScript strings are modelled as lists of characters, JavaScript values as the
type `JsVal` below, and a thrown exception as the `Except.error` result.
-/

namespace OrangeSky

/-! ## JavaScript values -/

/-- JavaScript values as the scrapers meet them: what `response.json()` and the
location directory deliver, plus `undefined`.

A number is carried by its `Number::toString` text (`7000`, `-42.88`, `NaN`,
`Infinity`); the program only ever copies such a number, tests its truthiness and
its `typeof`, and converts it to a string. An object is the list of its own
enumerable properties in enumeration order. -/
inductive JsVal where
  | undefined
  | null
  | bool (b : Bool)
  | num (text : List Char)
  | str (s : List Char)
  | arr (xs : List JsVal)
  | obj (fields : List (List Char × JsVal))

mutual
/-- Structural equality test on values. -/
def JsVal.beq : JsVal → JsVal → Bool
  | .undefined, .undefined => true
  | .null, .null => true
  | .bool a, .bool b => a == b
  | .num a, .num b => a == b
  | .str a, .str b => a == b
  | .arr xs, .arr ys => JsVal.beqList xs ys
  | .obj fs, .obj gs => JsVal.beqFields fs gs
  | _, _ => false
termination_by structural v => v
/-- Structural equality test on lists of values. -/
def JsVal.beqList : List JsVal → List JsVal → Bool
  | [], [] => true
  | x :: xs, y :: ys => JsVal.beq x y && JsVal.beqList xs ys
  | _, _ => false
termination_by structural xs => xs
/-- Structural equality test on property lists. -/
def JsVal.beqFields : List (List Char × JsVal) → List (List Char × JsVal) → Bool
  | [], [] => true
  | (k, x) :: xs, (k', y) :: ys => k == k' && JsVal.beq x y && JsVal.beqFields xs ys
  | _, _ => false
termination_by structural xs => xs
end

mutual
theorem JsVal.eq_of_beq : ∀ a b : JsVal, JsVal.beq a b = true → a = b
  | .undefined, b => by cases b <;> simp [JsVal.beq]
  | .null, b => by cases b <;> simp [JsVal.beq]
  | .bool _, b => by cases b <;> simp [JsVal.beq]
  | .num _, b => by cases b <;> simp [JsVal.beq]
  | .str _, b => by cases b <;> simp [JsVal.beq]
  | .arr xs, b => by
    cases b <;> simp [JsVal.beq]
    exact JsVal.eq_of_beqList xs _
  | .obj fs, b => by
    cases b <;> simp [JsVal.beq]
    exact JsVal.eq_of_beqFields fs _
theorem JsVal.eq_of_beqList : ∀ xs ys : List JsVal, JsVal.beqList xs ys = true → xs = ys
  | [], ys => by cases ys <;> simp [JsVal.beqList]
  | x :: xs, ys => by
    cases ys with
    | nil => simp [JsVal.beqList]
    | cons y ys =>
      simp only [JsVal.beqList, Bool.and_eq_true, List.cons.injEq]
      exact fun h => ⟨JsVal.eq_of_beq x y h.1, JsVal.eq_of_beqList xs ys h.2⟩
theorem JsVal.eq_of_beqFields : ∀ xs ys : List (List Char × JsVal),
    JsVal.beqFields xs ys = true → xs = ys
  | [], ys => by cases ys <;> simp [JsVal.beqFields]
  | (k, x) :: xs, ys => by
    cases ys with
    | nil => simp [JsVal.beqFields]
    | cons y ys =>
      obtain ⟨k', y⟩ := y
      simp only [JsVal.beqFields, Bool.and_eq_true, List.cons.injEq, Prod.mk.injEq, beq_iff_eq]
      exact fun h => ⟨⟨h.1.1, JsVal.eq_of_beq x y h.1.2⟩, JsVal.eq_of_beqFields xs ys h.2⟩
end

mutual
theorem JsVal.beq_self : ∀ a : JsVal, JsVal.beq a a = true
  | .undefined => by simp [JsVal.beq]
  | .null => by simp [JsVal.beq]
  | .bool _ => by simp [JsVal.beq]
  | .num _ => by simp [JsVal.beq]
  | .str _ => by simp [JsVal.beq]
  | .arr xs => by simp [JsVal.beq, JsVal.beqList_self xs]
  | .obj fs => by simp [JsVal.beq, JsVal.beqFields_self fs]
theorem JsVal.beqList_self : ∀ xs : List JsVal, JsVal.beqList xs xs = true
  | [] => by simp [JsVal.beqList]
  | x :: xs => by simp [JsVal.beqList, JsVal.beq_self x, JsVal.beqList_self xs]
theorem JsVal.beqFields_self : ∀ xs : List (List Char × JsVal), JsVal.beqFields xs xs = true
  | [] => by simp [JsVal.beqFields]
  | (k, x) :: xs => by simp [JsVal.beqFields, JsVal.beq_self x, JsVal.beqFields_self xs]
end

/-- Equality of values is decidable. -/
instance : DecidableEq JsVal := fun a b =>
  if h : JsVal.beq a b = true then isTrue (JsVal.eq_of_beq a b h)
  else isFalse (fun e => h (e ▸ JsVal.beq_self a))

/-- Exceptions the embedded code can raise. -/
inductive JsError where
  | typeError
  deriving DecidableEq, Repr

/-- Equality of results is decidable. -/
instance : DecidableEq (Except JsError JsVal) := fun a b =>
  match a, b with
  | .ok x, .ok y => if h : x = y then isTrue (by rw [h]) else isFalse (fun e => h (by cases e; rfl))
  | .error x, .error y =>
    if h : x = y then isTrue (by rw [h]) else isFalse (fun e => h (by cases e; rfl))
  | .ok _, .error _ => isFalse (fun e => by cases e)
  | .error _, .ok _ => isFalse (fun e => by cases e)

/-- The `typeof` tags. -/
inductive JsType where
  | tUndefined | tObject | tBoolean | tNumber | tString
  deriving DecidableEq, Repr

/-- The operator `typeof v`. -/
def typeOf : JsVal → JsType
  | .undefined => .tUndefined
  | .null => .tObject
  | .bool _ => .tBoolean
  | .num _ => .tNumber
  | .str _ => .tString
  | .arr _ => .tObject
  | .obj _ => .tObject

/-- The abstract operation `ToBoolean`: `undefined`, `null`, `false`, `0`, `NaN` and the
empty string are falsy, every other value is truthy. -/
def truthy : JsVal → Bool
  | .undefined => false
  | .null => false
  | .bool b => b
  | .num t => !(t == "0".toList || t == "NaN".toList)
  | .str s => !s.isEmpty
  | .arr _ => true
  | .obj _ => true

/-- The operator `a || b` whose right operand has no effects. -/
def jsOr (a b : JsVal) : JsVal := if truthy a then a else b

/-- The operator `a && b` whose right operand has no effects. -/
def jsAnd (a b : JsVal) : JsVal := if truthy a then b else a

/-- Own-property lookup in a property list: the first entry under the key. -/
def lookupKey (k : List Char) : List (List Char × JsVal) → JsVal
  | [] => .undefined
  | (k', v) :: rest => if k' = k then v else lookupKey k rest

/-- Property read `v.k` for the property names the scrapers use, none of which is a
built-in property of a string, number, boolean, array or plain object: reading from
`undefined` or `null` throws a `TypeError`, an object yields its own property or
`undefined`, any other value yields `undefined`. -/
def getProp (v : JsVal) (k : List Char) : Except JsError JsVal :=
  match v with
  | .undefined => .error .typeError
  | .null => .error .typeError
  | .obj fields => .ok (lookupKey k fields)
  | _ => .ok .undefined

mutual
/-- The abstract operation `ToString`. An array is joined with commas, a plain object
prints as `[object Object]`. -/
def toStr : JsVal → List Char
  | .undefined => "undefined".toList
  | .null => "null".toList
  | .bool true => "true".toList
  | .bool false => "false".toList
  | .num t => t
  | .str s => s
  | .arr xs => joinComma xs
  | .obj _ => "[object Object]".toList
termination_by structural v => v
/-- The method `Array.prototype.join` with the comma separator: `undefined` and `null`
elements print as the empty string. -/
def joinComma : List JsVal → List Char
  | [] => []
  | x :: xs =>
    (match x with
      | .undefined => []
      | .null => []
      | v => toStr v) ++
    (match xs with
      | [] => []
      | _ :: _ => ',' :: joinComma xs)
termination_by structural xs => xs
end

/-! ## Numeric parsing -/

/-- White space and line terminators, the characters `parseInt`, `trim` and `\s` skip. -/
def isWhiteSpace (c : Char) : Bool :=
  let n := c.toNat
  n == 0x09 || n == 0x0A || n == 0x0B || n == 0x0C || n == 0x0D || n == 0x20 ||
  n == 0xA0 || n == 0x1680 || (0x2000 ≤ n && n ≤ 0x200A) || n == 0x2028 ||
  n == 0x2029 || n == 0x202F || n == 0x205F || n == 0x3000 || n == 0xFEFF

/-- Value of a character as a digit in radix 36, if it is one. -/
def digitValue (c : Char) : Option Nat :=
  let n := c.toNat
  if 48 ≤ n ∧ n ≤ 57 then some (n - 48)
  else if 97 ≤ n ∧ n ≤ 122 then some (n - 87)
  else if 65 ≤ n ∧ n ≤ 90 then some (n - 55)
  else none

/-- Digit values of the longest prefix made of digits of radix `r`. -/
def radixPrefix (r : Nat) : List Char → List Nat
  | [] => []
  | c :: cs =>
    match digitValue c with
    | some d => if d < r then d :: radixPrefix r cs else []
    | none => []

/-- The integer written by a list of digit values of radix `r`, most significant first. -/
def digitsValue (r : Nat) (ds : List Nat) : Nat := ds.foldl (fun acc d => acc * r + d) 0

/-- The global function `parseInt(string, radix)` on a string; `radix = 0` stands for an
omitted radix. The result `none` is `NaN`; an integer result is kept exact. -/
def parseInt (s : List Char) (radix : Nat) : Option Int :=
  let s1 := s.dropWhile isWhiteSpace
  let neg := s1.head? == some '-'
  let s2 := if s1.head? = some '-' ∨ s1.head? = some '+' then s1.tail else s1
  if radix ≠ 0 ∧ (radix < 2 ∨ 36 < radix) then none
  else
    let stripPrefix := decide (radix = 0 ∨ radix = 16)
    let r0 := if radix = 0 then 10 else radix
    let hex := s2.take 2 == ['0', 'x'] || s2.take 2 == ['0', 'X']
    let r := if stripPrefix && hex then 16 else r0
    let s3 := if stripPrefix && hex then s2.drop 2 else s2
    match radixPrefix r s3 with
    | [] => none
    | ds => some (if neg then -(digitsValue r ds : Int) else (digitsValue r ds : Int))

/-- The comparison `pc >= n` on a `parseInt` result: false on `NaN`. -/
def numGe (pc : Option Int) (n : Int) : Bool :=
  match pc with
  | some v => decide (n ≤ v)
  | none => false

/-- The comparison `pc <= n` on a `parseInt` result: false on `NaN`. -/
def numLe (pc : Option Int) (n : Int) : Bool :=
  match pc with
  | some v => decide (v ≤ n)
  | none => false

/-- The character of a decimal digit. -/
def digitChar (d : Nat) : Char := Char.ofNat (48 + d)

/-- Worker of `decimalNat`: most significant digit first, at most `fuel` digits. -/
def decimalAux : Nat → Nat → List Char → List Char
  | 0, _, acc => acc
  | fuel + 1, n, acc =>
    if n < 10 then digitChar n :: acc
    else decimalAux fuel (n / 10) (digitChar (n % 10) :: acc)

/-- `Number::toString` of a non-negative integer: its decimal digits. -/
def decimalNat (n : Nat) : List Char := decimalAux (n + 1) n []

/-! ## `api_scraper.js`: state from the postcode -/

/-- The function `extractStateFromLocation` of `api_scraper.js`. -/
def extractStateFromLocation (location : JsVal) : Except JsError JsVal := do
  let postcode ← getProp location "postcode".toList
  if !truthy postcode then .ok (.str "Unknown".toList)
  else
    let pc := parseInt (toStr postcode) 0
    if numGe pc 1000 && numLe pc 2999 then .ok (.str "NSW".toList)
    else if numGe pc 3000 && numLe pc 3999 then .ok (.str "VIC".toList)
    else if numGe pc 4000 && numLe pc 4999 then .ok (.str "QLD".toList)
    else if numGe pc 5000 && numLe pc 5999 then .ok (.str "SA".toList)
    else if numGe pc 6000 && numLe pc 6999 then .ok (.str "WA".toList)
    else if numGe pc 7000 && numLe pc 7999 then .ok (.str "TAS".toList)
    else if numGe pc 800 && numLe pc 999 then .ok (.str "NT".toList)
    else if numGe pc 200 && numLe pc 299 then .ok (.str "ACT".toList)
    else .ok (.str "Unknown".toList)

/-! ## `JSON.stringify` -/

/-- A lower-case hexadecimal digit. -/
def hexDigitChar (n : Nat) : Char := if n < 10 then Char.ofNat (48 + n) else Char.ofNat (87 + n)

/-- The escape of one character inside a JSON string (`QuoteJSONString`). -/
def quoteJsonChar (c : Char) : List Char :=
  let n := c.toNat
  if n = 34 then [Char.ofNat 92, Char.ofNat 34]
  else if n = 92 then [Char.ofNat 92, Char.ofNat 92]
  else if n = 8 then [Char.ofNat 92, 'b']
  else if n = 9 then [Char.ofNat 92, 't']
  else if n = 10 then [Char.ofNat 92, 'n']
  else if n = 12 then [Char.ofNat 92, 'f']
  else if n = 13 then [Char.ofNat 92, 'r']
  else if n < 32 then [Char.ofNat 92, 'u', '0', '0', hexDigitChar (n / 16), hexDigitChar (n % 16)]
  else [c]

/-- A string as a JSON string literal. -/
def quoteJson (s : List Char) : List Char :=
  Char.ofNat 34 :: (s.flatMap quoteJsonChar ++ [Char.ofNat 34])

mutual
/-- The text `JSON.stringify` writes for a value in element position, where `undefined`
is written `null`, as are the numbers `NaN`, `Infinity` and `-Infinity`. -/
def jsonText : JsVal → List Char
  | .undefined => "null".toList
  | .null => "null".toList
  | .bool true => "true".toList
  | .bool false => "false".toList
  | .num t =>
    if t = "NaN".toList ∨ t = "Infinity".toList ∨ t = "-Infinity".toList then "null".toList
    else t
  | .str s => quoteJson s
  | .arr xs => '[' :: (jsonElems xs ++ [']'])
  | .obj fields => '{' :: (jsonMembers fields false ++ ['}'])
termination_by structural v => v
/-- The elements of an array, separated by commas. -/
def jsonElems : List JsVal → List Char
  | [] => []
  | x :: xs =>
    jsonText x ++
    (match xs with
      | [] => []
      | _ :: _ => ',' :: jsonElems xs)
termination_by structural xs => xs
/-- The members of an object, separated by commas; a property holding `undefined` is left
out. The flag tells whether a member has been written before. -/
def jsonMembers : List (List Char × JsVal) → Bool → List Char
  | [], _ => []
  | (k, v) :: rest, written =>
    match v with
    | .undefined => jsonMembers rest written
    | _ =>
      (if written then [','] else []) ++ quoteJson k ++ ':' :: jsonText v ++
        jsonMembers rest true
termination_by structural fields => fields
end

/-- The function `JSON.stringify(v)`: `undefined` for `undefined`, a string otherwise. -/
def jsonStringify (v : JsVal) : JsVal :=
  match v with
  | .undefined => .undefined
  | _ => .str (jsonText v)

/-! ## `api_scraper.js`: field resolution -/

/-- The expression `a || e` where evaluating `e` may throw. -/
def orElse (a : JsVal) (e : Except JsError JsVal) : Except JsError JsVal :=
  if truthy a then .ok a else e

/-- The helper `extractStringValue` inside `convertShiftData`. -/
def extractStringValue (field : JsVal) : Except JsError JsVal :=
  if !truthy field then .ok (.str [])
  else if typeOf field = .tString then .ok field
  else if typeOf field = .tObject then do
    let value ← getProp field "value".toList
    orElse value (do
      let label ← getProp field "label".toList
      orElse label (do
        let name ← getProp field "name".toList
        orElse name (.ok (jsonStringify field))))
  else .ok (.str (toStr field))

/-- The body of the `try` block of `convertShiftData`. -/
def convertShiftDataBody (apiShift location : JsVal) : Except JsError JsVal := do
  let attrs := jsOr (← getProp apiShift "attributes".toList) (.obj [])
  let niceData := jsOr (← getProp apiShift "nice".toList) (.obj [])
  let _objectData := jsOr (← getProp apiShift "object".toList) (.obj [])
  let dayField ← orElse (← getProp niceData "start_timestamp__dayofweek".toList) (do
    extractStringValue
      (← orElse (← getProp attrs "custom_what_days_it_occurs".toList)
          (getProp attrs "day".toList)))
  let startTime ← orElse (← getProp niceData "start_timestamp__time".toList) (do
    extractStringValue
      (← orElse (← getProp attrs "custom_start_time".toList)
          (getProp attrs "start_time".toList)))
  let endTime ← orElse (← getProp niceData "end_timestamp__time".toList) (do
    extractStringValue
      (← orElse (← getProp attrs "custom_end_time".toList)
          (getProp attrs "end_time".toList)))
  let state ← extractStateFromLocation location
  let serviceName ← getProp location "name".toList
  let suburb ← getProp location "city".toList
  let address ← orElse (← getProp location "street".toList) (getProp location "city".toList)
  let lat ← getProp location "lat".toList
  let lng ← getProp location "lng".toList
  let shiftStatus ← extractStringValue (← getProp attrs "custom_shift_status".toList)
  let vanAsset ← extractStringValue (← getProp attrs "custom_van_asset".toList)
  .ok (.obj [
    ("service_name".toList, serviceName),
    ("suburb".toList, suburb),
    ("state".toList, state),
    ("address".toList, address),
    ("lat".toList, lat),
    ("lng".toList, lng),
    ("day".toList, dayField),
    ("start_time".toList, startTime),
    ("end_time".toList, endTime),
    ("shift_status".toList, shiftStatus),
    ("van_asset".toList, vanAsset)])

/-- The function `convertShiftData` of `api_scraper.js`: the `catch` turns every exception
of the body into `null`. -/
def convertShiftData (apiShift location : JsVal) : JsVal :=
  match convertShiftDataBody apiShift location with
  | .ok shift => shift
  | .error _ => .null

/-- The loop of `main` over the payloads fetched for one location: a converted shift is
pushed onto `allShifts` when it is truthy. -/
def pushConverted (allShifts : List JsVal) (location : JsVal) (shiftData : List JsVal) :
    List JsVal :=
  shiftData.foldl
    (fun acc apiShift =>
      let convertedShift := convertShiftData apiShift location
      if truthy convertedShift then acc ++ [convertedShift] else acc)
    allShifts

/-- The collection loop of `main` over the locations and the payloads fetched for each. -/
def collectShifts (fetched : List (JsVal × List JsVal)) : List JsVal :=
  fetched.foldl (fun acc p => pushConverted acc p.1 p.2) []

/-- The callback of the completeness filter of `main`:
`shift.service_name && shift.suburb && (shift.day || shift.start_time || shift.end_time)`. -/
def completeTest (shift : JsVal) : Except JsError JsVal := do
  let serviceName ← getProp shift "service_name".toList
  if !truthy serviceName then .ok serviceName
  else
    let suburb ← getProp shift "suburb".toList
    if !truthy suburb then .ok suburb
    else
      orElse (← getProp shift "day".toList) (do
        orElse (← getProp shift "start_time".toList) (getProp shift "end_time".toList))

/-- The method `Array.prototype.filter` with a callback that may throw. -/
def filterJs (f : JsVal → Except JsError JsVal) : List JsVal → Except JsError (List JsVal)
  | [] => .ok []
  | x :: xs => do
    let keep ← f x
    let rest ← filterJs f xs
    .ok (if truthy keep then x :: rest else rest)

/-- The completeness filter of `main`: `allShifts.filter(...)`. -/
def completeShifts (allShifts : List JsVal) : Except JsError (List JsVal) :=
  filterJs completeTest allShifts

/-- The state table of the postcode-range strategy, as the specification words it:
inclusive ranges of the postcode read as an integer, `Unknown` outside all of them. -/
def stateOfPostcode (n : Int) : List Char :=
  if 1000 ≤ n ∧ n ≤ 2999 then "NSW".toList
  else if 3000 ≤ n ∧ n ≤ 3999 then "VIC".toList
  else if 4000 ≤ n ∧ n ≤ 4999 then "QLD".toList
  else if 5000 ≤ n ∧ n ≤ 5999 then "SA".toList
  else if 6000 ≤ n ∧ n ≤ 6999 then "WA".toList
  else if 7000 ≤ n ∧ n ≤ 7999 then "TAS".toList
  else if 800 ≤ n ∧ n ≤ 999 then "NT".toList
  else if 200 ≤ n ∧ n ≤ 299 then "ACT".toList
  else "Unknown".toList

/-- The state of a parsed postcode: the table on an integer, `Unknown` on `NaN`. -/
def stateOfParsed : Option Int → List Char
  | some n => stateOfPostcode n
  | none => "Unknown".toList

/-- The eight state codes and `Unknown`. -/
def stateCodes : List (List Char) :=
  ["NSW".toList, "VIC".toList, "QLD".toList, "SA".toList, "WA".toList, "TAS".toList,
   "NT".toList, "ACT".toList, "Unknown".toList]

/-- A location record holding just a postcode. -/
def locationWithPostcode (postcode : JsVal) : JsVal :=
  .obj [("postcode".toList, postcode)]

/-! ## CSV encoding -/

/-- The method `Array.prototype.join` on an array of strings. -/
def joinStrings (sep : Char) : List (List Char) → List Char
  | [] => []
  | x :: xs =>
    x ++
    (match xs with
      | [] => []
      | _ :: _ => sep :: joinStrings sep xs)

/-- The method `String.prototype.split` with a one-character separator. -/
def splitChar (sep : Char) : List Char → List (List Char)
  | [] => [[]]
  | c :: cs =>
    if c = sep then [] :: splitChar sep cs
    else
      match splitChar sep cs with
      | [] => [[c]]
      | seg :: segs => (c :: seg) :: segs

/-- The replacement `value.replace(/"/g, '""')`: every double quote doubled. -/
def doubleQuotes (s : List Char) : List Char :=
  s.flatMap (fun c => if c = '"' then ['"', '"'] else [c])

/-- The callback of `headers.map` in `convertToCSV`: a string holding a comma or a double
quote is wrapped in double quotes with its quotes doubled, any other value is passed on. -/
def csvCell (value : JsVal) : JsVal :=
  match value with
  | .str s =>
    if s.contains ',' || s.contains '"' then .str ('"' :: (doubleQuotes s ++ ['"']))
    else value
  | _ => value

/-- The function `convertToCSV` of `api_scraper.js`, on the validated records. -/
def convertToCSV (shifts : List (List (List Char × JsVal))) : List Char :=
  match shifts with
  | [] => []
  | first :: _ =>
    let headers := first.map Prod.fst
    let csvRows := [joinStrings ',' headers]
    let dataRows := shifts.map (fun shift =>
      joinComma (headers.map (fun header => csvCell (lookupKey header shift))))
    joinStrings (Char.ofNat 10) (csvRows ++ dataRows)

/-- The function `convertToCSV` of `scraper.js`, on the validated records. -/
def Scraper.convertToCSV (shifts : List (List (List Char × JsVal))) : List Char :=
  match shifts with
  | [] => []
  | first :: _ =>
    let headers := first.map Prod.fst
    let csvHeaders := joinStrings ',' headers
    let csvRows := shifts.map (fun shift =>
      joinComma (headers.map (fun header => csvCell (lookupKey header shift))))
    joinStrings (Char.ofNat 10) (csvHeaders :: csvRows)

/-- The plain text of a value in a row: the text of a string or number, nothing for an
absent or `null` value. -/
def plainText : JsVal → List Char
  | .undefined => []
  | .null => []
  | v => toStr v

/-- The rendering of one value as the specification words it: a string holding a comma or
a double quote wrapped in double quotes with every inner double quote doubled, any other
value as its plain text. -/
def renderCell : JsVal → List Char
  | .str s =>
    if ',' ∈ s ∨ '"' ∈ s then
      ['"'] ++ s.flatMap (fun c => if c = '"' then ['"', '"'] else [c]) ++ ['"']
    else s
  | v => plainText v

/-- The lines of the table as the specification words them: the header line, the first
record's field names joined by commas, then one line per record holding the renderings of
its values for the header fields joined by commas. -/
def csvLines (first : List (List Char × JsVal)) (records : List (List (List Char × JsVal))) :
    List (List Char) :=
  joinStrings ',' (first.map Prod.fst) ::
    records.map (fun r =>
      joinStrings ',' ((first.map Prod.fst).map (fun k => renderCell (lookupKey k r))))

/-- The naive decoding of a table: split into lines at line feeds, each line into fields at
commas. -/
def decodeCsv (text : List Char) : List (List (List Char)) :=
  (splitChar (Char.ofNat 10) text).map (splitChar ',')

/-- A text free of commas, double quotes and line feeds. -/
def isPlain (s : List Char) : Prop :=
  ',' ∉ s ∧ '"' ∉ s ∧ Char.ofNat 10 ∉ s

/-! ## Regular expressions

The patterns of `scraper.js` are sequences of literals, greedy quantified character
classes, alternations of literals and capture groups that do not nest. They are matched by
backtracking in the order JavaScript tries: a quantified class its longest run first, an
alternation its choices from left to right. -/

/-- One item of a pattern. -/
inductive ReItem where
  | lit (s : List Char)
  | cls (p : Char → Bool) (lo : Nat) (hi : Option Nat)
  | alt (choices : List (List Char))
  | groupOpen
  | groupClose

/-- The character a pattern or text character is compared by under the flag `i`: an ASCII
letter by its upper case, any other character by itself. A character outside ASCII never
canonicalises to an ASCII character, and all pattern characters are ASCII. -/
def canonicalize (c : Char) : Char :=
  if 97 ≤ c.toNat ∧ c.toNat ≤ 122 then Char.ofNat (c.toNat - 32) else c

/-- Whether a text character matches a pattern character. -/
def charMatches (ignoreCase : Bool) (pat c : Char) : Bool :=
  if ignoreCase then canonicalize pat == canonicalize c else pat == c

/-- The class `\d`. -/
def isDigit (c : Char) : Bool := 48 ≤ c.toNat && c.toNat ≤ 57

/-- The class `\w`. -/
def isWordChar (c : Char) : Bool :=
  (97 ≤ c.toNat && c.toNat ≤ 122) || (65 ≤ c.toNat && c.toNat ≤ 90) || isDigit c || c == '_'

/-- Matching a literal at the start of the text: the matched text and the rest. -/
def litPrefix (ignoreCase : Bool) : List Char → List Char → Option (List Char × List Char)
  | [], text => some ([], text)
  | _ :: _, [] => none
  | p :: ps, c :: cs =>
    if charMatches ignoreCase p c then
      match litPrefix ignoreCase ps cs with
      | some (m, rest) => some (c :: m, rest)
      | none => none
    else none

/-- The longest run a quantified class may take at the start of the text. -/
def classMax (p : Char → Bool) (hi : Option Nat) (text : List Char) : Nat :=
  match hi with
  | some h => min h (text.takeWhile p).length
  | none => (text.takeWhile p).length

/-- Backtracking over the length a quantified class takes, from `n` down to `lo`: the first
length after which the continuation matches. -/
def backtrack (lo : Nat) (text : List Char)
    (cont : List Char → Option (List (List Char) × List Char)) :
    Nat → Option (List (List Char) × List Char)
  | 0 =>
    if lo = 0 then
      match cont text with
      | some (segs, rest) => some ([] :: segs, rest)
      | none => none
    else none
  | n + 1 =>
    if n + 1 < lo then none
    else
      match cont (text.drop (n + 1)) with
      | some (segs, rest) => some (text.take (n + 1) :: segs, rest)
      | none => backtrack lo text cont n

/-- Trying the choices of an alternation from left to right. -/
def tryChoices (ignoreCase : Bool) (text : List Char)
    (cont : List Char → Option (List (List Char) × List Char)) :
    List (List Char) → Option (List (List Char) × List Char)
  | [] => none
  | choice :: choices =>
    match litPrefix ignoreCase choice text with
    | some (m, rest) =>
      match cont rest with
      | some (segs, rest') => some (m :: segs, rest')
      | none => tryChoices ignoreCase text cont choices
    | none => tryChoices ignoreCase text cont choices

/-- Matching a pattern at the start of the text: the text each item took, and the rest of
the text after the match. -/
def matchItems (ignoreCase : Bool) :
    List ReItem → List Char → Option (List (List Char) × List Char)
  | [], text => some ([], text)
  | .lit s :: items, text =>
    match litPrefix ignoreCase s text with
    | some (m, rest) =>
      match matchItems ignoreCase items rest with
      | some (segs, rest') => some (m :: segs, rest')
      | none => none
    | none => none
  | .cls p lo hi :: items, text =>
    backtrack lo text (matchItems ignoreCase items) (classMax p hi text)
  | .alt choices :: items, text =>
    tryChoices ignoreCase text (matchItems ignoreCase items) choices
  | .groupOpen :: items, text =>
    match matchItems ignoreCase items text with
    | some (segs, rest) => some ([] :: segs, rest)
    | none => none
  | .groupClose :: items, text =>
    match matchItems ignoreCase items text with
    | some (segs, rest) => some ([] :: segs, rest)
    | none => none

/-- The texts of the capture groups, from the text each item took. The last argument is
the text gathered for the group that is open, if one is. -/
def captures : List ReItem → List (List Char) → Option (List Char) → List (List Char)
  | .groupOpen :: items, _ :: segs, _ => captures items segs (some [])
  | .groupClose :: items, _ :: segs, cur => cur.getD [] :: captures items segs none
  | _ :: items, seg :: segs, cur => captures items segs (cur.map (fun t => t ++ seg))
  | _, _, _ => []

/-- The leftmost match of a pattern in a text: the capture groups of the match at the first
position where the pattern matches. This is `String.prototype.match` with a pattern
without the flag `g`, less the whole match. -/
def reMatch (ignoreCase : Bool) (items : List ReItem) : List Char → Option (List (List Char))
  | [] =>
    match matchItems ignoreCase items [] with
    | some (segs, _) => some (captures items segs none)
    | none => none
  | c :: cs =>
    match matchItems ignoreCase items (c :: cs) with
    | some (segs, _) => some (captures items segs none)
    | none => reMatch ignoreCase items cs

/-- The successive results of `exec` on a pattern with the flag `g` that cannot match the
empty string, as the loop `while ((m = pattern.exec(text)) !== null)` sees them: the
capture groups of each match, the search resuming where the previous match ended. The
number counts the characters of the previous match still to be passed. -/
def execAll (ignoreCase : Bool) (items : List ReItem) :
    List Char → Nat → List (List (List Char))
  | [], _ => []
  | _ :: cs, skip + 1 => execAll ignoreCase items cs skip
  | c :: cs, 0 =>
    match matchItems ignoreCase items (c :: cs) with
    | some (segs, rest) =>
      captures items segs none ::
        execAll ignoreCase items cs ((c :: cs).length - rest.length - 1)
    | none => execAll ignoreCase items cs 0

/-- The loop of `String.prototype.split` with a pattern: `pending` is the text since the
end of the last separator, the number counts the characters of a separator still to be
passed. -/
def splitLoop (ignoreCase : Bool) (items : List ReItem) :
    List Char → List Char → Nat → List (List Char)
  | pending, [], _ => [pending]
  | _, _ :: cs, skip + 1 => splitLoop ignoreCase items [] cs skip
  | pending, c :: cs, 0 =>
    match matchItems ignoreCase items (c :: cs) with
    | some (segs, rest) =>
      if (c :: cs).length - rest.length = 0 then
        if pending = [] then splitLoop ignoreCase items [c] cs 0
        else pending :: (captures items segs none ++ splitLoop ignoreCase items [c] cs 0)
      else
        pending :: (captures items segs none ++
          splitLoop ignoreCase items [] cs ((c :: cs).length - rest.length - 1))
    | none => splitLoop ignoreCase items (pending ++ [c]) cs 0

/-- The method `String.prototype.split` with a pattern whose groups all take part in every
match: the pieces between the separators, each followed by the separator's groups. -/
def splitRegex (ignoreCase : Bool) (items : List ReItem) (text : List Char) :
    List (List Char) :=
  match text with
  | [] =>
    match matchItems ignoreCase items [] with
    | some _ => []
    | none => [[]]
  | _ :: _ => splitLoop ignoreCase items [] text 0

/-! ## `scraper.js` -/

/-- The method `String.prototype.trim`. -/
def trim (s : List Char) : List Char :=
  ((s.dropWhile isWhiteSpace).reverse.dropWhile isWhiteSpace).reverse

/-- The method `String.prototype.includes`. -/
def includes (s sub : List Char) : Bool :=
  match s with
  | [] => sub.isEmpty
  | c :: cs => sub.isPrefixOf (c :: cs) || includes cs sub

/-- The method `String.prototype.toLowerCase` on ASCII text. -/
def toLowerAscii (s : List Char) : List Char :=
  s.map (fun c => if 65 ≤ c.toNat ∧ c.toNat ≤ 90 then Char.ofNat (c.toNat + 32) else c)

/-- The method `padStart(2, '0')`. -/
def padStart2 (s : List Char) : List Char :=
  List.replicate (2 - s.length) '0' ++ s

/-- `Number::toString` of the sum `parseInt(hours, 10) + 12`, kept exact. -/
def numberText : Option Int → List Char
  | none => "NaN".toList
  | some (Int.ofNat n) => decimalNat n
  | some (Int.negSucc n) => '-' :: decimalNat (n + 1)

/-- The pattern `/\s*(am|pm)/i` of `convertTo24Hour`. -/
def meridiemPattern : List ReItem :=
  [.cls isWhiteSpace 0 none, .groupOpen, .alt ["am".toList, "pm".toList], .groupClose]

/-- The text of `hours` in `convertTo24Hour` after the two `if` statements. -/
def hoursIn24 (hours modifier : List Char) : List Char :=
  let hours1 := if hours = "12".toList then "00".toList else hours
  if toLowerAscii modifier = "pm".toList then
    numberText ((parseInt hours1 10).map (fun n => n + 12))
  else hours1

/-- The function `convertTo24Hour` of `scraper.js`. It throws when the text holds no
`am` or `pm`, `modifier` being `undefined` then. -/
def convertTo24Hour (time12h : List Char) : Except JsError (List Char) :=
  let parts := splitRegex true meridiemPattern time12h
  let time := parts.headD []
  match parts.tail.head? with
  | none => .error .typeError
  | some modifier =>
    let fields := splitChar ':' time
    let hours := fields.headD []
    let minutes := (fields.tail.head?).getD "undefined".toList
    .ok (padStart2 (hoursIn24 hours modifier) ++ ':' :: minutes)

/-- The function `extractStateFromAddress` of `scraper.js`. -/
def extractStateFromAddress (address : List Char) : List Char :=
  let parts := splitChar ',' address
  match parts.tail.head? with
  | some part =>
    let suburb := trim part
    if includes suburb "Hobart".toList then "TAS".toList
    else if includes suburb "Brisbane".toList then "QLD".toList
    else if includes suburb "Sydney".toList || includes suburb "Newcastle".toList then
      "NSW".toList
    else if includes suburb "Melbourne".toList || includes suburb "Geelong".toList then
      "VIC".toList
    else if includes suburb "Perth".toList then "WA".toList
    else if includes suburb "Adelaide".toList then "SA".toList
    else if includes suburb "Darwin".toList then "NT".toList
    else if includes suburb "Canberra".toList then "ACT".toList
    else "Unknown".toList
  | none => "Unknown".toList

/-- The function `extractSuburbFromAddress` of `scraper.js`. -/
def extractSuburbFromAddress (address : List Char) : List Char :=
  let parts := splitChar ',' address
  match parts.tail.head? with
  | some part => trim part
  | none => "Unknown".toList

/-- The pattern `/<div class="location-name">([^<]+)<\/div>/`. -/
def locationNamePattern : List ReItem :=
  [.lit "<div class=\"location-name\">".toList, .groupOpen,
    .cls (fun c => c != '<') 1 none, .groupClose, .lit "</div>".toList]

/-- The pattern of the address anchor, with the two parts of the query and the visible
text as groups. -/
def addressPattern : List ReItem :=
  [.lit "<a href=\"https://www.google.com/maps/search/?api=1&query=".toList,
    .groupOpen, .cls (fun c => c != ',') 1 none, .groupClose, .lit ",".toList,
    .groupOpen, .cls (fun c => c != '"') 1 none, .groupClose,
    .lit "\" class=\"address\">".toList,
    .groupOpen, .cls (fun c => c != '<') 1 none, .groupClose, .lit "</a>".toList]

/-- The pattern `/<div class="shift-time"[^>]*>([^<]+)<\/div>/g`. -/
def shiftPattern : List ReItem :=
  [.lit "<div class=\"shift-time\"".toList, .cls (fun c => c != '>') 0 none,
    .lit ">".toList, .groupOpen, .cls (fun c => c != '<') 1 none, .groupClose,
    .lit "</div>".toList]

/-- One time of the shift text: `\d{1,2}:\d{2}\s*(?:am|pm)`. -/
def clockItems : List ReItem :=
  [.cls isDigit 1 (some 2), .lit ":".toList, .cls isDigit 2 (some 2),
    .cls isWhiteSpace 0 none, .alt ["am".toList, "pm".toList]]

/-- The pattern of the shift text, with the flag `i`:
`(\w{3})\s+\d+\s+\w+,\s*(\d{1,2}:\d{2}\s*(?:am|pm))\s*-\s*(\d{1,2}:\d{2}\s*(?:am|pm))`. -/
def timePattern : List ReItem :=
  [.groupOpen, .cls isWordChar 3 (some 3), .groupClose,
    .cls isWhiteSpace 1 none, .cls isDigit 1 none, .cls isWhiteSpace 1 none,
    .cls isWordChar 1 none, .lit ",".toList, .cls isWhiteSpace 0 none, .groupOpen] ++
  clockItems ++
  [.groupClose, .cls isWhiteSpace 0 none, .lit "-".toList, .cls isWhiteSpace 0 none,
    .groupOpen] ++
  clockItems ++ [.groupClose]

/-- The body of the `while` loop of `parseShiftData`, over the successive matches of the
shift pattern. -/
def parseShiftLoop (locationName address : List Char) (lat lng : JsVal) :
    List (List (List Char)) → List JsVal → Except JsError (List JsVal)
  | [], shifts => .ok shifts
  | shiftMatch :: more, shifts =>
    let shiftText := trim (shiftMatch.headD [])
    match reMatch true timePattern shiftText with
    | some timeMatch =>
      let day := timeMatch.headD []
      let startTime := (timeMatch.tail.head?).getD []
      let endTime := (timeMatch.tail.tail.head?).getD []
      let state := extractStateFromAddress address
      let suburb := extractSuburbFromAddress address
      match convertTo24Hour startTime with
      | .error e => .error e
      | .ok start24 =>
        match convertTo24Hour endTime with
        | .error e => .error e
        | .ok end24 =>
          parseShiftLoop locationName address lat lng more
            (shifts ++ [.obj [
              ("service_name".toList, .str locationName),
              ("suburb".toList, .str suburb),
              ("state".toList, .str state),
              ("address".toList, .str address),
              ("lat".toList, lat),
              ("lng".toList, lng),
              ("day".toList, .str day),
              ("start_time".toList, .str start24),
              ("end_time".toList, .str end24)]])
    | none => parseShiftLoop locationName address lat lng more shifts

/-- The function `parseShiftData` of `scraper.js`. The built-in `parseFloat`, which reads a
floating-point number, is a parameter. -/
def parseShiftData (parseFloat : List Char → JsVal) (html slug : List Char) :
    Except JsError (List JsVal) :=
  let locationName :=
    match reMatch false locationNamePattern html with
    | some locationNameMatch => locationNameMatch.headD []
    | none => slug.map (fun c => if c = '_' then ' ' else c)
  let addressMatch := reMatch false addressPattern html
  let lat :=
    match addressMatch with
    | some m => parseFloat (m.headD [])
    | none => .num "0".toList
  let lng :=
    match addressMatch with
    | some m => parseFloat ((m.tail.head?).getD [])
    | none => .num "0".toList
  let address :=
    match addressMatch with
    | some m => (m.tail.tail.head?).getD []
    | none => []
  parseShiftLoop locationName address lat lng (execAll false shiftPattern html 0) []

/-! ## Shape validation

The schemas are built with the validation library `zod`, which is not part of the
repository. Its validators are embedded by what the library documents of them: `z.string()`
accepts a string, `z.number()` a number other than `NaN`, `.optional()` also `undefined`,
`z.object(shape)` a plain object whose value under every key of the shape is accepted, its
result holding the keys of the shape that the object has, in the order of the shape, and
`z.array(item)` an array whose elements are all accepted. The method `parse` returns the
result or throws an error holding the issues found, each with its path. -/

/-- The validators the schemas use. -/
inductive ZType where
  | string
  | number
  | optional (inner : ZType)

/-- Whether a validator accepts a value. -/
def ZType.accepts : ZType → JsVal → Bool
  | .string, v => typeOf v == .tString
  | .number, v =>
    match v with
    | .num t => t != "NaN".toList
    | _ => false
  | .optional inner, v =>
    match v with
    | .undefined => true
    | _ => inner.accepts v

/-- An issue of a validation, by its path: the index of the element and, for an issue
inside the element, the key. -/
structure ZodIssue where
  index : Nat
  key : Option (List Char)

/-- Whether an object has an own property under the key. -/
def hasKey (k : List Char) (r : List (List Char × JsVal)) : Bool :=
  r.any (fun kv => kv.1 == k)

/-- The issues `z.object(shape)` finds in the element at an index. -/
def objectIssues (shape : List (List Char × ZType)) (index : Nat) (v : JsVal) :
    List ZodIssue :=
  match v with
  | .obj r =>
    shape.filterMap (fun kt =>
      if kt.2.accepts (lookupKey kt.1 r) then none else some ⟨index, some kt.1⟩)
  | _ => [⟨index, none⟩]

/-- The result of `z.object(shape)` on an accepted object. -/
def objectOutput (shape : List (List Char × ZType)) (r : List (List Char × JsVal)) :
    List (List Char × JsVal) :=
  shape.filterMap (fun kt => if hasKey kt.1 r then some (kt.1, lookupKey kt.1 r) else none)

/-- The issues `z.array(z.object(shape))` finds in the elements from an index on. -/
def arrayIssues (shape : List (List Char × ZType)) : Nat → List JsVal → List ZodIssue
  | _, [] => []
  | index, v :: vs => objectIssues shape index v ++ arrayIssues shape (index + 1) vs

/-- The results of `z.object(shape)` on the objects of an array. -/
def arrayOutput (shape : List (List Char × ZType)) : List JsVal → List (List (List Char × JsVal))
  | [] => []
  | .obj r :: vs => objectOutput shape r :: arrayOutput shape vs
  | _ :: vs => arrayOutput shape vs

/-- The method `z.array(z.object(shape)).parse` on an array: the validated records, or the
error with the issues. -/
def zodParse (shape : List (List Char × ZType)) (xs : List JsVal) :
    Except (List ZodIssue) (List (List (List Char × JsVal))) :=
  match arrayIssues shape 0 xs with
  | [] => .ok (arrayOutput shape xs)
  | issue :: issues => .error (issue :: issues)

/-- The shape of `ShiftSchema` of `api_scraper.js`. -/
def ShiftSchema : List (List Char × ZType) :=
  [("service_name".toList, .string),
    ("suburb".toList, .string),
    ("state".toList, .string),
    ("address".toList, .string),
    ("lat".toList, .number),
    ("lng".toList, .number),
    ("day".toList, .optional .string),
    ("start_time".toList, .optional .string),
    ("end_time".toList, .optional .string),
    ("shift_status".toList, .optional .string),
    ("van_asset".toList, .optional .string)]

/-- The shape of `ShiftSchema` of `scraper.js`. -/
def Scraper.ShiftSchema : List (List Char × ZType) :=
  [("service_name".toList, .string),
    ("suburb".toList, .string),
    ("state".toList, .string),
    ("address".toList, .optional .string),
    ("lat".toList, .number),
    ("lng".toList, .number),
    ("day".toList, .string),
    ("start_time".toList, .string),
    ("end_time".toList, .string)]

/-- A file `main` writes: the JSON file, given by the records that are serialised, or the
CSV file, given by its text. -/
inductive Artifact where
  | jsonFile (records : List (List (List Char × JsVal)))
  | csvFile (text : List Char)

/-- What a run leaves behind: the files written, in order, and the exit code. -/
structure RunResult where
  written : List Artifact
  exitCode : Nat

/-- The function `main` of `api_scraper.js` from the collected shifts on: nothing is done
for an empty collection; else the completeness filter, the validation and the two files;
an exception ends the run in the `catch` with exit code 1. -/
def mainAfterCollection (allShifts : List JsVal) : RunResult :=
  if allShifts.length = 0 then ⟨[], 0⟩
  else
    match completeShifts allShifts with
    | .error _ => ⟨[], 1⟩
    | .ok complete =>
      match zodParse ShiftSchema complete with
      | .error _ => ⟨[], 1⟩
      | .ok validatedShifts =>
        ⟨[.jsonFile validatedShifts, .csvFile (convertToCSV validatedShifts)], 0⟩

/-- The function `main` of `scraper.js` from the collected shifts on: the validation and
the two files; an exception ends the run in the `catch` with exit code 1. -/
def Scraper.mainAfterCollection (shifts : List JsVal) : RunResult :=
  match zodParse Scraper.ShiftSchema shifts with
  | .error _ => ⟨[], 1⟩
  | .ok validatedShifts =>
    ⟨[.jsonFile validatedShifts, .csvFile (Scraper.convertToCSV validatedShifts)], 0⟩

/-! ## Reading the code's results -/

/-- The values `null` and `undefined`, whose properties cannot be read. -/
def isNullish : JsVal → Bool
  | .undefined => true
  | .null => true
  | _ => false

/-- The value found under a key of a payload, a sub-map or a record: the own property of an
object, `undefined` where there is none. -/
def propOf (v : JsVal) (k : List Char) : JsVal :=
  match v with
  | .obj fields => lookupKey k fields
  | _ => .undefined

/-- The sub-map of a payload under a key, the empty map when the payload has none. -/
def subMap (payload : JsVal) (k : List Char) : JsVal := jsOr (propOf payload k) (.obj [])

/-- Nested-or-scalar resolution as the specification words it: an empty candidate resolves
to the empty string, a plain string to itself, a structure to the first non-empty of its
`value`, `label`, `name` sub-fields and else to its serialisation, any other scalar to its
text. -/
def resolveValue (field : JsVal) : JsVal :=
  if !truthy field then .str []
  else
    match field with
    | .str s => .str s
    | .arr _ => jsonStringify field
    | .obj fields =>
      jsOr (lookupKey "value".toList fields)
        (jsOr (lookupKey "label".toList fields)
          (jsOr (lookupKey "name".toList fields) (jsonStringify field)))
    | v => .str (toStr v)

/-- The postcode-range state of a postcode value: `Unknown` for an empty one, else the
state of what `parseInt` reads from its text. -/
def stateOf (postcode : JsVal) : List Char :=
  if !truthy postcode then "Unknown".toList
  else stateOfParsed (parseInt (toStr postcode) 0)

/-- Emptiness of a field as the completeness rule means it: a text field is non-empty when
it holds at least one character, an absent or `null` field is empty, and a value of another
kind counts the way JavaScript counts it. -/
def nonEmpty : JsVal → Bool
  | .undefined => false
  | .null => false
  | .str s => decide (s ≠ [])
  | .bool b => b
  | .num t => decide (t ≠ "0".toList ∧ t ≠ "NaN".toList)
  | .arr _ => true
  | .obj _ => true

/-- The completeness rule on a record, as the specification words it: name and suburb
non-empty and at least one of day, start time, end time non-empty. -/
def isCompleteRecord (r : List (List Char × JsVal)) : Bool :=
  nonEmpty (lookupKey "service_name".toList r) && nonEmpty (lookupKey "suburb".toList r) &&
    (nonEmpty (lookupKey "day".toList r) || nonEmpty (lookupKey "start_time".toList r) ||
      nonEmpty (lookupKey "end_time".toList r))

/-- The record the resolution rules describe for a payload and a location, both present:
location fields copied, state from the postcode, each day/time field the computed one if
non-empty and else the resolution of the first non-empty attribute candidate. -/
def resolvedShift (apiShift location : JsVal) : JsVal :=
  let attrs := subMap apiShift "attributes".toList
  let niceData := subMap apiShift "nice".toList
  .obj [
    ("service_name".toList, propOf location "name".toList),
    ("suburb".toList, propOf location "city".toList),
    ("state".toList, .str (stateOf (propOf location "postcode".toList))),
    ("address".toList, jsOr (propOf location "street".toList) (propOf location "city".toList)),
    ("lat".toList, propOf location "lat".toList),
    ("lng".toList, propOf location "lng".toList),
    ("day".toList, jsOr (propOf niceData "start_timestamp__dayofweek".toList)
      (resolveValue (jsOr (propOf attrs "custom_what_days_it_occurs".toList)
        (propOf attrs "day".toList)))),
    ("start_time".toList, jsOr (propOf niceData "start_timestamp__time".toList)
      (resolveValue (jsOr (propOf attrs "custom_start_time".toList)
        (propOf attrs "start_time".toList)))),
    ("end_time".toList, jsOr (propOf niceData "end_timestamp__time".toList)
      (resolveValue (jsOr (propOf attrs "custom_end_time".toList)
        (propOf attrs "end_time".toList)))),
    ("shift_status".toList, resolveValue (propOf attrs "custom_shift_status".toList)),
    ("van_asset".toList, resolveValue (propOf attrs "custom_van_asset".toList))]

/-- The first non-empty candidate of a list, `undefined` when every candidate is empty. -/
def firstNonEmpty : List JsVal → JsVal
  | [] => .undefined
  | c :: cs => if nonEmpty c then c else firstNonEmpty cs

/-- The resolution order of one day or time field as the specification words it: the
computed candidate if it is non-empty, else the nested-or-scalar resolution of the first
non-empty attribute candidate, which is the empty string when all are empty. -/
def resolveField (computed : JsVal) (attributeCandidates : List JsVal) : JsVal :=
  if nonEmpty computed then computed else resolveValue (firstNonEmpty attributeCandidates)

/-- A payload whose only time information is the attribute `start_time`. -/
def plainStartTimePayload : JsVal :=
  .obj [("attributes".toList, .obj [("start_time".toList, .str "09:00".toList)])]

/-- A payload whose shift status is a structure holding the number 42, and whose computed
day of the week is the number 3. -/
def numericStatusPayload : JsVal :=
  .obj [("attributes".toList,
      .obj [("custom_shift_status".toList, .obj [("value".toList, .num "42".toList)])]),
    ("nice".toList, .obj [("start_timestamp__dayofweek".toList, .num "3".toList)])]

/-- A record with a name, a suburb and a day. -/
def wednesdayRecord : List (List Char × JsVal) :=
  [("service_name".toList, .str "Test Hall".toList), ("suburb".toList, .str "Hobart".toList),
    ("day".toList, .str "Wed".toList)]

/-- A record with a name and a suburb but no day and no times. -/
def undatedRecord : List (List Char × JsVal) :=
  [("service_name".toList, .str "Test Hall".toList), ("suburb".toList, .str "Hobart".toList),
    ("day".toList, .str [])]

/-- A record whose day holds a line feed, and no comma or double quote. -/
def twoLineDayRecord : List (List Char × JsVal) :=
  [("day".toList, .str ['M', 'o', 'n', Char.ofNat 10, 'T', 'u', 'e'])]

/-- Two records with the fields `day` and `lat`. -/
def dayLatRecords : List (List (List Char × JsVal)) :=
  [[("day".toList, .str "Wed".toList), ("lat".toList, .num "-42.88".toList)],
    [("day".toList, .str "Thu".toList), ("lat".toList, .num "147.33".toList)]]

/-- The ways of writing the hour `h` of a 12-hour time: its digits, and for an hour below
ten also with a leading zero. -/
def hourTexts (h : Nat) : List (List Char) :=
  if h < 10 then [decimalNat h, '0' :: decimalNat h] else [decimalNat h]

/-- The ways of writing `am` (for `false`) and `pm` (for `true`), in any letter case. -/
def meridiemTexts (pm : Bool) : List (List Char) :=
  if pm then ["pm".toList, "pM".toList, "Pm".toList, "PM".toList]
  else ["am".toList, "aM".toList, "Am".toList, "AM".toList]

/-- A number below one hundred written with two digits. -/
def twoDigits (n : Nat) : List Char := [digitChar (n / 10), digitChar (n % 10)]

/-- The hour of the 24-hour clock for the hour `h` of the 12-hour clock. -/
def hour24 (h : Nat) (pm : Bool) : Nat :=
  if pm then (if h = 12 then 12 else h + 12) else (if h = 12 then 0 else h)

/-- The characters of the clock part of a time: digits and the colon. -/
def isClockChar (c : Char) : Bool := isDigit c || c == ':'

/-- What the text taken by one item of a pattern looks like. -/
def itemTakes (ignoreCase : Bool) : ReItem → List Char → Prop
  | .lit s, seg => litPrefix ignoreCase s seg = some (seg, [])
  | .cls p lo hi, seg =>
    (∀ c ∈ seg, p c = true) ∧ lo ≤ seg.length ∧ ∀ h, hi = some h → seg.length ≤ h
  | .alt choices, seg => ∃ choice ∈ choices, litPrefix ignoreCase choice seg = some (seg, [])
  | .groupOpen, seg => seg = []
  | .groupClose, seg => seg = []

/-- The parts of one time of a shift text: one or two digits of hours, two digits of
minutes, a run of white space and `am` or `pm` in some letter case. -/
def ClockParts (hours minutes ws ap : List Char) (pm : Bool) : Prop :=
  (∀ c ∈ hours, isDigit c = true) ∧ 1 ≤ hours.length ∧ hours.length ≤ 2 ∧
  (∀ c ∈ minutes, isDigit c = true) ∧ minutes.length = 2 ∧
  (∀ c ∈ ws, isWhiteSpace c = true) ∧ ap ∈ meridiemTexts pm

/-- The groups of the shift-time elements of a page, in document order: the successive
matches of the shift pattern. -/
def shiftElements (html : List Char) : List (List (List Char)) :=
  execAll false shiftPattern html 0

/-- The fragment of a shift-time element: the three groups (weekday token, start time, end
time) of the leftmost match of the time pattern in the element's trimmed text, if it has
one. -/
def timeFragment (shiftMatch : List (List Char)) : Option (List (List Char)) :=
  reMatch true timePattern (trim (shiftMatch.headD []))

/-- The fragments of the matching shift-time elements of a page, in document order. -/
def shiftFragments (html : List Char) : List (List (List Char)) :=
  (shiftElements html).filterMap timeFragment

/-- The first address anchor of a page: the two parts of its query and its visible text. -/
def anchorOf (html : List Char) : Option (List Char × List Char × List Char) :=
  match reMatch false addressPattern html with
  | some [queryLat, queryLng, text] => some (queryLat, queryLng, text)
  | _ => none

/-- The address of a page: the visible text of its address anchor, empty without one. -/
def addressOf (html : List Char) : List Char :=
  match anchorOf html with
  | some (_, _, text) => text
  | none => []

/-- The latitude of a page: the number read from the first part of the anchor's query,
zero without an anchor. -/
def latOf (parseFloat : List Char → JsVal) (html : List Char) : JsVal :=
  match anchorOf html with
  | some (queryLat, _, _) => parseFloat queryLat
  | none => .num "0".toList

/-- The longitude of a page: the number read from the second part of the anchor's query,
zero without an anchor. -/
def lngOf (parseFloat : List Char → JsVal) (html : List Char) : JsVal :=
  match anchorOf html with
  | some (_, queryLng, _) => parseFloat queryLng
  | none => .num "0".toList

/-- The display name of a page: the text of its location-name element, and without one the
slug with underscores turned into spaces. -/
def locationNameOf (html slug : List Char) : List Char :=
  match reMatch false locationNamePattern html with
  | some m => m.headD []
  | none => slug.map (fun c => if c = '_' then ' ' else c)

/-- The second comma-delimited segment of an address, if it has one. -/
def secondSegment (address : List Char) : Option (List Char) :=
  (splitChar ',' address).tail.head?

/-- The suburb of an address: its trimmed second segment, `Unknown` when it has none. -/
def suburbOf (address : List Char) : List Char :=
  match secondSegment address with
  | some seg => trim seg
  | none => "Unknown".toList

/-- A Shift record of the HTML path. -/
def shiftRecord (serviceName suburb state address : List Char) (lat lng : JsVal)
    (day start24 end24 : List Char) : JsVal :=
  .obj [
    ("service_name".toList, .str serviceName),
    ("suburb".toList, .str suburb),
    ("state".toList, .str state),
    ("address".toList, .str address),
    ("lat".toList, lat),
    ("lng".toList, lng),
    ("day".toList, .str day),
    ("start_time".toList, .str start24),
    ("end_time".toList, .str end24)]

/-- The Shift of one fragment: its day is the fragment's weekday token, its times are what
`convertTo24Hour` returns on the fragment's two times, the rest comes from the page. -/
def IsShiftOf (serviceName address : List Char) (lat lng : JsVal) (frag : List (List Char))
    (shift : JsVal) : Prop :=
  ∃ start24 end24,
    convertTo24Hour ((frag.tail.head?).getD []) = .ok start24 ∧
    convertTo24Hour ((frag.tail.tail.head?).getD []) = .ok end24 ∧
    shift = shiftRecord serviceName (suburbOf address) (extractStateFromAddress address)
      address lat lng (frag.headD []) start24 end24

/-- A stand-in for `parseFloat` on a text that is the decimal rendering of a number: the
number with that rendering. -/
def numberOfText (s : List Char) : JsVal := .num s

/-- The page of the second end-to-end scenario. -/
def hobartPage : List Char :=
  ("<div class=\"shift-time\">Wed 25 June, 9:30 am - 11:30 am</div>" ++
    "<a href=\"https://www.google.com/maps/search/?api=1&query=-42.88,147.33\" " ++
    "class=\"address\">2 Swan Street,North Hobart,7000</a>").toList

/-- A page whose address anchor shows an address without a comma. -/
def oneSegmentPage : List Char :=
  ("<div class=\"shift-time\">Wed 25 June, 9:30 am - 11:30 am</div>" ++
    "<a href=\"https://www.google.com/maps/search/?api=1&query=-42.88,147.33\" " ++
    "class=\"address\">Hobart</a>").toList

/-- The city names of the address-substring strategy with their states, in the order
they are tried. -/
def cityStates : List (List Char × List Char) :=
  [("Hobart".toList, "TAS".toList), ("Brisbane".toList, "QLD".toList),
    ("Sydney".toList, "NSW".toList), ("Newcastle".toList, "NSW".toList),
    ("Melbourne".toList, "VIC".toList), ("Geelong".toList, "VIC".toList),
    ("Perth".toList, "WA".toList), ("Adelaide".toList, "SA".toList),
    ("Darwin".toList, "NT".toList), ("Canberra".toList, "ACT".toList)]

/-- The state of a segment as the specification words it: the state of the first city
name of the table that the segment contains, `Unknown` when it contains none. -/
def stateOfSegment (seg : List Char) : List Char :=
  match cityStates.find? (fun p => includes seg p.1) with
  | some p => p.2
  | none => "Unknown".toList

/-- The canonical form `HH:MM` of a time of the 24-hour clock: exactly two digits, a colon
and two digits, the hour from 00 to 23 and the minute from 00 to 59. -/
def isCanonicalTime : List Char → Bool
  | [a, b, sep, c, d] =>
    isDigit a && isDigit b && sep == ':' && isDigit c && isDigit d &&
      decide ((a.toNat - 48) * 10 + (b.toNat - 48) ≤ 23) &&
      decide ((c.toNat - 48) * 10 + (d.toNat - 48) ≤ 59)
  | _ => false

/-- A well-formed 12-hour time as the time pattern accepts it: an hour from 1 to 12 with
one or two digits, a colon, minutes from 00 to 59, a run of white space and `am` or `pm`
in some letter case. -/
def WellFormedClock (text : List Char) : Prop :=
  ∃ (h m : Nat) (pm : Bool) (hours ws ap : List Char),
    1 ≤ h ∧ h ≤ 12 ∧ m < 60 ∧ hours ∈ hourTexts h ∧ ap ∈ meridiemTexts pm ∧
    (∀ c ∈ ws, isWhiteSpace c = true) ∧
    text = hours ++ ':' :: (twoDigits m ++ (ws ++ ap))

/-- A page whose shift text has the hours 13 and 99 and the minutes 75 before `pm`. -/
def lateHourPage : List Char :=
  "<div class=\"shift-time\">Wed 25 June, 13:30 pm - 99:75 pm</div>".toList

/-- A page with a shift-time element, no address anchor and no location-name element. -/
def bareShiftPage : List Char :=
  "<div class=\"shift-time\">Wed 25 June, 9:30 am - 11:30 am</div>".toList

/-- A value that is a string. -/
def IsString (v : JsVal) : Prop := ∃ s, v = .str s

/-- A value that is a number other than `NaN`. -/
def IsNumber (v : JsVal) : Prop := ∃ t, v = .num t ∧ t ≠ "NaN".toList

/-- A field that is absent, or holds a string. -/
def AbsentOrString (v : JsVal) : Prop := v = .undefined ∨ IsString v

/-- The canonical shape of a record as `ShiftSchema` of `api_scraper.js` states it: name,
suburb, state and address strings, latitude and longitude numbers, and day, start time,
end time, shift status and van asset each absent or a string. -/
def ConformsToShape (r : List (List Char × JsVal)) : Prop :=
  IsString (lookupKey "service_name".toList r) ∧
  IsString (lookupKey "suburb".toList r) ∧
  IsString (lookupKey "state".toList r) ∧
  IsString (lookupKey "address".toList r) ∧
  IsNumber (lookupKey "lat".toList r) ∧
  IsNumber (lookupKey "lng".toList r) ∧
  AbsentOrString (lookupKey "day".toList r) ∧
  AbsentOrString (lookupKey "start_time".toList r) ∧
  AbsentOrString (lookupKey "end_time".toList r) ∧
  AbsentOrString (lookupKey "shift_status".toList r) ∧
  AbsentOrString (lookupKey "van_asset".toList r)

/-- A value of the type number, which `NaN` is too. -/
def IsNumeric (v : JsVal) : Prop := typeOf v = .tNumber

/-- The shape of a record as the specification words it for the validation: name, suburb,
state, address, day, start time and end time strings, latitude and longitude numeric, and
shift status and van asset each absent or a string. -/
def HasStatedShape (r : List (List Char × JsVal)) : Prop :=
  IsString (lookupKey "service_name".toList r) ∧
  IsString (lookupKey "suburb".toList r) ∧
  IsString (lookupKey "state".toList r) ∧
  IsString (lookupKey "address".toList r) ∧
  IsString (lookupKey "day".toList r) ∧
  IsString (lookupKey "start_time".toList r) ∧
  IsString (lookupKey "end_time".toList r) ∧
  IsNumeric (lookupKey "lat".toList r) ∧
  IsNumeric (lookupKey "lng".toList r) ∧
  AbsentOrString (lookupKey "shift_status".toList r) ∧
  AbsentOrString (lookupKey "van_asset".toList r)

/-- The stated shape with both coordinates other than `NaN`. -/
def IsCanonicalShift (r : List (List Char × JsVal)) : Prop :=
  IsString (lookupKey "service_name".toList r) ∧
  IsString (lookupKey "suburb".toList r) ∧
  IsString (lookupKey "state".toList r) ∧
  IsString (lookupKey "address".toList r) ∧
  IsString (lookupKey "day".toList r) ∧
  IsString (lookupKey "start_time".toList r) ∧
  IsString (lookupKey "end_time".toList r) ∧
  IsNumber (lookupKey "lat".toList r) ∧
  IsNumber (lookupKey "lng".toList r) ∧
  AbsentOrString (lookupKey "shift_status".toList r) ∧
  AbsentOrString (lookupKey "van_asset".toList r)

/-- A record `convertShiftData` builds: the eleven fields of the schema in its order, the
day and the two times never `undefined`. -/
def IsBuiltRecord (r : List (List Char × JsVal)) : Prop :=
  r.map Prod.fst = ShiftSchema.map Prod.fst ∧
  lookupKey "day".toList r ≠ .undefined ∧
  lookupKey "start_time".toList r ≠ .undefined ∧
  lookupKey "end_time".toList r ≠ .undefined

/-- The location of the end-to-end scenario. -/
def testHall : JsVal :=
  .obj [("name".toList, .str "Test Hall".toList), ("city".toList, .str "Hobart".toList),
    ("postcode".toList, .str "7000".toList), ("lat".toList, .num "-42.88".toList),
    ("lng".toList, .num "147.33".toList), ("post_id".toList, .str "44343".toList)]

/-- The payload of the end-to-end scenario. -/
def testHallPayload : JsVal :=
  .obj [("attributes".toList,
      .obj [("custom_start_time".toList, .str "09:30".toList),
        ("custom_end_time".toList, .str "11:30".toList)]),
    ("nice".toList, .obj [("start_timestamp__dayofweek".toList, .str "Wed".toList)])]

/-- A location of the directory whose latitude is `NaN`. -/
def nanHall : JsVal :=
  .obj [("name".toList, .str "Test Hall".toList), ("city".toList, .str "Hobart".toList),
    ("postcode".toList, .str "7000".toList), ("lat".toList, .num "NaN".toList),
    ("lng".toList, .num "147.33".toList), ("post_id".toList, .str "44343".toList)]

/-- The Shift of the scenario payload at the location whose latitude is `NaN`. -/
def nanRecord : List (List Char × JsVal) :=
  [("service_name".toList, .str "Test Hall".toList), ("suburb".toList, .str "Hobart".toList),
    ("state".toList, .str "TAS".toList), ("address".toList, .str "Hobart".toList),
    ("lat".toList, .num "NaN".toList), ("lng".toList, .num "147.33".toList),
    ("day".toList, .str "Wed".toList), ("start_time".toList, .str "09:30".toList),
    ("end_time".toList, .str "11:30".toList), ("shift_status".toList, .str []),
    ("van_asset".toList, .str [])]

/-- The Shift of the scenario payload at the scenario location. -/
def testHallRecord : List (List Char × JsVal) :=
  [("service_name".toList, .str "Test Hall".toList), ("suburb".toList, .str "Hobart".toList),
    ("state".toList, .str "TAS".toList), ("address".toList, .str "Hobart".toList),
    ("lat".toList, .num "-42.88".toList), ("lng".toList, .num "147.33".toList),
    ("day".toList, .str "Wed".toList), ("start_time".toList, .str "09:30".toList),
    ("end_time".toList, .str "11:30".toList), ("shift_status".toList, .str []),
    ("van_asset".toList, .str [])]

/-- The Shift of the payload with a numeric day at the scenario location. -/
def numericDayRecord : List (List Char × JsVal) :=
  [("service_name".toList, .str "Test Hall".toList), ("suburb".toList, .str "Hobart".toList),
    ("state".toList, .str "TAS".toList), ("address".toList, .str "Hobart".toList),
    ("lat".toList, .num "-42.88".toList), ("lng".toList, .num "147.33".toList),
    ("day".toList, .num "3".toList), ("start_time".toList, .str []),
    ("end_time".toList, .str []), ("shift_status".toList, .num "42".toList),
    ("van_asset".toList, .str [])]

/-- What was fetched in a run over the scenario location with two payloads: the scenario
payload and the payload with a numeric day. -/
def mixedFetch : List (JsVal × List JsVal) :=
  [(testHall, [testHallPayload, numericStatusPayload])]

/-! ## Properties of the postcode-range strategy -/

theorem stateOfPostcode_mem (n : Int) : stateOfPostcode n ∈ stateCodes := by
  unfold stateOfPostcode stateCodes
  split_ifs <;> simp

theorem extractState_of_falsy (fields : List (List Char × JsVal))
    (h : truthy (lookupKey "postcode".toList fields) = false) :
    extractStateFromLocation (.obj fields) = .ok (.str "Unknown".toList) := by
  simp only [extractStateFromLocation, getProp, bind, Except.bind, h, Bool.not_false, if_true]

theorem extractState_of_nan (fields : List (List Char × JsVal))
    (h : truthy (lookupKey "postcode".toList fields) = true)
    (hp : parseInt (toStr (lookupKey "postcode".toList fields)) 0 = none) :
    extractStateFromLocation (.obj fields) = .ok (.str "Unknown".toList) := by
  simp only [extractStateFromLocation, getProp, bind, Except.bind, h, hp, numGe, numLe,
    Bool.not_true, Bool.false_eq_true, if_false, Bool.and_false]

theorem extractState_of_int (fields : List (List Char × JsVal)) (n : Int)
    (h : truthy (lookupKey "postcode".toList fields) = true)
    (hp : parseInt (toStr (lookupKey "postcode".toList fields)) 0 = some n) :
    extractStateFromLocation (.obj fields) = .ok (.str (stateOfPostcode n)) := by
  simp only [extractStateFromLocation, getProp, bind, Except.bind, h, hp, numGe, numLe,
    stateOfPostcode, Bool.not_true, Bool.false_eq_true, if_false, Bool.and_eq_true,
    decide_eq_true_eq]
  split_ifs <;> rfl

theorem digitValue_digitChar (d : Nat) (h : d < 10) : digitValue (digitChar d) = some d := by
  interval_cases d <;> rfl

theorem radixPrefix_decimalAux (fuel n : Nat) (acc : List Char) (h : n < fuel) :
    ∃ ds : List Nat, ds ≠ [] ∧
      radixPrefix 10 (decimalAux fuel n acc) = ds ++ radixPrefix 10 acc ∧
      (decimalAux fuel n acc).head? ≠ some '-' ∧ (decimalAux fuel n acc).head? ≠ some '+' ∧
      (∀ c, (decimalAux fuel n acc).head? = some c → isWhiteSpace c = false) ∧
      (∀ c rest, decimalAux fuel n acc = '0' :: c :: rest → n = 0 ∧ c :: rest = acc) ∧
      ∀ a, ds.foldl (fun acc d => acc * 10 + d) a = a * 10 ^ ds.length + n := by
  induction fuel generalizing n acc with
  | zero => omega
  | succ fuel ih =>
    by_cases hn : n < 10
    · refine ⟨[n], by simp, ?_, ?_, ?_, ?_, ?_, ?_⟩
      · simp [decimalAux, hn, radixPrefix, digitValue_digitChar n hn]
      · simp only [decimalAux, hn, if_true, List.head?_cons]
        interval_cases n <;> decide
      · simp only [decimalAux, hn, if_true, List.head?_cons]
        interval_cases n <;> decide
      · intro c hc
        simp only [decimalAux, hn, if_true, List.head?_cons, Option.some.injEq] at hc
        subst hc
        interval_cases n <;> rfl
      · intro c rest hc
        simp only [decimalAux, hn, if_true, List.cons.injEq] at hc
        refine ⟨?_, hc.2.symm⟩
        have h0 := hc.1
        interval_cases n <;> first | rfl | (revert h0; decide)
      · intro a
        simp
    · have hlt : n / 10 < fuel := by omega
      obtain ⟨ds, hds, hp, hm, hpl, hws, hz, hv⟩ := ih (n / 10) (digitChar (n % 10) :: acc) hlt
      have hmod : n % 10 < 10 := Nat.mod_lt _ (by norm_num)
      refine ⟨ds ++ [n % 10], by simp, ?_, ?_, ?_, ?_, ?_, ?_⟩
      · simp only [decimalAux, hn, if_false, hp, radixPrefix, digitValue_digitChar _ hmod]
        simp [hmod]
      · simpa only [decimalAux, hn, if_false] using hm
      · simpa only [decimalAux, hn, if_false] using hpl
      · simpa only [decimalAux, hn, if_false] using hws
      · intro c rest hc
        simp only [decimalAux, hn, if_false] at hc
        have := (hz c rest hc).1
        omega
      · intro a
        rw [List.foldl_append, hv]
        simp only [List.foldl_cons, List.foldl_nil, List.length_append, List.length_singleton,
          pow_succ]
        have := Nat.div_add_mod n 10
        nlinarith [Nat.div_add_mod n 10]

theorem parseInt_decimalNat (n : Nat) : parseInt (decimalNat n) 0 = some (n : Int) := by
  obtain ⟨ds, hds, hp, hm, hpl, hws, hz, hv⟩ := radixPrefix_decimalAux (n + 1) n [] (by omega)
  have hdw : (decimalNat n).dropWhile isWhiteSpace = decimalNat n := by
    unfold decimalNat
    cases hs : decimalAux (n + 1) n [] with
    | nil => rfl
    | cons c cs =>
      have := hws c (by rw [hs]; rfl)
      simp [List.dropWhile_cons, this]
  have hx : ∀ x : Char, (decimalNat n).take 2 ≠ ['0', x] := by
    intro x hx
    unfold decimalNat at hx
    cases hs : decimalAux (n + 1) n [] with
    | nil => rw [hs] at hx; simp at hx
    | cons c cs =>
      cases cs with
      | nil => rw [hs] at hx; simp at hx
      | cons d cs =>
        rw [hs] at hx
        simp only [List.take_succ_cons, List.take_zero, List.cons.injEq, and_true] at hx
        have := (hz d cs (by rw [hs, hx.1])).2
        simp at this
  have hneg : ((decimalNat n).head? == some '-') = false := by
    simpa [decimalNat] using hm
  have hsign : ¬ ((decimalNat n).head? = some '-' ∨ (decimalNat n).head? = some '+') := by
    simpa [decimalNat] using And.intro hm hpl
  have hrp : radixPrefix 10 (decimalNat n) = ds := by
    simpa [decimalNat, radixPrefix] using hp
  have hval : digitsValue 10 ds = n := by
    simpa [digitsValue] using hv 0
  simp only [parseInt, hdw, hneg, hsign, if_false, ne_eq, not_true_eq_false, false_and,
    true_or, decide_True, Bool.true_and, if_true, beq_iff_eq, hx, Bool.or_self,
    Bool.false_eq_true, hrp, decide_False, decide_eq_true_eq, Bool.or_eq_true, or_self]
  cases ds with
  | nil => exact absurd rfl hds
  | cons d ds => simp only [hval]

theorem extractState_of_text (fields : List (List Char × JsVal)) (s : List Char)
    (h : lookupKey "postcode".toList fields = .str s ∨
      lookupKey "postcode".toList fields = .num s) :
    extractStateFromLocation (.obj fields) = .ok (.str (stateOfParsed (parseInt s 0))) := by
  by_cases ht : truthy (lookupKey "postcode".toList fields) = true
  · have hs : toStr (lookupKey "postcode".toList fields) = s := by
      rcases h with h | h <;> rw [h] <;> rfl
    cases hp : parseInt s 0 with
    | none => rw [extractState_of_nan fields ht (by rw [hs, hp])]; rfl
    | some n => rw [extractState_of_int fields n ht (by rw [hs, hp])]; rfl
  · have ht : truthy (lookupKey "postcode".toList fields) = false := by simpa using ht
    rw [extractState_of_falsy fields ht]
    rcases h with h | h
    · rw [h] at ht
      have : s = [] := by simpa [truthy] using ht
      subst this
      rfl
    · rw [h] at ht
      have : s = "0".toList ∨ s = "NaN".toList := by
        simp only [truthy, Bool.not_eq_false', Bool.or_eq_true, beq_iff_eq] at ht
        exact ht
      rcases this with hs | hs <;> subst hs <;> rfl

/-- C1: `extractStateFromLocation` on a location record never throws and answers one of the
eight state codes or `Unknown`; an absent postcode gives `Unknown`; a string or number
postcode gives the inclusive-range state of the integer `parseInt` reads from it and
`Unknown` when `parseInt` reads none; the postcode written as the decimal digits of `n`,
string or number, gives the range state of `n`; and the boundary postcodes 999, 1000, 2999,
3000, 7999, 8000 give NT, NSW, NSW, VIC, TAS, Unknown. -/
theorem extractStateFromLocation_ranges :
    (∀ fields : List (List Char × JsVal),
      ∃ s ∈ stateCodes, extractStateFromLocation (.obj fields) = .ok (.str s)) ∧
    (∀ fields : List (List Char × JsVal), lookupKey "postcode".toList fields = .undefined →
      extractStateFromLocation (.obj fields) = .ok (.str "Unknown".toList)) ∧
    (∀ (fields : List (List Char × JsVal)) (s : List Char),
      lookupKey "postcode".toList fields = .str s ∨
        lookupKey "postcode".toList fields = .num s →
      extractStateFromLocation (.obj fields) = .ok (.str (stateOfParsed (parseInt s 0)))) ∧
    (∀ n : Nat,
      extractStateFromLocation (locationWithPostcode (.str (decimalNat n)))
          = .ok (.str (stateOfPostcode n)) ∧
      extractStateFromLocation (locationWithPostcode (.num (decimalNat n)))
          = .ok (.str (stateOfPostcode n))) ∧
    (∀ n : Int,
      stateOfPostcode n =
        if 1000 ≤ n ∧ n ≤ 2999 then "NSW".toList
        else if 3000 ≤ n ∧ n ≤ 3999 then "VIC".toList
        else if 4000 ≤ n ∧ n ≤ 4999 then "QLD".toList
        else if 5000 ≤ n ∧ n ≤ 5999 then "SA".toList
        else if 6000 ≤ n ∧ n ≤ 6999 then "WA".toList
        else if 7000 ≤ n ∧ n ≤ 7999 then "TAS".toList
        else if 800 ≤ n ∧ n ≤ 999 then "NT".toList
        else if 200 ≤ n ∧ n ≤ 299 then "ACT".toList
        else "Unknown".toList) ∧
    extractStateFromLocation (locationWithPostcode (.str "999".toList))
      = .ok (.str "NT".toList) ∧
    extractStateFromLocation (locationWithPostcode (.str "1000".toList))
      = .ok (.str "NSW".toList) ∧
    extractStateFromLocation (locationWithPostcode (.str "2999".toList))
      = .ok (.str "NSW".toList) ∧
    extractStateFromLocation (locationWithPostcode (.str "3000".toList))
      = .ok (.str "VIC".toList) ∧
    extractStateFromLocation (locationWithPostcode (.num "7999".toList))
      = .ok (.str "TAS".toList) ∧
    extractStateFromLocation (locationWithPostcode (.num "8000".toList))
      = .ok (.str "Unknown".toList) ∧
    extractStateFromLocation (locationWithPostcode (.str "".toList))
      = .ok (.str "Unknown".toList) ∧
    extractStateFromLocation (locationWithPostcode (.str "n/a".toList))
      = .ok (.str "Unknown".toList) := by
  refine ⟨?_, ?_, extractState_of_text, ?_, fun n => rfl, by decide, by decide, by decide,
    by decide, by decide, by decide, by decide, by decide⟩
  · intro fields
    by_cases ht : truthy (lookupKey "postcode".toList fields) = true
    · cases hp : parseInt (toStr (lookupKey "postcode".toList fields)) 0 with
      | none => exact ⟨_, by decide, extractState_of_nan fields ht hp⟩
      | some n => exact ⟨_, stateOfPostcode_mem n, extractState_of_int fields n ht hp⟩
    · exact ⟨_, by decide, extractState_of_falsy fields (by simpa using ht)⟩
  · intro fields h
    exact extractState_of_falsy fields (by rw [h]; rfl)
  · intro n
    constructor
    · have := extractState_of_text [("postcode".toList, .str (decimalNat n))] (decimalNat n)
        (Or.inl (by simp [lookupKey]))
      rw [parseInt_decimalNat] at this
      exact this
    · have := extractState_of_text [("postcode".toList, .num (decimalNat n))] (decimalNat n)
        (Or.inr (by simp [lookupKey]))
      rw [parseInt_decimalNat] at this
      exact this

/-- C1 at concrete locations: no postcode, and the postcode `"0x320"`, which `parseInt`
reads as 800. -/
theorem extractStateFromLocation_ranges_witness :
    extractStateFromLocation (.obj [("name".toList, .str "Test Hall".toList)])
      = .ok (.str "Unknown".toList) ∧
    extractStateFromLocation (.obj [("postcode".toList, .str "0x320".toList)])
      = .ok (.str "NT".toList) :=
  ⟨extractStateFromLocation_ranges.2.1 [("name".toList, .str "Test Hall".toList)] (by decide),
   extractStateFromLocation_ranges.2.2.1 [("postcode".toList, .str "0x320".toList)]
     "0x320".toList (Or.inl (by decide))⟩

/-! ## Properties of field resolution -/

theorem getProp_ok (v : JsVal) (k : List Char) (h : isNullish v = false) :
    getProp v k = .ok (propOf v k) := by
  cases v <;> first | rfl | (simp [isNullish] at h)

theorem getProp_error (v : JsVal) (k : List Char) (h : isNullish v = true) :
    getProp v k = .error .typeError := by
  cases v <;> first | rfl | (simp [isNullish] at h)

theorem isNullish_of_truthy (v : JsVal) (h : truthy v = true) : isNullish v = false := by
  cases v <;> first | rfl | (simp [truthy] at h)

theorem isNullish_subMap (v : JsVal) (k : List Char) : isNullish (subMap v k) = false := by
  unfold subMap jsOr
  split
  · exact isNullish_of_truthy _ (by assumption)
  · rfl

theorem nonEmpty_eq_truthy (v : JsVal) : nonEmpty v = truthy v := by
  cases v with
  | str s => cases s <;> simp [nonEmpty, truthy]
  | num t =>
    simp only [nonEmpty, truthy]
    generalize "0".toList = z
    generalize "NaN".toList = nan
    by_cases h0 : t = z <;> by_cases h1 : t = nan <;> simp [h0, h1]
  | _ => simp [nonEmpty, truthy]

theorem extractStringValue_eq (field : JsVal) :
    extractStringValue field = .ok (resolveValue field) := by
  cases field with
  | undefined => rfl
  | null => rfl
  | bool b => cases b <;> rfl
  | num t =>
    unfold extractStringValue resolveValue
    by_cases h : truthy (.num t) = true <;> simp [h, typeOf]
  | str s =>
    unfold extractStringValue resolveValue
    by_cases h : truthy (.str s) = true <;> simp [h, typeOf]
  | arr xs =>
    simp [extractStringValue, resolveValue, truthy, typeOf, getProp, bind, Except.bind, orElse]
  | obj fields =>
    simp only [extractStringValue, resolveValue, truthy, typeOf, getProp, bind, Except.bind,
      orElse, jsOr, Bool.not_true, Bool.false_eq_true, if_false, if_true]
    split_ifs <;> simp_all

theorem extractStateFromLocation_eq (location : JsVal) (h : isNullish location = false) :
    extractStateFromLocation location = .ok (.str (stateOf (propOf location "postcode".toList))) := by
  have key : ∀ fields : List (List Char × JsVal), extractStateFromLocation (.obj fields)
      = .ok (.str (stateOf (lookupKey "postcode".toList fields))) := by
    intro fields
    unfold stateOf
    by_cases ht : truthy (lookupKey "postcode".toList fields) = true
    · cases hp : parseInt (toStr (lookupKey "postcode".toList fields)) 0 with
      | none =>
        rw [extractState_of_nan fields ht hp]
        simp only [ht, stateOfParsed, Bool.not_true, Bool.false_eq_true, if_false]
      | some n =>
        rw [extractState_of_int fields n ht hp]
        simp only [ht, stateOfParsed, Bool.not_true, Bool.false_eq_true, if_false]
    · have ht : truthy (lookupKey "postcode".toList fields) = false := by simpa using ht
      rw [extractState_of_falsy fields ht]
      simp only [ht, Bool.not_false, if_true]
  cases location with
  | obj fields => exact key fields
  | undefined => simp [isNullish] at h
  | null => simp [isNullish] at h
  | _ => rfl

theorem orElse_getProp (a v : JsVal) (k : List Char) (h : isNullish v = false) :
    orElse a (getProp v k) = .ok (jsOr a (propOf v k)) := by
  unfold orElse jsOr
  rw [getProp_ok v k h]
  split <;> rfl

theorem orElse_ok (a b : JsVal) : orElse a (.ok b) = .ok (jsOr a b) := by
  unfold orElse jsOr
  split <;> rfl

theorem convertShiftDataBody_ok (apiShift location : JsVal)
    (ha : isNullish apiShift = false) (hl : isNullish location = false) :
    convertShiftDataBody apiShift location = .ok (resolvedShift apiShift location) := by
  have hattrs : isNullish (jsOr (propOf apiShift "attributes".toList) (.obj [])) = false :=
    isNullish_subMap apiShift "attributes".toList
  have hnice : isNullish (jsOr (propOf apiShift "nice".toList) (.obj [])) = false :=
    isNullish_subMap apiShift "nice".toList
  unfold convertShiftDataBody resolvedShift subMap
  simp only [bind, Except.bind, getProp_ok apiShift _ ha, getProp_ok location _ hl,
    getProp_ok _ _ hnice, getProp_ok _ _ hattrs, orElse_getProp _ _ _ hattrs,
    orElse_getProp _ _ _ hl, extractStringValue_eq, orElse_ok,
    extractStateFromLocation_eq location hl]

theorem convertShiftDataBody_error (apiShift location : JsVal)
    (h : isNullish apiShift = true ∨ isNullish location = true) :
    convertShiftDataBody apiShift location = .error .typeError := by
  by_cases ha : isNullish apiShift = true
  · unfold convertShiftDataBody
    simp only [bind, Except.bind, getProp_error apiShift _ ha]
  · have ha : isNullish apiShift = false := by simpa using ha
    have hl : isNullish location = true := by
      rcases h with h | h
      · rw [ha] at h; cases h
      · exact h
    have hattrs : isNullish (jsOr (propOf apiShift "attributes".toList) (.obj [])) = false :=
      isNullish_subMap apiShift "attributes".toList
    have hnice : isNullish (jsOr (propOf apiShift "nice".toList) (.obj [])) = false :=
      isNullish_subMap apiShift "nice".toList
    have hstate : extractStateFromLocation location = .error .typeError := by
      unfold extractStateFromLocation
      simp only [bind, Except.bind, getProp_error location _ hl]
    unfold convertShiftDataBody
    simp only [bind, Except.bind, getProp_ok apiShift _ ha, getProp_ok _ _ hnice,
      getProp_ok _ _ hattrs, orElse_getProp _ _ _ hattrs, extractStringValue_eq, orElse_ok,
      hstate]

theorem convertShiftData_eq (apiShift location : JsVal) :
    convertShiftData apiShift location =
      if isNullish apiShift || isNullish location then .null
      else resolvedShift apiShift location := by
  unfold convertShiftData
  by_cases ha : isNullish apiShift = true
  · rw [convertShiftDataBody_error _ _ (Or.inl ha)]; simp [ha]
  · by_cases hl : isNullish location = true
    · rw [convertShiftDataBody_error _ _ (Or.inr hl)]; simp [hl]
    · have ha : isNullish apiShift = false := by simpa using ha
      have hl : isNullish location = false := by simpa using hl
      rw [convertShiftDataBody_ok _ _ ha hl]; simp [ha, hl]

theorem resolveValue_of_empty (v : JsVal) (h : nonEmpty v = false) : resolveValue v = .str [] := by
  rw [nonEmpty_eq_truthy] at h
  simp [resolveValue, h]

theorem jsOr_eq_firstNonEmpty (a b : JsVal) :
    resolveValue (jsOr a b) = resolveValue (firstNonEmpty [a, b]) := by
  unfold jsOr firstNonEmpty firstNonEmpty firstNonEmpty
  rw [← nonEmpty_eq_truthy]
  by_cases ha : nonEmpty a = true
  · simp [ha]
  · by_cases hb : nonEmpty b = true
    · simp [ha, hb]
    · have hb : nonEmpty b = false := by simpa using hb
      simp only [ha, hb, if_false, Bool.false_eq_true]
      rw [resolveValue_of_empty b hb, resolveValue_of_empty .undefined rfl]

theorem convertShiftData_obj (apiShift location : JsVal) (fields : List (List Char × JsVal))
    (h : convertShiftData apiShift location = .obj fields) :
    isNullish apiShift = false ∧ isNullish location = false ∧
    resolvedShift apiShift location = .obj fields := by
  rw [convertShiftData_eq] at h
  by_cases hn : (isNullish apiShift || isNullish location) = true
  · rw [if_pos hn] at h; cases h
  · rw [if_neg hn] at h
    simp only [Bool.or_eq_true, not_or, Bool.not_eq_true] at hn
    exact ⟨hn.1, hn.2, h⟩

theorem completeTest_obj (r : List (List Char × JsVal)) :
    ∃ v, completeTest (.obj r) = .ok v ∧ truthy v = isCompleteRecord r := by
  unfold completeTest isCompleteRecord
  simp only [getProp, bind, Except.bind, orElse, nonEmpty_eq_truthy]
  generalize lookupKey "service_name".toList r = a
  generalize lookupKey "suburb".toList r = b
  generalize lookupKey "day".toList r = c
  generalize lookupKey "start_time".toList r = d
  generalize lookupKey "end_time".toList r = e
  by_cases h1 : truthy a = true <;> by_cases h2 : truthy b = true <;>
    by_cases h3 : truthy c = true <;> by_cases h4 : truthy d = true <;>
    simp [h1, h2, h3, h4]

theorem completeShifts_records (records : List (List (List Char × JsVal))) :
    completeShifts (records.map .obj) = .ok ((records.filter isCompleteRecord).map .obj) := by
  unfold completeShifts
  induction records with
  | nil => rfl
  | cons r rs ih =>
    obtain ⟨v, hv, ht⟩ := completeTest_obj r
    simp only [List.map_cons, filterJs, bind, Except.bind, hv, ih, ht, List.filter_cons]
    cases isCompleteRecord r <;> rfl

/-! ## The completeness filter -/

/-- C3: on every sequence of collected records the completeness filter of `main` returns,
in the original order, exactly the records the completeness rule accepts (name and suburb
non-empty, at least one of day, start time, end time non-empty); a record whose day, start
time and end time are all empty is dropped whatever else it holds; and every surviving
record has a non-empty name and suburb. For a text field non-empty means at least one
character. -/
theorem completeShifts_complete :
    (∀ records : List (List (List Char × JsVal)),
      completeShifts (records.map .obj)
        = .ok ((records.filter isCompleteRecord).map .obj)) ∧
    (∀ (records : List (List (List Char × JsVal))) (out : List JsVal)
        (r : List (List Char × JsVal)),
      completeShifts (records.map .obj) = .ok out →
      nonEmpty (lookupKey "day".toList r) = false →
      nonEmpty (lookupKey "start_time".toList r) = false →
      nonEmpty (lookupKey "end_time".toList r) = false →
      JsVal.obj r ∉ out) ∧
    (∀ (records : List (List (List Char × JsVal))) (out : List JsVal)
        (r : List (List Char × JsVal)),
      completeShifts (records.map .obj) = .ok out → JsVal.obj r ∈ out →
      r ∈ records ∧ nonEmpty (lookupKey "service_name".toList r) = true ∧
        nonEmpty (lookupKey "suburb".toList r) = true) ∧
    (∀ s : List Char, nonEmpty (.str s) = true ↔ s ≠ []) ∧
    nonEmpty .undefined = false ∧ nonEmpty .null = false := by
  have hmem : ∀ (records : List (List (List Char × JsVal))) (out : List JsVal)
      (r : List (List Char × JsVal)),
      completeShifts (records.map .obj) = .ok out → JsVal.obj r ∈ out →
      r ∈ records ∧ isCompleteRecord r = true := by
    intro records out r h hin
    rw [completeShifts_records] at h
    cases h
    obtain ⟨r', hr', heq⟩ := List.mem_map.mp hin
    cases heq
    exact List.mem_filter.mp hr'
  refine ⟨completeShifts_records, ?_, ?_, ?_, rfl, rfl⟩
  · intro records out r h h1 h2 h3 hin
    have := (hmem records out r h hin).2
    simp only [isCompleteRecord, h1, h2, h3, Bool.or_self, Bool.and_false,
      Bool.false_eq_true] at this
  · intro records out r h hin
    obtain ⟨hr, hc⟩ := hmem records out r h hin
    simp only [isCompleteRecord, Bool.and_eq_true] at hc
    exact ⟨hr, hc.1.1, hc.1.2⟩
  · intro s
    simp [nonEmpty]

/-- C3 on two records: the one without day and times is dropped, the complete one kept. -/
theorem completeShifts_complete_witness :
    JsVal.obj undatedRecord ∉ [JsVal.obj wednesdayRecord] ∧
    (wednesdayRecord ∈ [undatedRecord, wednesdayRecord] ∧
      nonEmpty (lookupKey "service_name".toList wednesdayRecord) = true ∧
      nonEmpty (lookupKey "suburb".toList wednesdayRecord) = true) :=
  ⟨completeShifts_complete.2.1 [undatedRecord, wednesdayRecord] [JsVal.obj wednesdayRecord]
      undatedRecord rfl rfl rfl rfl,
    completeShifts_complete.2.2.1 [undatedRecord, wednesdayRecord] [JsVal.obj wednesdayRecord]
      wednesdayRecord rfl (by decide)⟩

/-! ## `convertShiftData` -/

theorem truthy_resolvedShift (apiShift location : JsVal) :
    truthy (resolvedShift apiShift location) = true := rfl

theorem pushConverted_eq (allShifts : List JsVal) (location : JsVal) (shiftData : List JsVal) :
    pushConverted allShifts location shiftData =
      allShifts ++ (shiftData.map (fun a => convertShiftData a location)).filter
        (fun c => !isNullish c) := by
  unfold pushConverted
  induction shiftData generalizing allShifts with
  | nil => simp
  | cons a rest ih =>
    have hc : convertShiftData a location = .null ∨
        ∃ f, convertShiftData a location = .obj f := by
      rw [convertShiftData_eq]
      by_cases hn : (isNullish a || isNullish location) = true
      · left; rw [if_pos hn]
      · right; rw [if_neg hn]; exact ⟨_, rfl⟩
    simp only [List.foldl_cons, List.map_cons, List.filter_cons]
    rw [ih]
    rcases hc with hc | ⟨f, hc⟩ <;> rw [hc] <;> simp [truthy, isNullish]

/-- C4, as stated, fails: on the empty payload `{}` the result is not `null` but a record
whose day and times are empty strings. -/
theorem convertShiftData_empty_payload :
    convertShiftData (.obj []) testHall ≠ .null ∧
    propOf (convertShiftData (.obj []) testHall) "service_name".toList = .str "Test Hall".toList ∧
    propOf (convertShiftData (.obj []) testHall) "day".toList = .str [] ∧
    propOf (convertShiftData (.obj []) testHall) "start_time".toList = .str [] ∧
    propOf (convertShiftData (.obj []) testHall) "end_time".toList = .str [] := by
  decide

/-- C4, amended: `convertShiftData` returns without throwing on every payload and location;
the body of its `try` throws, and the result is `null`, exactly when the payload or the
location is `null` or `undefined`; on every other payload (a non-object, an empty object,
one with missing or wrongly shaped sub-maps) the result is a record; and `main` appends
exactly the non-null results, so the collected sequence holds records only. -/
theorem convertShiftData_null_iff :
    (∀ apiShift location : JsVal,
      convertShiftData apiShift location = .null ↔
        (apiShift = .null ∨ apiShift = .undefined ∨ location = .null ∨
          location = .undefined)) ∧
    (∀ apiShift location : JsVal,
      (∃ e, convertShiftDataBody apiShift location = .error e) ↔
        convertShiftData apiShift location = .null) ∧
    (∀ apiShift location : JsVal,
      convertShiftData apiShift location ≠ .null →
        ∃ fields, convertShiftData apiShift location = .obj fields) ∧
    (∀ (allShifts : List JsVal) (location : JsVal) (shiftData : List JsVal),
      pushConverted allShifts location shiftData =
        allShifts ++ (shiftData.map (fun a => convertShiftData a location)).filter
          (fun c => decide (c ≠ .null))) ∧
    (∀ (fetched : List (JsVal × List JsVal)) (x : JsVal),
      x ∈ collectShifts fetched → x ≠ .null ∧ ∃ fields, x = .obj fields) := by
  have hnull : ∀ v : JsVal, isNullish v = true ↔ (v = .null ∨ v = .undefined) := by
    intro v; cases v <;> simp [isNullish]
  have h1 : ∀ apiShift location : JsVal,
      convertShiftData apiShift location = .null ↔
        (isNullish apiShift || isNullish location) = true := by
    intro a l
    rw [convertShiftData_eq]
    by_cases hn : (isNullish a || isNullish l) = true
    · simp [hn]
    · rw [if_neg hn]
      constructor
      · intro h; cases h
      · intro h; exact absurd h hn
  have hobj : ∀ apiShift location : JsVal, convertShiftData apiShift location ≠ .null →
      ∃ fields, convertShiftData apiShift location = .obj fields := by
    intro a l hne
    rw [convertShiftData_eq] at hne ⊢
    by_cases hn : (isNullish a || isNullish l) = true
    · simp [hn] at hne
    · simp only [hn, if_false]
      exact ⟨_, rfl⟩
  have hpush : ∀ (allShifts : List JsVal) (location : JsVal) (shiftData : List JsVal),
      pushConverted allShifts location shiftData =
        allShifts ++ (shiftData.map (fun a => convertShiftData a location)).filter
          (fun c => decide (c ≠ .null)) := by
    intro acc l data
    rw [pushConverted_eq]
    congr 1
    apply List.filter_congr
    intro c hc
    obtain ⟨a, _, rfl⟩ := List.mem_map.mp hc
    by_cases hn : convertShiftData a l = .null
    · simp [hn, isNullish]
    · obtain ⟨fields, hf⟩ := hobj a l hn
      simp [hf, isNullish]
  refine ⟨?_, ?_, hobj, hpush, ?_⟩
  · intro a l
    rw [h1, Bool.or_eq_true, hnull, hnull]
    tauto
  · intro a l
    rw [h1]
    constructor
    · rintro ⟨e, he⟩
      by_contra hn
      simp only [Bool.or_eq_true, not_or, Bool.not_eq_true] at hn
      rw [convertShiftDataBody_ok a l hn.1 hn.2] at he
      cases he
    · intro hn
      rw [Bool.or_eq_true] at hn
      exact ⟨_, convertShiftDataBody_error a l hn⟩
  · intro fetched x
    unfold collectShifts
    have key : ∀ (acc : List JsVal),
        (∀ y ∈ acc, y ≠ .null ∧ ∃ fields, y = .obj fields) →
        ∀ y ∈ fetched.foldl (fun acc p => pushConverted acc p.1 p.2) acc,
          y ≠ .null ∧ ∃ fields, y = .obj fields := by
      induction fetched with
      | nil => intro acc hacc y hy; exact hacc y hy
      | cons p rest ih =>
        intro acc hacc y hy
        rw [List.foldl_cons] at hy
        refine ih _ ?_ y hy
        intro z hz
        rw [hpush] at hz
        rcases List.mem_append.mp hz with hz | hz
        · exact hacc z hz
        · obtain ⟨hz1, hz2⟩ := List.mem_filter.mp hz
          obtain ⟨a, _, rfl⟩ := List.mem_map.mp hz1
          have hne : convertShiftData a p.1 ≠ .null := by simpa using hz2
          exact ⟨hne, hobj a p.1 hne⟩
    exact key [] (fun y hy => absurd hy (List.not_mem_nil y)) x

/-- C4, amended, at the scenario payload and at a `null` payload fetched for the scenario
location: the first gives a record, the second is not collected. -/
theorem convertShiftData_null_iff_witness :
    (∃ fields, convertShiftData testHallPayload testHall = .obj fields) ∧
    (∀ x ∈ collectShifts [(testHall, [JsVal.null, testHallPayload])],
      x ≠ .null ∧ ∃ fields, x = .obj fields) :=
  ⟨convertShiftData_null_iff.2.2.1 testHallPayload testHall (by decide),
    fun x hx => convertShiftData_null_iff.2.2.2.2 [(testHall, [JsVal.null, testHallPayload])] x hx⟩

theorem jsOr_resolveValue (c a b : JsVal) :
    jsOr c (resolveValue (jsOr a b)) = resolveField c [a, b] := by
  unfold resolveField
  rw [jsOr_eq_firstNonEmpty, nonEmpty_eq_truthy]
  rfl

theorem resolvedShift_fields (apiShift location : JsVal) (fields : List (List Char × JsVal))
    (h : resolvedShift apiShift location = .obj fields) :
    fields = [
      ("service_name".toList, propOf location "name".toList),
      ("suburb".toList, propOf location "city".toList),
      ("state".toList, .str (stateOf (propOf location "postcode".toList))),
      ("address".toList,
        jsOr (propOf location "street".toList) (propOf location "city".toList)),
      ("lat".toList, propOf location "lat".toList),
      ("lng".toList, propOf location "lng".toList),
      ("day".toList,
        resolveField (propOf (subMap apiShift "nice".toList) "start_timestamp__dayofweek".toList)
          [propOf (subMap apiShift "attributes".toList) "custom_what_days_it_occurs".toList,
            propOf (subMap apiShift "attributes".toList) "day".toList]),
      ("start_time".toList,
        resolveField (propOf (subMap apiShift "nice".toList) "start_timestamp__time".toList)
          [propOf (subMap apiShift "attributes".toList) "custom_start_time".toList,
            propOf (subMap apiShift "attributes".toList) "start_time".toList]),
      ("end_time".toList,
        resolveField (propOf (subMap apiShift "nice".toList) "end_timestamp__time".toList)
          [propOf (subMap apiShift "attributes".toList) "custom_end_time".toList,
            propOf (subMap apiShift "attributes".toList) "end_time".toList]),
      ("shift_status".toList,
        resolveValue (propOf (subMap apiShift "attributes".toList) "custom_shift_status".toList)),
      ("van_asset".toList,
        resolveValue (propOf (subMap apiShift "attributes".toList) "custom_van_asset".toList))] := by
  unfold resolvedShift at h
  simp only [jsOr_resolveValue] at h
  injection h with h
  exact h.symm

/-- C7, as stated, fails: with no computed start time and no `custom_start_time`, the
payload key `attributes.start_time` still decides the start time. -/
theorem convertShiftData_start_time_fallback :
    propOf (subMap plainStartTimePayload "nice".toList) "start_timestamp__time".toList
      = .undefined ∧
    propOf (subMap plainStartTimePayload "attributes".toList) "custom_start_time".toList
      = .undefined ∧
    propOf (convertShiftData plainStartTimePayload testHall) "start_time".toList
      = .str "09:00".toList ∧
    propOf (convertShiftData plainStartTimePayload testHall) "start_time".toList ≠ .str [] := by
  decide

/-- C7, amended: on every payload and location giving a Shift, `day` is the computed
day of the week if non-empty, else the resolution of `attributes.custom_what_days_it_occurs`
if non-empty, else of `attributes.day`; `start_time` is the computed start time if
non-empty, else the resolution of `attributes.custom_start_time` if non-empty, else of
`attributes.start_time`; `end_time` likewise with `custom_end_time` and `end_time`; a field
all of whose candidates are empty is the empty string; a non-empty text candidate is taken
as it is. -/
theorem convertShiftData_resolution_order :
    (∀ (apiShift location : JsVal) (fields : List (List Char × JsVal)),
      convertShiftData apiShift location = .obj fields →
      lookupKey "day".toList fields =
        resolveField
          (propOf (subMap apiShift "nice".toList) "start_timestamp__dayofweek".toList)
          [propOf (subMap apiShift "attributes".toList) "custom_what_days_it_occurs".toList,
            propOf (subMap apiShift "attributes".toList) "day".toList] ∧
      lookupKey "start_time".toList fields =
        resolveField
          (propOf (subMap apiShift "nice".toList) "start_timestamp__time".toList)
          [propOf (subMap apiShift "attributes".toList) "custom_start_time".toList,
            propOf (subMap apiShift "attributes".toList) "start_time".toList] ∧
      lookupKey "end_time".toList fields =
        resolveField
          (propOf (subMap apiShift "nice".toList) "end_timestamp__time".toList)
          [propOf (subMap apiShift "attributes".toList) "custom_end_time".toList,
            propOf (subMap apiShift "attributes".toList) "end_time".toList]) ∧
    (∀ c a b : JsVal, nonEmpty c = true → resolveField c [a, b] = c) ∧
    (∀ c a b : JsVal, nonEmpty c = false → nonEmpty a = true →
      resolveField c [a, b] = resolveValue a) ∧
    (∀ c a b : JsVal, nonEmpty c = false → nonEmpty a = false →
      resolveField c [a, b] = resolveValue b) ∧
    (∀ c a b : JsVal, nonEmpty c = false → nonEmpty a = false → nonEmpty b = false →
      resolveField c [a, b] = .str []) ∧
    (∀ s : List Char, resolveValue (.str s) = .str s) := by
  refine ⟨?_, ?_, ?_, ?_, ?_, ?_⟩
  · intro a l fields h
    obtain ⟨_, _, hr⟩ := convertShiftData_obj a l fields h
    rw [resolvedShift_fields a l fields hr]
    exact ⟨rfl, rfl, rfl⟩
  · intro c a b hc
    simp [resolveField, hc]
  · intro c a b hc ha
    simp [resolveField, firstNonEmpty, hc, ha]
  · intro c a b hc ha
    simp only [resolveField, firstNonEmpty, hc, ha, if_false, Bool.false_eq_true]
    by_cases hb : nonEmpty b = true
    · simp [hb]
    · have hb : nonEmpty b = false := by simpa using hb
      simp only [hb, if_false, Bool.false_eq_true]
      rw [resolveValue_of_empty b hb, resolveValue_of_empty .undefined rfl]
  · intro c a b hc ha hb
    simp only [resolveField, firstNonEmpty, hc, ha, hb, if_false, Bool.false_eq_true]
    exact resolveValue_of_empty .undefined rfl
  · intro s
    cases s with
    | nil => rfl
    | cons c cs => simp [resolveValue, truthy]

/-- C7, amended, at the scenario payload: the day comes from the computed day of the week,
the start time from `attributes.custom_start_time`. -/
theorem convertShiftData_resolution_order_witness :
    lookupKey "day".toList
        [("day".toList, JsVal.str "Wed".toList), ("start_time".toList, .str "09:30".toList),
          ("end_time".toList, .str "11:30".toList)] =
      resolveField
        (propOf (subMap testHallPayload "nice".toList) "start_timestamp__dayofweek".toList)
        [propOf (subMap testHallPayload "attributes".toList) "custom_what_days_it_occurs".toList,
          propOf (subMap testHallPayload "attributes".toList) "day".toList] ∧
    resolveField .undefined [.str "09:30".toList, .undefined] =
      resolveValue (.str "09:30".toList) :=
  ⟨by
      have h := (convertShiftData_resolution_order.1 testHallPayload testHall _ rfl).1
      exact (by decide : _ = lookupKey "day".toList _).trans h,
    convertShiftData_resolution_order.2.2.1 .undefined (.str "09:30".toList) .undefined
      rfl rfl⟩

/-- C8 at the failing payload: a shift status given as a structure whose `value` is the
number 42 resolves to that number, and a numeric computed day of the week is taken as it
is, so `shift_status` and `day` are numbers, not strings; `extractStringValue` answers a
string on every field that is not a plain object. -/
theorem convertShiftData_numeric_status :
    propOf (convertShiftData numericStatusPayload testHall) "shift_status".toList
      = .num "42".toList ∧
    typeOf (propOf (convertShiftData numericStatusPayload testHall) "shift_status".toList)
      = .tNumber ∧
    propOf (convertShiftData numericStatusPayload testHall) "day".toList = .num "3".toList ∧
    extractStringValue (.obj [("value".toList, .num "42".toList)]) = .ok (.num "42".toList) ∧
    (∀ field : JsVal, (∀ fields, field ≠ .obj fields) →
      ∃ s, extractStringValue field = .ok (.str s)) := by
  refine ⟨by decide, by decide, by decide, by decide, ?_⟩
  intro field hf
  rw [extractStringValue_eq]
  cases field with
  | undefined => exact ⟨_, rfl⟩
  | null => exact ⟨_, rfl⟩
  | bool b => cases b <;> exact ⟨_, rfl⟩
  | num t =>
    unfold resolveValue
    by_cases h : truthy (.num t) = true <;> simp [h]
  | str s =>
    unfold resolveValue
    by_cases h : truthy (.str s) = true <;> simp [h]
  | arr xs => exact ⟨_, rfl⟩
  | obj fields => exact absurd rfl (hf fields)

/-- C9: on every payload and location giving a Shift the location-derived fields are those
of the location whatever the payload: `service_name` is `location.name`, `suburb` is
`location.city`, `lat` and `lng` are `location.lat` and `location.lng`, `address` is
`location.street` when a street is present and `location.city` otherwise, and `state` is
the postcode-range state of `location.postcode`; the scenario location and payload give the
scenario Shift. -/
theorem convertShiftData_location_fields :
    (∀ (apiShift location : JsVal) (fields : List (List Char × JsVal)),
      convertShiftData apiShift location = .obj fields →
      lookupKey "service_name".toList fields = propOf location "name".toList ∧
      lookupKey "suburb".toList fields = propOf location "city".toList ∧
      lookupKey "lat".toList fields = propOf location "lat".toList ∧
      lookupKey "lng".toList fields = propOf location "lng".toList ∧
      (nonEmpty (propOf location "street".toList) = true →
        lookupKey "address".toList fields = propOf location "street".toList) ∧
      (nonEmpty (propOf location "street".toList) = false →
        lookupKey "address".toList fields = propOf location "city".toList) ∧
      extractStateFromLocation location = .ok (lookupKey "state".toList fields)) ∧
    (∀ (apiShift apiShift' location : JsVal) (fields fields' : List (List Char × JsVal)),
      convertShiftData apiShift location = .obj fields →
      convertShiftData apiShift' location = .obj fields' →
      ∀ k ∈ ["service_name".toList, "suburb".toList, "state".toList, "address".toList,
          "lat".toList, "lng".toList],
        lookupKey k fields = lookupKey k fields') ∧
    convertShiftData testHallPayload testHall =
      .obj [("service_name".toList, .str "Test Hall".toList),
        ("suburb".toList, .str "Hobart".toList),
        ("state".toList, .str "TAS".toList),
        ("address".toList, .str "Hobart".toList),
        ("lat".toList, .num "-42.88".toList),
        ("lng".toList, .num "147.33".toList),
        ("day".toList, .str "Wed".toList),
        ("start_time".toList, .str "09:30".toList),
        ("end_time".toList, .str "11:30".toList),
        ("shift_status".toList, .str []),
        ("van_asset".toList, .str [])] := by
  refine ⟨?_, ?_, by decide⟩
  · intro a l fields h
    obtain ⟨_, hl, hr⟩ := convertShiftData_obj a l fields h
    rw [resolvedShift_fields a l fields hr]
    refine ⟨rfl, rfl, rfl, rfl, ?_, ?_, ?_⟩
    · intro hs
      rw [nonEmpty_eq_truthy] at hs
      show jsOr _ _ = _
      simp only [jsOr, hs, if_true]
    · intro hs
      rw [nonEmpty_eq_truthy] at hs
      show jsOr _ _ = _
      simp only [jsOr, hs, if_false, Bool.false_eq_true]
    · rw [extractStateFromLocation_eq l hl]
      rfl
  · intro a a' l fields fields' h h' k hk
    obtain ⟨_, _, hr⟩ := convertShiftData_obj a l fields h
    obtain ⟨_, _, hr'⟩ := convertShiftData_obj a' l fields' h'
    rw [resolvedShift_fields a l fields hr, resolvedShift_fields a' l fields' hr']
    simp only [List.mem_cons, List.mem_singleton, List.not_mem_nil, or_false] at hk
    rcases hk with rfl | rfl | rfl | rfl | rfl | rfl <;> rfl

/-- C9 at the scenario location with an empty payload: the location fields are those of
the location. -/
theorem convertShiftData_location_fields_witness :
    lookupKey "service_name".toList
        [("service_name".toList, JsVal.str "Test Hall".toList)] = propOf testHall "name".toList ∧
    extractStateFromLocation testHall = .ok (.str "TAS".toList) :=
  ⟨(by decide : lookupKey "service_name".toList
        [("service_name".toList, JsVal.str "Test Hall".toList)] = _).trans
      (convertShiftData_location_fields.1 (.obj []) testHall _ rfl).1,
    ((convertShiftData_location_fields.1 (.obj []) testHall _ rfl).2.2.2.2.2.2).trans
      (by decide)⟩

/-! ## Properties of the CSV encoding -/

theorem joinComma_eq (cells : List JsVal) :
    joinComma cells = joinStrings ',' (cells.map plainText) := by
  induction cells with
  | nil => simp [joinComma, joinStrings]
  | cons x xs ih =>
    cases xs with
    | nil => cases x <;> rfl
    | cons y ys =>
      have e : joinComma (x :: y :: ys) = plainText x ++ ',' :: joinComma (y :: ys) := by
        cases x <;> rfl
      rw [e, ih]
      rfl

theorem plainText_csvCell (v : JsVal) : plainText (csvCell v) = renderCell v := by
  cases v with
  | str s =>
    simp only [csvCell, renderCell, doubleQuotes]
    by_cases h : ',' ∈ s ∨ '"' ∈ s
    · have : (s.contains ',' || s.contains '"') = true := by simpa using h
      simp [this, h, plainText, toStr]
    · have : (s.contains ',' || s.contains '"') = false := by simpa using h
      simp [this, h, plainText, toStr]
  | _ => rfl

theorem convertToCSV_cons (first : List (List Char × JsVal))
    (rest : List (List (List Char × JsVal))) :
    convertToCSV (first :: rest) =
      joinStrings (Char.ofNat 10) (csvLines first (first :: rest)) := by
  simp only [convertToCSV, csvLines, joinComma_eq, List.map_map, List.singleton_append]
  congr 2
  apply List.map_congr_left
  intro r _
  congr 1
  apply List.map_congr_left
  intro k _
  exact plainText_csvCell _

theorem splitChar_ne_nil (sep : Char) (s : List Char) : splitChar sep s ≠ [] := by
  induction s with
  | nil => simp [splitChar]
  | cons c cs ih =>
    rw [splitChar]
    split_ifs
    · simp
    · cases h : splitChar sep cs <;> simp

theorem splitChar_of_not_mem (sep : Char) (s : List Char) (h : sep ∉ s) :
    splitChar sep s = [s] := by
  induction s with
  | nil => rfl
  | cons c cs ih =>
    have hc : c ≠ sep := fun e => h (by simp [e])
    have hcs : sep ∉ cs := fun e => h (by simp [e])
    rw [splitChar, if_neg hc, ih hcs]

theorem splitChar_append (sep : Char) (s rest : List Char) (h : sep ∉ s) :
    splitChar sep (s ++ sep :: rest) = s :: splitChar sep rest := by
  induction s with
  | nil => simp [splitChar]
  | cons c cs ih =>
    have hc : c ≠ sep := fun e => h (by simp [e])
    have hcs : sep ∉ cs := fun e => h (by simp [e])
    rw [List.cons_append, splitChar, if_neg hc, ih hcs]

theorem splitChar_joinStrings (sep : Char) (xs : List (List Char)) (hne : xs ≠ [])
    (h : ∀ x ∈ xs, sep ∉ x) : splitChar sep (joinStrings sep xs) = xs := by
  induction xs with
  | nil => exact absurd rfl hne
  | cons x rest ih =>
    have hx : sep ∉ x := h x (by simp)
    cases rest with
    | nil => simp [joinStrings, splitChar_of_not_mem sep x hx]
    | cons y ys =>
      rw [joinStrings]
      rw [splitChar_append sep x _ hx, ih (by simp) (fun z hz => h z (by simp [hz]))]

theorem not_mem_joinStrings (c sep : Char) (xs : List (List Char)) (hc : c ≠ sep)
    (h : ∀ x ∈ xs, c ∉ x) : c ∉ joinStrings sep xs := by
  induction xs with
  | nil => simp [joinStrings]
  | cons x rest ih =>
    have hx : c ∉ x := h x (by simp)
    have hrest := ih (fun z hz => h z (by simp [hz]))
    cases rest with
    | nil => simpa [joinStrings] using hx
    | cons y ys =>
      rw [joinStrings]
      simp only [List.mem_append, List.mem_cons, not_or]
      exact ⟨hx, hc, hrest⟩

theorem renderCell_of_isPlain (v : JsVal) (h : isPlain (plainText v)) :
    renderCell v = plainText v := by
  cases v with
  | str s =>
    have h1 : ',' ∉ s := h.1
    have h2 : '"' ∉ s := h.2.1
    simp [renderCell, plainText, toStr, h1, h2]
  | _ => rfl

theorem lookupKey_map_of_nodup (r : List (List Char × JsVal)) (h : (r.map Prod.fst).Nodup) :
    (r.map Prod.fst).map (fun k => lookupKey k r) = r.map Prod.snd := by
  induction r with
  | nil => rfl
  | cons kv rest ih =>
    obtain ⟨k, v⟩ := kv
    simp only [List.map_cons, List.nodup_cons] at h ⊢
    simp only [lookupKey, if_true, List.cons.injEq, true_and]
    rw [← ih h.2]
    apply List.map_congr_left
    intro k' hk'
    have : k ≠ k' := fun e => h.1 (e ▸ hk')
    simp [this]

/-- C5: `convertToCSV` gives the empty string on the empty list and otherwise the lines
joined by single line feeds, without a trailing one: the header line, the first record's
field names in its key order joined by commas, then one line per record in order holding
the renderings of that record's values for the header fields joined by commas, a string
with a comma or a double quote wrapped in double quotes with its quotes doubled and any
other value as its plain text; the value `a,b"c` is rendered `"a,b""c"`; and the two copies
of `convertToCSV` compute the same function. -/
theorem convertToCSV_lines :
    convertToCSV [] = [] ∧
    (∀ (first : List (List Char × JsVal)) (rest : List (List (List Char × JsVal))),
      convertToCSV (first :: rest) =
        joinStrings (Char.ofNat 10) (csvLines first (first :: rest))) ∧
    renderCell (.str "a,b\"c".toList) = "\"a,b\"\"c\"".toList ∧
    convertToCSV [[("day".toList, .str "a,b\"c".toList), ("lat".toList, .num "-42.88".toList)],
        [("day".toList, .str "Wed".toList)]]
      = "day,lat\n\"a,b\"\"c\",-42.88\nWed,".toList ∧
    (∀ shifts : List (List (List Char × JsVal)),
      Scraper.convertToCSV shifts = convertToCSV shifts) := by
  refine ⟨rfl, convertToCSV_cons, by decide, by decide, ?_⟩
  intro shifts
  cases shifts <;> rfl

/-- C6, as stated, fails: a value with a line feed holds no comma and no double quote, yet
the decoded table has one row more than the header and the record. -/
theorem decodeCsv_line_feed :
    (∀ kv ∈ twoLineDayRecord, ',' ∉ plainText kv.2 ∧ '"' ∉ plainText kv.2) ∧
    decodeCsv (convertToCSV [twoLineDayRecord]) ≠
      twoLineDayRecord.map Prod.fst ::
        [twoLineDayRecord].map (fun r => r.map (fun kv => plainText kv.2)) ∧
    decodeCsv (convertToCSV [twoLineDayRecord]) =
      ["day".toList] :: [["Mon".toList], ["Tue".toList]] := by
  decide

/-- C6, amended: for every non-empty list of records with at least one field, whose field
names hold no comma and no line feed and whose values under the header fields are texts
without comma, double quote and line feed, decoding the output of `convertToCSV` gives the
header followed by exactly one row per record holding its values for the header fields in
header order; for a record with the header's keys in the header's order these are the
record's values in order. -/
theorem decodeCsv_convertToCSV :
    (∀ (first : List (List Char × JsVal)) (rest : List (List (List Char × JsVal))),
      first ≠ [] →
      (∀ k ∈ first.map Prod.fst, ',' ∉ k ∧ Char.ofNat 10 ∉ k) →
      (∀ r ∈ first :: rest, ∀ k ∈ first.map Prod.fst, isPlain (plainText (lookupKey k r))) →
      decodeCsv (convertToCSV (first :: rest)) =
        first.map Prod.fst ::
          (first :: rest).map (fun r =>
            (first.map Prod.fst).map (fun k => plainText (lookupKey k r)))) ∧
    (∀ (keys : List (List Char)) (r : List (List Char × JsVal)),
      r.map Prod.fst = keys → keys.Nodup →
      keys.map (fun k => plainText (lookupKey k r)) = r.map (fun kv => plainText kv.2)) := by
  constructor
  · intro first rest hne hkeys hvals
    have hkne : first.map Prod.fst ≠ [] := by simpa using hne
    have hrow : ∀ r ∈ first :: rest,
        (first.map Prod.fst).map (fun k => renderCell (lookupKey k r)) =
          (first.map Prod.fst).map (fun k => plainText (lookupKey k r)) := by
      intro r hr
      apply List.map_congr_left
      intro k hk
      exact renderCell_of_isPlain _ (hvals r hr k hk)
    have hlines : csvLines first (first :: rest) =
        joinStrings ',' (first.map Prod.fst) ::
          (first :: rest).map (fun r =>
            joinStrings ',' ((first.map Prod.fst).map (fun k => plainText (lookupKey k r)))) := by
      unfold csvLines
      congr 1
      apply List.map_congr_left
      intro r hr
      rw [hrow r hr]
    have hnl : ∀ line ∈ csvLines first (first :: rest), Char.ofNat 10 ∉ line := by
      intro line hline
      rw [hlines] at hline
      rcases List.mem_cons.mp hline with rfl | hline
      · exact not_mem_joinStrings _ _ _ (by decide) (fun k hk => (hkeys k hk).2)
      · obtain ⟨r, hr, rfl⟩ := List.mem_map.mp hline
        apply not_mem_joinStrings _ _ _ (by decide)
        intro x hx
        obtain ⟨k, hk, rfl⟩ := List.mem_map.mp hx
        exact (hvals r hr k hk).2.2
    unfold decodeCsv
    rw [convertToCSV_cons, splitChar_joinStrings _ _ (by simp [csvLines]) hnl, hlines]
    rw [List.map_cons, splitChar_joinStrings _ _ hkne (fun k hk => (hkeys k hk).1)]
    congr 1
    rw [List.map_map]
    apply List.map_congr_left
    intro r hr
    simp only [Function.comp]
    apply splitChar_joinStrings
    · simpa using hne
    · intro x hx
      obtain ⟨k, hk, rfl⟩ := List.mem_map.mp hx
      exact (hvals r hr k hk).1
  · intro keys r hk hnd
    subst hk
    have := lookupKey_map_of_nodup r hnd
    calc (r.map Prod.fst).map (fun k => plainText (lookupKey k r))
        = ((r.map Prod.fst).map (fun k => lookupKey k r)).map plainText := by
          simp only [List.map_map]; rfl
      _ = (r.map Prod.snd).map plainText := by rw [this]
      _ = r.map (fun kv => plainText kv.2) := by simp only [List.map_map]; rfl

/-- C6, amended, on two records with a text and a number field. -/
theorem decodeCsv_convertToCSV_witness :
    decodeCsv (convertToCSV dayLatRecords) =
      [["day".toList, "lat".toList], ["Wed".toList, "-42.88".toList],
        ["Thu".toList, "147.33".toList]] ∧
    ["day".toList, "lat".toList].map
        (fun k => plainText (lookupKey k
          [("day".toList, .str "Wed".toList), ("lat".toList, .num "-42.88".toList)])) =
      ["Wed".toList, "-42.88".toList] :=
  ⟨(decodeCsv_convertToCSV.1
      [("day".toList, .str "Wed".toList), ("lat".toList, .num "-42.88".toList)]
      [[("day".toList, .str "Thu".toList), ("lat".toList, .num "147.33".toList)]]
      (by decide) (by decide) (by unfold isPlain; decide)).trans (by decide),
    decodeCsv_convertToCSV.2 ["day".toList, "lat".toList]
      [("day".toList, .str "Wed".toList), ("lat".toList, .num "-42.88".toList)]
      (by decide) (by decide)⟩

/-! ## Properties of `convertTo24Hour` -/

theorem isClockChar_facts (c : Char) (h : isClockChar c = true) :
    isWhiteSpace c = false ∧ canonicalize c = c ∧ c ≠ 'A' ∧ c ≠ 'P' := by
  have hn : 48 ≤ c.toNat ∧ c.toNat ≤ 58 := by
    simp only [isClockChar, isDigit, Bool.or_eq_true, Bool.and_eq_true, decide_eq_true_eq,
      beq_iff_eq] at h
    rcases h with h | h
    · omega
    · subst h; decide
  refine ⟨?_, ?_, ?_, ?_⟩
  · simp only [isWhiteSpace, Bool.or_eq_false_iff, beq_eq_false_iff_ne, ne_eq,
      Bool.and_eq_false_imp, decide_eq_true_eq, decide_eq_false_iff_not]
    omega
  · simp only [canonicalize]
    rw [if_neg (by omega)]
  · intro e; subst e; revert hn; decide
  · intro e; subst e; revert hn; decide

theorem matchItems_meridiem_none (c : Char) (rest : List Char) (h : isClockChar c = true) :
    matchItems true meridiemPattern (c :: rest) = none := by
  obtain ⟨hws, hcan, hA, hP⟩ := isClockChar_facts c h
  have ha : charMatches true 'a' c = false := by
    simp only [charMatches, if_true, hcan]
    rw [show canonicalize 'a' = 'A' from rfl]
    simpa using hA.symm
  have hp : charMatches true 'p' c = false := by
    simp only [charMatches, if_true, hcan]
    rw [show canonicalize 'p' = 'P' from rfl]
    simpa using hP.symm
  have hmax : classMax isWhiteSpace none (c :: rest) = 0 := by
    simp [classMax, List.takeWhile, hws]
  have hlit : ∀ x y : Char, charMatches true x c = false →
      litPrefix true [x, y] (c :: rest) = none := by
    intro x y hx
    simp [litPrefix, hx]
  simp only [meridiemPattern, matchItems, hmax, backtrack, if_true, tryChoices]
  rw [show "am".toList = ['a', 'm'] from rfl, show "pm".toList = ['p', 'm'] from rfl,
    hlit 'a' 'm' ha, hlit 'p' 'm' hp]

theorem splitLoop_clock (t pending rest : List Char) (h : ∀ c ∈ t, isClockChar c = true) :
    splitLoop true meridiemPattern pending (t ++ rest) 0 =
      splitLoop true meridiemPattern (pending ++ t) rest 0 := by
  induction t generalizing pending with
  | nil => simp
  | cons c cs ih =>
    have hc := h c (by simp)
    rw [List.cons_append, splitLoop, matchItems_meridiem_none c _ hc]
    simp only
    rw [ih (pending ++ [c]) (fun d hd => h d (by simp [hd]))]
    simp

theorem splitLoop_skip (ignoreCase : Bool) (items : List ReItem) (cs pending : List Char)
    (n : Nat) (h : cs.length ≤ n) (hp : cs = [] → pending = []) :
    splitLoop ignoreCase items pending cs n = [[]] := by
  induction cs generalizing n pending with
  | nil => rw [hp rfl]; rfl
  | cons c cs ih =>
    cases n with
    | zero => simp at h
    | succ k =>
      rw [splitLoop]
      exact ih [] k (by simpa using h) (fun _ => rfl)

theorem takeWhile_append_of_head (p : Char → Bool) (ws rest : List Char)
    (hws : ∀ c ∈ ws, p c = true) (hrest : ∀ c, rest.head? = some c → p c = false) :
    (ws ++ rest).takeWhile p = ws := by
  induction ws with
  | nil =>
    cases rest with
    | nil => rfl
    | cons c cs => simp [List.takeWhile, hrest c rfl]
  | cons w ws ih =>
    simp only [List.cons_append, List.takeWhile, hws w (by simp)]
    exact congrArg (List.cons w) (ih (fun c hc => hws c (by simp [hc])))

theorem meridiem_facts (ap : List Char) (pm : Bool) (h : ap ∈ meridiemTexts pm) :
    matchItems true [.groupOpen, .alt ["am".toList, "pm".toList], .groupClose] ap
      = some ([[], ap, []], []) ∧
    (∀ c, ap.head? = some c → isWhiteSpace c = false) ∧
    (∀ pending : List Char, splitLoop true meridiemPattern pending ap 0 = [pending, ap, []]) := by
  cases pm <;> simp only [meridiemTexts, if_true, if_false, Bool.false_eq_true, List.mem_cons,
    List.mem_singleton, List.not_mem_nil, or_false] at h <;>
  rcases h with rfl | rfl | rfl | rfl <;>
  exact ⟨rfl, fun c hc => by cases hc; rfl, fun _ => rfl⟩

theorem matchItems_meridiem (ws ap : List Char) (pm : Bool)
    (hws : ∀ c ∈ ws, isWhiteSpace c = true) (h : ap ∈ meridiemTexts pm) :
    matchItems true meridiemPattern (ws ++ ap) = some ([ws, [], ap, []], []) := by
  obtain ⟨hcont, hhead, _⟩ := meridiem_facts ap pm h
  have hmax : classMax isWhiteSpace none (ws ++ ap) = ws.length := by
    simp only [classMax]
    rw [takeWhile_append_of_head isWhiteSpace ws ap hws hhead]
  have hstep : matchItems true meridiemPattern (ws ++ ap) =
      backtrack 0 (ws ++ ap)
        (matchItems true [.groupOpen, .alt ["am".toList, "pm".toList], .groupClose])
        (classMax isWhiteSpace none (ws ++ ap)) := rfl
  rw [hstep, hmax]
  cases ws with
  | nil =>
    simp only [List.length_nil, backtrack, if_true, List.nil_append]
    rw [hcont]
  | cons w ws' =>
    simp only [List.length_cons, backtrack]
    rw [if_neg (by omega)]
    have hd : List.drop (ws'.length + 1) (w :: ws' ++ ap) = ap := by
      have := List.drop_left (w :: ws') ap
      simp at this ⊢
    have ht : List.take (ws'.length + 1) (w :: ws' ++ ap) = w :: ws' := by
      have := List.take_left (w :: ws') ap
      simp at this ⊢
    rw [hd, hcont, ht]

theorem splitLoop_meridiem (pending ws ap : List Char) (pm : Bool)
    (hws : ∀ c ∈ ws, isWhiteSpace c = true) (h : ap ∈ meridiemTexts pm) :
    splitLoop true meridiemPattern pending (ws ++ ap) 0 = [pending, ap, []] := by
  cases ws with
  | nil => exact (meridiem_facts ap pm h).2.2 pending
  | cons w ws' =>
    have hm := matchItems_meridiem (w :: ws') ap pm hws h
    rw [List.cons_append] at hm ⊢
    rw [splitLoop, hm]
    simp only [List.length_cons, List.length_nil, Nat.sub_zero, Nat.add_sub_cancel]
    rw [if_neg (by omega)]
    rw [splitLoop_skip true meridiemPattern (ws' ++ ap) [] _ (le_refl _) (fun _ => rfl)]
    rfl

theorem splitRegex_clock (t ws ap : List Char) (pm : Bool) (hne : t ≠ [])
    (h : ∀ c ∈ t, isClockChar c = true) (hws : ∀ c ∈ ws, isWhiteSpace c = true)
    (hap : ap ∈ meridiemTexts pm) :
    splitRegex true meridiemPattern (t ++ (ws ++ ap)) = [t, ap, []] := by
  cases t with
  | nil => exact absurd rfl hne
  | cons c cs =>
    show splitLoop true meridiemPattern [] ((c :: cs) ++ (ws ++ ap)) 0 = _
    rw [splitLoop_clock (c :: cs) [] _ h, splitLoop_meridiem _ ws ap pm hws hap]
    simp

theorem convertTo24Hour_clock (hours minutes ws ap : List Char) (pm : Bool)
    (hh : ∀ c ∈ hours, isDigit c = true) (hm : ∀ c ∈ minutes, isDigit c = true)
    (hws : ∀ c ∈ ws, isWhiteSpace c = true) (hap : ap ∈ meridiemTexts pm) :
    convertTo24Hour (hours ++ ':' :: (minutes ++ (ws ++ ap))) =
      .ok (padStart2 (hoursIn24 hours ap) ++ ':' :: minutes) := by
  have hcolon : ∀ s : List Char, (∀ c ∈ s, isDigit c = true) → ':' ∉ s := by
    intro s hs hmem
    have := hs ':' hmem
    revert this; decide
  have hclock : ∀ c ∈ hours ++ ':' :: minutes, isClockChar c = true := by
    intro c hc
    simp only [List.mem_append, List.mem_cons] at hc
    rcases hc with hc | rfl | hc
    · simp [isClockChar, hh c hc]
    · rfl
    · simp [isClockChar, hm c hc]
  have hsplit := splitRegex_clock (hours ++ ':' :: minutes) ws ap pm (by simp) hclock hws hap
  have hassoc : hours ++ ':' :: (minutes ++ (ws ++ ap)) =
      (hours ++ ':' :: minutes) ++ (ws ++ ap) := by
    simp
  unfold convertTo24Hour
  rw [hassoc, hsplit]
  simp only [List.headD_cons, List.tail_cons, List.head?_cons]
  rw [splitChar_append ':' hours minutes (hcolon hours hh),
    splitChar_of_not_mem ':' minutes (hcolon minutes hm)]
  rfl

theorem isDigit_digitChar (d : Nat) (h : d < 10) : isDigit (digitChar d) = true := by
  interval_cases d <;> rfl

theorem isDigit_twoDigits (n : Nat) (h : n < 100) : ∀ c ∈ twoDigits n, isDigit c = true := by
  intro c hc
  simp only [twoDigits, List.mem_cons, List.mem_singleton, List.not_mem_nil, or_false] at hc
  rcases hc with rfl | rfl
  · exact isDigit_digitChar _ (by omega)
  · exact isDigit_digitChar _ (by omega)

set_option maxRecDepth 100000 in
theorem hoursIn24_table :
    ∀ h ∈ List.range' 1 12, ∀ hours ∈ hourTexts h, ∀ pm : Bool, ∀ ap ∈ meridiemTexts pm,
      (hours.all isDigit = true) ∧ padStart2 (hoursIn24 hours ap) = twoDigits (hour24 h pm) := by
  decide

/-- C2: on every well-formed 12-hour time `h:mm am` or `h:mm pm`, the hour from 1 to 12
written with one or two digits, the minutes from 00 to 59 and `am`/`pm` in any letter case,
`convertTo24Hour` returns without error the two-digit hour of the 24-hour clock (00 for
12 am, `h` for `h` am, 12 for 12 pm, `h + 12` for `h` pm), a colon and the minutes
unchanged; the four examples of the specification hold. -/
theorem convertTo24Hour_wellFormed :
    (∀ (h m : Nat) (pm : Bool) (hours ap : List Char),
      1 ≤ h → h ≤ 12 → m < 60 → hours ∈ hourTexts h → ap ∈ meridiemTexts pm →
      convertTo24Hour (hours ++ ':' :: (twoDigits m ++ ' ' :: ap)) =
        .ok (twoDigits (hour24 h pm) ++ ':' :: twoDigits m)) ∧
    convertTo24Hour "12:00 am".toList = .ok "00:00".toList ∧
    convertTo24Hour "12:30 pm".toList = .ok "12:30".toList ∧
    convertTo24Hour "1:05 pm".toList = .ok "13:05".toList ∧
    convertTo24Hour "11:45 am".toList = .ok "11:45".toList := by
  refine ⟨?_, rfl, rfl, rfl, rfl⟩
  intro h m pm hours ap h1 h12 hm hh hap
  have hmem : h ∈ List.range' 1 12 := by
    rw [List.mem_range'_1]; omega
  obtain ⟨hd, htab⟩ := hoursIn24_table h hmem hours hh pm ap hap
  have hspace : ∀ c ∈ [' '], isWhiteSpace c = true := by
    intro c hc
    rw [List.mem_singleton] at hc
    subst hc
    rfl
  have := convertTo24Hour_clock hours (twoDigits m) [' '] ap pm
    (fun c hc => List.all_eq_true.mp hd c hc) (isDigit_twoDigits m (by omega)) hspace hap
  rw [htab] at this
  exact this

/-- C2 at `9:07 PM`, and at `09:07 am` with the hour written with two digits. -/
theorem convertTo24Hour_wellFormed_witness :
    convertTo24Hour ("9".toList ++ ':' :: (twoDigits 7 ++ ' ' :: "PM".toList)) =
      .ok (twoDigits (hour24 9 true) ++ ':' :: twoDigits 7) ∧
    convertTo24Hour ("09".toList ++ ':' :: (twoDigits 7 ++ ' ' :: "am".toList)) =
      .ok (twoDigits (hour24 9 false) ++ ':' :: twoDigits 7) :=
  ⟨convertTo24Hour_wellFormed.1 9 7 true "9".toList "PM".toList (by decide) (by decide)
      (by decide) (by decide) (by decide),
    convertTo24Hour_wellFormed.1 9 7 false "09".toList "am".toList (by decide) (by decide)
      (by decide) (by decide) (by decide)⟩

/-! ## Soundness of the matcher -/

theorem litPrefix_sound (ignoreCase : Bool) (s text m rest : List Char)
    (h : litPrefix ignoreCase s text = some (m, rest)) :
    text = m ++ rest ∧ litPrefix ignoreCase s m = some (m, []) := by
  induction s generalizing text m with
  | nil =>
    simp only [litPrefix, Option.some.injEq, Prod.mk.injEq] at h
    obtain ⟨rfl, rfl⟩ := h
    exact ⟨rfl, rfl⟩
  | cons p ps ih =>
    cases text with
    | nil => simp [litPrefix] at h
    | cons c cs =>
      rw [litPrefix] at h
      by_cases hc : charMatches ignoreCase p c = true
      · rw [if_pos hc] at h
        cases hr : litPrefix ignoreCase ps cs with
        | none => rw [hr] at h; cases h
        | some r =>
          obtain ⟨m', rest'⟩ := r
          rw [hr] at h
          simp only [Option.some.injEq, Prod.mk.injEq] at h
          obtain ⟨rfl, rfl⟩ := h
          obtain ⟨h1, h2⟩ := ih cs m' hr
          refine ⟨by rw [h1]; rfl, ?_⟩
          rw [litPrefix, if_pos hc, h2]
      · rw [if_neg hc] at h; cases h

theorem backtrack_sound (lo : Nat) (text : List Char)
    (cont : List Char → Option (List (List Char) × List Char)) (n : Nat)
    (segs : List (List Char)) (rest : List Char)
    (h : backtrack lo text cont n = some (segs, rest)) :
    ∃ k segs', k ≤ n ∧ lo ≤ k ∧ cont (text.drop k) = some (segs', rest) ∧
      segs = text.take k :: segs' := by
  induction n with
  | zero =>
    rw [backtrack] at h
    by_cases hlo : lo = 0
    · rw [if_pos hlo] at h
      cases hc : cont text with
      | none => rw [hc] at h; cases h
      | some r =>
        obtain ⟨segs', rest'⟩ := r
        rw [hc] at h
        simp only [Option.some.injEq, Prod.mk.injEq] at h
        obtain ⟨rfl, rfl⟩ := h
        exact ⟨0, segs', le_refl _, by omega, by simpa using hc, by simp⟩
    · rw [if_neg hlo] at h; cases h
  | succ n ih =>
    rw [backtrack] at h
    by_cases hlt : n + 1 < lo
    · rw [if_pos hlt] at h; cases h
    · rw [if_neg hlt] at h
      cases hc : cont (text.drop (n + 1)) with
      | none =>
        rw [hc] at h
        obtain ⟨k, segs', hk, hlo, hcont, hsegs⟩ := ih h
        exact ⟨k, segs', by omega, hlo, hcont, hsegs⟩
      | some r =>
        obtain ⟨segs', rest'⟩ := r
        rw [hc] at h
        simp only [Option.some.injEq, Prod.mk.injEq] at h
        obtain ⟨rfl, rfl⟩ := h
        exact ⟨n + 1, segs', le_refl _, by omega, hc, rfl⟩

theorem tryChoices_sound (ignoreCase : Bool) (text : List Char)
    (cont : List Char → Option (List (List Char) × List Char)) (choices : List (List Char))
    (segs : List (List Char)) (rest : List Char)
    (h : tryChoices ignoreCase text cont choices = some (segs, rest)) :
    ∃ choice ∈ choices, ∃ m rest1 segs', litPrefix ignoreCase choice text = some (m, rest1) ∧
      cont rest1 = some (segs', rest) ∧ segs = m :: segs' := by
  induction choices with
  | nil => simp [tryChoices] at h
  | cons choice choices ih =>
    rw [tryChoices] at h
    cases hl : litPrefix ignoreCase choice text with
    | none =>
      rw [hl] at h
      obtain ⟨ch, hch, rest⟩ := ih h
      exact ⟨ch, by simp [hch], rest⟩
    | some r =>
      obtain ⟨m, rest1⟩ := r
      rw [hl] at h
      simp only at h
      cases hc : cont rest1 with
      | none =>
        rw [hc] at h
        obtain ⟨ch, hch, rest⟩ := ih h
        exact ⟨ch, by simp [hch], rest⟩
      | some r2 =>
        obtain ⟨segs', rest'⟩ := r2
        rw [hc] at h
        simp only [Option.some.injEq, Prod.mk.injEq] at h
        obtain ⟨rfl, rfl⟩ := h
        exact ⟨choice, by simp, m, rest1, segs', hl, hc, rfl⟩

theorem take_of_le_takeWhile (p : Char → Bool) (text : List Char) (k : Nat)
    (h : k ≤ (text.takeWhile p).length) :
    (∀ c ∈ text.take k, p c = true) ∧ (text.take k).length = k := by
  induction text generalizing k with
  | nil => simp at h; subst h; simp
  | cons c cs ih =>
    cases k with
    | zero => simp
    | succ k =>
      rw [List.takeWhile] at h
      cases hp : p c with
      | false => rw [hp] at h; simp at h
      | true =>
        rw [hp] at h
        simp only [List.length_cons, Nat.add_le_add_iff_right] at h
        obtain ⟨h1, h2⟩ := ih k h
        refine ⟨?_, by simp [h2]⟩
        intro d hd
        simp only [List.take_succ_cons, List.mem_cons] at hd
        rcases hd with rfl | hd
        · exact hp
        · exact h1 d hd

theorem matchItems_sound (ignoreCase : Bool) (items : List ReItem) (text : List Char)
    (segs : List (List Char)) (rest : List Char)
    (h : matchItems ignoreCase items text = some (segs, rest)) :
    List.Forall₂ (itemTakes ignoreCase) items segs ∧ text = segs.flatten ++ rest := by
  induction items generalizing text segs with
  | nil =>
    simp only [matchItems, Option.some.injEq, Prod.mk.injEq] at h
    obtain ⟨rfl, rfl⟩ := h
    exact ⟨List.Forall₂.nil, by simp⟩
  | cons item items ih =>
    cases item with
    | lit s =>
      rw [matchItems] at h
      cases hl : litPrefix ignoreCase s text with
      | none => rw [hl] at h; cases h
      | some r =>
        obtain ⟨m, rest1⟩ := r
        rw [hl] at h
        simp only at h
        cases hm : matchItems ignoreCase items rest1 with
        | none => rw [hm] at h; cases h
        | some r2 =>
          obtain ⟨segs', rest'⟩ := r2
          rw [hm] at h
          simp only [Option.some.injEq, Prod.mk.injEq] at h
          obtain ⟨rfl, rfl⟩ := h
          obtain ⟨h1, h2⟩ := litPrefix_sound _ _ _ _ _ hl
          obtain ⟨h3, h4⟩ := ih rest1 segs' hm
          exact ⟨List.Forall₂.cons h2 h3, by rw [h1, h4]; simp⟩
    | cls p lo hi =>
      rw [matchItems] at h
      obtain ⟨k, segs', hk, hlo, hcont, rfl⟩ := backtrack_sound _ _ _ _ _ _ h
      obtain ⟨h3, h4⟩ := ih _ segs' hcont
      have hk' : k ≤ (text.takeWhile p).length := by
        cases hi with
        | none => simpa [classMax] using hk
        | some hmax => simp only [classMax] at hk; omega
      obtain ⟨hall, hlen⟩ := take_of_le_takeWhile p text k hk'
      refine ⟨List.Forall₂.cons ⟨hall, by omega, ?_⟩ h3, ?_⟩
      · intro hmax hhi
        subst hhi
        simp only [classMax] at hk
        omega
      · rw [List.flatten_cons, List.append_assoc, ← h4, List.take_append_drop]
    | alt choices =>
      rw [matchItems] at h
      obtain ⟨choice, hch, m, rest1, segs', hl, hcont, rfl⟩ := tryChoices_sound _ _ _ _ _ _ h
      obtain ⟨h1, h2⟩ := litPrefix_sound _ _ _ _ _ hl
      obtain ⟨h3, h4⟩ := ih rest1 segs' hcont
      exact ⟨List.Forall₂.cons ⟨choice, hch, h2⟩ h3, by rw [h1, h4]; simp⟩
    | groupOpen =>
      rw [matchItems] at h
      cases hm : matchItems ignoreCase items text with
      | none => rw [hm] at h; cases h
      | some r2 =>
        obtain ⟨segs', rest'⟩ := r2
        rw [hm] at h
        simp only [Option.some.injEq, Prod.mk.injEq] at h
        obtain ⟨rfl, rfl⟩ := h
        obtain ⟨h3, h4⟩ := ih text segs' hm
        exact ⟨List.Forall₂.cons rfl h3, by simpa using h4⟩
    | groupClose =>
      rw [matchItems] at h
      cases hm : matchItems ignoreCase items text with
      | none => rw [hm] at h; cases h
      | some r2 =>
        obtain ⟨segs', rest'⟩ := r2
        rw [hm] at h
        simp only [Option.some.injEq, Prod.mk.injEq] at h
        obtain ⟨rfl, rfl⟩ := h
        obtain ⟨h3, h4⟩ := ih text segs' hm
        exact ⟨List.Forall₂.cons rfl h3, by simpa using h4⟩

theorem reMatch_sound (ignoreCase : Bool) (items : List ReItem) (text : List Char)
    (caps : List (List Char)) (h : reMatch ignoreCase items text = some caps) :
    ∃ sub segs rest, matchItems ignoreCase items sub = some (segs, rest) ∧
      caps = captures items segs none := by
  induction text with
  | nil =>
    rw [reMatch] at h
    cases hm : matchItems ignoreCase items [] with
    | none => rw [hm] at h; cases h
    | some r =>
      obtain ⟨segs, rest⟩ := r
      rw [hm] at h
      simp only [Option.some.injEq] at h
      exact ⟨[], segs, rest, hm, h.symm⟩
  | cons c cs ih =>
    rw [reMatch] at h
    cases hm : matchItems ignoreCase items (c :: cs) with
    | none => rw [hm] at h; exact ih h
    | some r =>
      obtain ⟨segs, rest⟩ := r
      rw [hm] at h
      simp only [Option.some.injEq] at h
      exact ⟨c :: cs, segs, rest, hm, h.symm⟩

theorem canonicalize_eq (c u : Char) (h : canonicalize c = u) :
    c = u ∨ c = Char.ofNat (u.toNat + 32) := by
  unfold canonicalize at h
  by_cases hr : 97 ≤ c.toNat ∧ c.toNat ≤ 122
  · rw [if_pos hr] at h
    right
    generalize hn : c.toNat = n at hr h
    have hc : c = Char.ofNat n := by rw [← hn, Char.ofNat_toNat]
    subst hc
    subst h
    obtain ⟨hlo, hhi⟩ := hr
    interval_cases n <;> rfl
  · rw [if_neg hr] at h
    exact Or.inl h

theorem charMatches_colon (c : Char) (h : charMatches true ':' c = true) : c = ':' := by
  simp only [charMatches, if_true, beq_iff_eq] at h
  rw [show canonicalize ':' = ':' from rfl] at h
  rcases canonicalize_eq c ':' h.symm with hc | hc
  · exact hc
  · rw [hc] at h
    exact absurd h (by decide)

theorem litPrefix_colon (seg : List Char) (h : litPrefix true ":".toList seg = some (seg, [])) :
    seg = [':'] := by
  rw [show ":".toList = [':'] from rfl] at h
  cases seg with
  | nil => simp [litPrefix] at h
  | cons c cs =>
    rw [litPrefix] at h
    by_cases hc : charMatches true ':' c = true
    · rw [if_pos hc] at h
      simp only [litPrefix, Option.some.injEq, Prod.mk.injEq, List.cons.injEq, true_and] at h
      rw [charMatches_colon c hc, ← h.1]
    · rw [if_neg hc] at h; cases h

theorem litPrefix_two (x y : Char) (seg : List Char)
    (h : litPrefix true [x, y] seg = some (seg, [])) :
    ∃ c d, seg = [c, d] ∧
      (c = canonicalize x ∨ c = Char.ofNat ((canonicalize x).toNat + 32)) ∧
      (d = canonicalize y ∨ d = Char.ofNat ((canonicalize y).toNat + 32)) := by
  cases seg with
  | nil => simp [litPrefix] at h
  | cons c cs =>
    rw [litPrefix] at h
    by_cases hc : charMatches true x c = true
    · rw [if_pos hc] at h
      cases cs with
      | nil => simp [litPrefix] at h
      | cons d ds =>
        rw [litPrefix] at h
        by_cases hd : charMatches true y d = true
        · rw [if_pos hd] at h
          simp only [litPrefix, Option.some.injEq, Prod.mk.injEq, List.cons.injEq, true_and] at h
          simp only [charMatches, if_true, beq_iff_eq] at hc hd
          refine ⟨c, d, by rw [← h.1], canonicalize_eq c _ hc.symm,
            canonicalize_eq d _ hd.symm⟩
        · rw [if_neg hd] at h; cases h
    · rw [if_neg hc] at h; cases h

theorem meridiem_of_choice (seg : List Char)
    (h : ∃ choice ∈ ["am".toList, "pm".toList], litPrefix true choice seg = some (seg, [])) :
    ∃ pm, seg ∈ meridiemTexts pm := by
  obtain ⟨choice, hch, hl⟩ := h
  simp only [List.mem_cons, List.mem_singleton, List.not_mem_nil, or_false] at hch
  rcases hch with rfl | rfl
  · obtain ⟨c, d, rfl, hc, hd⟩ := litPrefix_two 'a' 'm' seg hl
    refine ⟨false, ?_⟩
    rcases hc with rfl | rfl <;> rcases hd with rfl | rfl <;> decide
  · obtain ⟨c, d, rfl, hc, hd⟩ := litPrefix_two 'p' 'm' seg hl
    refine ⟨true, ?_⟩
    rcases hc with rfl | rfl <;> rcases hd with rfl | rfl <;> decide

theorem timePattern_captures (text : List Char) (caps : List (List Char))
    (h : reMatch true timePattern text = some caps) :
    ∃ (day hours1 minutes1 ws1 ap1 hours2 minutes2 ws2 ap2 : List Char) (pm1 pm2 : Bool),
      caps = [day, hours1 ++ ':' :: (minutes1 ++ (ws1 ++ ap1)),
        hours2 ++ ':' :: (minutes2 ++ (ws2 ++ ap2))] ∧
      day.length = 3 ∧ (∀ c ∈ day, isWordChar c = true) ∧
      ClockParts hours1 minutes1 ws1 ap1 pm1 ∧ ClockParts hours2 minutes2 ws2 ap2 pm2 := by
  obtain ⟨sub, segs, rest, hm, rfl⟩ := reMatch_sound _ _ _ _ h
  obtain ⟨hF, _⟩ := matchItems_sound _ _ _ _ _ hm
  simp only [timePattern, clockItems, List.cons_append, List.nil_append] at hF ⊢
  obtain ⟨s0, u0, h0, hF0, rfl⟩ := List.forall₂_cons_left_iff.mp hF
  obtain ⟨s1, u1, h1, hF1, rfl⟩ := List.forall₂_cons_left_iff.mp hF0
  obtain ⟨s2, u2, h2, hF2, rfl⟩ := List.forall₂_cons_left_iff.mp hF1
  obtain ⟨s3, u3, h3, hF3, rfl⟩ := List.forall₂_cons_left_iff.mp hF2
  obtain ⟨s4, u4, h4, hF4, rfl⟩ := List.forall₂_cons_left_iff.mp hF3
  obtain ⟨s5, u5, h5, hF5, rfl⟩ := List.forall₂_cons_left_iff.mp hF4
  obtain ⟨s6, u6, h6, hF6, rfl⟩ := List.forall₂_cons_left_iff.mp hF5
  obtain ⟨s7, u7, h7, hF7, rfl⟩ := List.forall₂_cons_left_iff.mp hF6
  obtain ⟨s8, u8, h8, hF8, rfl⟩ := List.forall₂_cons_left_iff.mp hF7
  obtain ⟨s9, u9, h9, hF9, rfl⟩ := List.forall₂_cons_left_iff.mp hF8
  obtain ⟨s10, u10, h10, hF10, rfl⟩ := List.forall₂_cons_left_iff.mp hF9
  obtain ⟨s11, u11, h11, hF11, rfl⟩ := List.forall₂_cons_left_iff.mp hF10
  obtain ⟨s12, u12, h12, hF12, rfl⟩ := List.forall₂_cons_left_iff.mp hF11
  obtain ⟨s13, u13, h13, hF13, rfl⟩ := List.forall₂_cons_left_iff.mp hF12
  obtain ⟨s14, u14, h14, hF14, rfl⟩ := List.forall₂_cons_left_iff.mp hF13
  obtain ⟨s15, u15, h15, hF15, rfl⟩ := List.forall₂_cons_left_iff.mp hF14
  obtain ⟨s16, u16, h16, hF16, rfl⟩ := List.forall₂_cons_left_iff.mp hF15
  obtain ⟨s17, u17, h17, hF17, rfl⟩ := List.forall₂_cons_left_iff.mp hF16
  obtain ⟨s18, u18, h18, hF18, rfl⟩ := List.forall₂_cons_left_iff.mp hF17
  obtain ⟨s19, u19, h19, hF19, rfl⟩ := List.forall₂_cons_left_iff.mp hF18
  obtain ⟨s20, u20, h20, hF20, rfl⟩ := List.forall₂_cons_left_iff.mp hF19
  obtain ⟨s21, u21, h21, hF21, rfl⟩ := List.forall₂_cons_left_iff.mp hF20
  obtain ⟨s22, u22, h22, hF22, rfl⟩ := List.forall₂_cons_left_iff.mp hF21
  obtain ⟨s23, u23, h23, hF23, rfl⟩ := List.forall₂_cons_left_iff.mp hF22
  obtain ⟨s24, u24, h24, hF24, rfl⟩ := List.forall₂_cons_left_iff.mp hF23
  obtain ⟨s25, u25, h25, hF25, rfl⟩ := List.forall₂_cons_left_iff.mp hF24
  have hnil := List.forall₂_nil_left_iff.mp hF25
  subst hnil
  obtain ⟨pm1, hap1⟩ := meridiem_of_choice _ h14
  obtain ⟨pm2, hap2⟩ := meridiem_of_choice _ h24
  have e11 := litPrefix_colon _ h11
  have e21 := litPrefix_colon _ h21
  subst e11 e21
  refine ⟨s1, s10, s12, s13, s14, s20, s22, s23, s24, pm1, pm2, ?_, ?_, h1.1, ?_, ?_⟩
  · simp [captures]
  · have := h1.2.1
    have := h1.2.2 3 rfl
    omega
  · exact ⟨h10.1, h10.2.1, h10.2.2 2 rfl, h12.1, by
      have := h12.2.1
      have := h12.2.2 2 rfl
      omega, h13.1, hap1⟩
  · exact ⟨h20.1, h20.2.1, h20.2.2 2 rfl, h22.1, by
      have := h22.2.1
      have := h22.2.2 2 rfl
      omega, h23.1, hap2⟩

/-! ## Properties of `parseShiftData` -/

theorem convertTo24Hour_of_clockParts (hours minutes ws ap : List Char) (pm : Bool)
    (h : ClockParts hours minutes ws ap pm) :
    convertTo24Hour (hours ++ ':' :: (minutes ++ (ws ++ ap))) =
      .ok (padStart2 (hoursIn24 hours ap) ++ ':' :: minutes) :=
  convertTo24Hour_clock hours minutes ws ap pm h.1 h.2.2.2.1 h.2.2.2.2.2.1 h.2.2.2.2.2.2

theorem addressPattern_captures (html : List Char) (m : List (List Char))
    (h : reMatch false addressPattern html = some m) :
    ∃ queryLat queryLng text, m = [queryLat, queryLng, text] := by
  obtain ⟨sub, segs, rest, hm, rfl⟩ := reMatch_sound _ _ _ _ h
  obtain ⟨hF, _⟩ := matchItems_sound _ _ _ _ _ hm
  simp only [addressPattern] at hF ⊢
  obtain ⟨s0, u0, h0, hF0, rfl⟩ := List.forall₂_cons_left_iff.mp hF
  obtain ⟨s1, u1, h1, hF1, rfl⟩ := List.forall₂_cons_left_iff.mp hF0
  obtain ⟨s2, u2, h2, hF2, rfl⟩ := List.forall₂_cons_left_iff.mp hF1
  obtain ⟨s3, u3, h3, hF3, rfl⟩ := List.forall₂_cons_left_iff.mp hF2
  obtain ⟨s4, u4, h4, hF4, rfl⟩ := List.forall₂_cons_left_iff.mp hF3
  obtain ⟨s5, u5, h5, hF5, rfl⟩ := List.forall₂_cons_left_iff.mp hF4
  obtain ⟨s6, u6, h6, hF6, rfl⟩ := List.forall₂_cons_left_iff.mp hF5
  obtain ⟨s7, u7, h7, hF7, rfl⟩ := List.forall₂_cons_left_iff.mp hF6
  obtain ⟨s8, u8, h8, hF8, rfl⟩ := List.forall₂_cons_left_iff.mp hF7
  obtain ⟨s9, u9, h9, hF9, rfl⟩ := List.forall₂_cons_left_iff.mp hF8
  obtain ⟨s10, u10, h10, hF10, rfl⟩ := List.forall₂_cons_left_iff.mp hF9
  obtain ⟨s11, u11, h11, hF11, rfl⟩ := List.forall₂_cons_left_iff.mp hF10
  obtain ⟨s12, u12, h12, hF12, rfl⟩ := List.forall₂_cons_left_iff.mp hF11
  have hnil := List.forall₂_nil_left_iff.mp hF12
  subst hnil
  exact ⟨_, _, _, rfl⟩

theorem parseShiftLoop_ok (serviceName address : List Char) (lat lng : JsVal)
    (found : List (List (List Char))) (acc : List JsVal) :
    ∃ out, parseShiftLoop serviceName address lat lng found acc = .ok (acc ++ out) ∧
      List.Forall₂ (IsShiftOf serviceName address lat lng)
        (found.filterMap timeFragment) out := by
  induction found generalizing acc with
  | nil => exact ⟨[], by simp [parseShiftLoop], by simp⟩
  | cons m more ih =>
    rw [parseShiftLoop]
    cases hf : reMatch true timePattern (trim (m.headD [])) with
    | none =>
      obtain ⟨out, h1, h2⟩ := ih acc
      refine ⟨out, by simpa using h1, ?_⟩
      rw [List.filterMap_cons]
      simp only [timeFragment, hf]
      exact h2
    | some caps =>
      obtain ⟨day, hours1, minutes1, ws1, ap1, hours2, minutes2, ws2, ap2, pm1, pm2, rfl, _,
        _, hc1, hc2⟩ := timePattern_captures _ _ hf
      have e1 := convertTo24Hour_of_clockParts _ _ _ _ _ hc1
      have e2 := convertTo24Hour_of_clockParts _ _ _ _ _ hc2
      simp only [List.headD_cons, List.tail_cons, List.head?_cons, Option.getD_some, e1, e2]
      obtain ⟨out, h1, h2⟩ := ih (acc ++ [shiftRecord serviceName (suburbOf address)
        (extractStateFromAddress address) address lat lng day
        (padStart2 (hoursIn24 hours1 ap1) ++ ':' :: minutes1)
        (padStart2 (hoursIn24 hours2 ap2) ++ ':' :: minutes2)])
      refine ⟨shiftRecord serviceName (suburbOf address)
        (extractStateFromAddress address) address lat lng day
        (padStart2 (hoursIn24 hours1 ap1) ++ ':' :: minutes1)
        (padStart2 (hoursIn24 hours2 ap2) ++ ':' :: minutes2) :: out, ?_, ?_⟩
      · rw [List.append_assoc] at h1
        exact h1
      · rw [List.filterMap_cons]
        simp only [timeFragment, hf]
        exact List.Forall₂.cons ⟨_, _, e1, e2, rfl⟩ h2

theorem parseShiftData_eq (parseFloat : List Char → JsVal) (html slug : List Char) :
    parseShiftData parseFloat html slug =
      parseShiftLoop (locationNameOf html slug) (addressOf html) (latOf parseFloat html)
        (lngOf parseFloat html) (shiftElements html) [] := by
  unfold parseShiftData locationNameOf addressOf latOf lngOf anchorOf shiftElements
  cases h : reMatch false addressPattern html with
  | none => rfl
  | some m =>
    obtain ⟨queryLat, queryLng, text, rfl⟩ := addressPattern_captures html m h
    rfl

set_option maxRecDepth 1000000 in
/-- C10, as stated, fails: on a page whose address anchor shows `Hobart`, an address with
no second comma-delimited segment, the Shift's suburb is `Unknown`. -/
theorem parseShiftData_one_segment :
    parseShiftData numberOfText oneSegmentPage "hobart_hall".toList =
      .ok [shiftRecord "hobart hall".toList "Unknown".toList "Unknown".toList "Hobart".toList
        (.num "-42.88".toList) (.num "147.33".toList) "Wed".toList "09:30".toList
        "11:30".toList] ∧
    addressOf oneSegmentPage = "Hobart".toList ∧
    secondSegment (addressOf oneSegmentPage) = none := by
  refine ⟨rfl, rfl, rfl⟩

theorem shiftFragments_shape (html : List Char) (frag : List (List Char))
    (h : frag ∈ shiftFragments html) :
    ∃ day start finish, frag = [day, start, finish] ∧ day.length = 3 ∧
      ∀ c ∈ day, isWordChar c = true := by
  unfold shiftFragments at h
  obtain ⟨m, _, hm⟩ := List.mem_filterMap.mp h
  obtain ⟨day, hours1, minutes1, ws1, ap1, hours2, minutes2, ws2, ap2, pm1, pm2, rfl, hlen,
    hword, _, _⟩ := timePattern_captures _ _ hm
  exact ⟨day, _, _, rfl, hlen, hword⟩

set_option maxRecDepth 1000000 in
/-- C10, amended: on every page and slug `parseShiftData` returns without error and
yields, in document order, exactly one Shift per shift-time element whose trimmed text has
a match of the time pattern and nothing for the other elements; each such Shift has the
day equal to the fragment's token of three word characters, start and end time equal to
what `convertTo24Hour` returns on the fragment's two times, address, latitude and longitude
from the first address anchor when the page has one and the empty string and zeros
otherwise, suburb equal to the trimmed second comma-delimited segment of the address when
there is one and `Unknown` otherwise, and state from the address-substring strategy; the
scenario page gives the scenario Shift. -/
theorem parseShiftData_shifts :
    (∀ (parseFloat : List Char → JsVal) (html slug : List Char),
      ∃ shifts, parseShiftData parseFloat html slug = .ok shifts ∧
        List.Forall₂
          (IsShiftOf (locationNameOf html slug) (addressOf html) (latOf parseFloat html)
            (lngOf parseFloat html))
          (shiftFragments html) shifts) ∧
    (∀ (html : List Char) (frag : List (List Char)), frag ∈ shiftFragments html →
      ∃ day start finish, frag = [day, start, finish] ∧ day.length = 3 ∧
        ∀ c ∈ day, isWordChar c = true) ∧
    (∀ (html queryLat queryLng text : List Char),
      anchorOf html = some (queryLat, queryLng, text) →
      addressOf html = text ∧
        ∀ parseFloat : List Char → JsVal,
          latOf parseFloat html = parseFloat queryLat ∧
          lngOf parseFloat html = parseFloat queryLng) ∧
    (∀ html : List Char, anchorOf html = none →
      addressOf html = [] ∧
        ∀ parseFloat : List Char → JsVal,
          latOf parseFloat html = .num "0".toList ∧ lngOf parseFloat html = .num "0".toList) ∧
    (∀ address seg : List Char, secondSegment address = some seg →
      suburbOf address = trim seg) ∧
    (∀ address : List Char, secondSegment address = none →
      suburbOf address = "Unknown".toList) ∧
    parseShiftData numberOfText hobartPage "north_hobart_uniting_church".toList =
      .ok [shiftRecord "north hobart uniting church".toList "North Hobart".toList
        "TAS".toList "2 Swan Street,North Hobart,7000".toList (.num "-42.88".toList)
        (.num "147.33".toList) "Wed".toList "09:30".toList "11:30".toList] := by
  refine ⟨?_, shiftFragments_shape, ?_, ?_, ?_, ?_, rfl⟩
  · intro parseFloat html slug
    rw [parseShiftData_eq]
    obtain ⟨out, h1, h2⟩ := parseShiftLoop_ok (locationNameOf html slug) (addressOf html)
      (latOf parseFloat html) (lngOf parseFloat html) (shiftElements html) []
    exact ⟨out, by simpa using h1, h2⟩
  · intro html queryLat queryLng text h
    unfold addressOf latOf lngOf
    rw [h]
    exact ⟨rfl, fun _ => ⟨rfl, rfl⟩⟩
  · intro html h
    unfold addressOf latOf lngOf
    rw [h]
    exact ⟨rfl, fun _ => ⟨rfl, rfl⟩⟩
  · intro address seg h
    simp only [suburbOf, h]
  · intro address h
    simp only [suburbOf, h]

set_option maxRecDepth 1000000 in
/-- C10, amended, at the scenario page: its one fragment is in the list of fragments and
has the shape of a fragment, and its anchor gives the address. -/
theorem parseShiftData_shifts_witness :
    (∃ day start finish,
      ["Wed".toList, "9:30 am".toList, "11:30 am".toList] = [day, start, finish] ∧
        day.length = 3 ∧ ∀ c ∈ day, isWordChar c = true) ∧
    addressOf hobartPage = "2 Swan Street,North Hobart,7000".toList ∧
    suburbOf "2 Swan Street,North Hobart,7000".toList = trim "North Hobart".toList :=
  ⟨parseShiftData_shifts.2.1 hobartPage ["Wed".toList, "9:30 am".toList, "11:30 am".toList]
      (by rw [show shiftFragments hobartPage =
        [["Wed".toList, "9:30 am".toList, "11:30 am".toList]] from rfl]; simp),
    (parseShiftData_shifts.2.2.1 hobartPage "-42.88".toList "147.33".toList
      "2 Swan Street,North Hobart,7000".toList rfl).1,
    parseShiftData_shifts.2.2.2.2.1 "2 Swan Street,North Hobart,7000".toList
      "North Hobart".toList rfl⟩

/-! ## Idempotence of the completeness filter -/

theorem filterJs_idem (f : JsVal → Except JsError JsVal) (s out : List JsVal)
    (h : filterJs f s = .ok out) : filterJs f out = .ok out := by
  induction s generalizing out with
  | nil =>
    simp only [filterJs, Except.ok.injEq] at h
    subst h
    rfl
  | cons x xs ih =>
    simp only [filterJs, bind, Except.bind] at h
    cases hx : f x with
    | error e => rw [hx] at h; cases h
    | ok keep =>
      rw [hx] at h
      simp only at h
      cases hr : filterJs f xs with
      | error e => rw [hr] at h; cases h
      | ok rest =>
        rw [hr] at h
        simp only [Except.ok.injEq] at h
        have ihr := ih rest hr
        by_cases hk : truthy keep = true
        · rw [if_pos hk] at h
          subst h
          simp only [filterJs, bind, Except.bind, hx, ihr, hk, if_true]
        · rw [if_neg hk] at h
          subst h
          exact ihr

/-- C13: the completeness filter is idempotent: on every sequence, filtering the filtered
sequence gives the filtered sequence again, and on a sequence of records the filter does
return. -/
theorem completeShifts_idempotent :
    (∀ s : List JsVal, (completeShifts s >>= completeShifts) = completeShifts s) ∧
    (∀ records : List (List (List Char × JsVal)),
      ∃ out, completeShifts (records.map .obj) = .ok out ∧ completeShifts out = .ok out) := by
  constructor
  · intro s
    cases h : completeShifts s with
    | error e => rfl
    | ok out => exact filterJs_idem completeTest s out h
  · intro records
    exact ⟨_, completeShifts_records records,
      filterJs_idem completeTest _ _ (completeShifts_records records)⟩

/-! ## The address-substring strategy -/

theorem includes_iff_infix (s sub : List Char) : includes s sub = true ↔ sub <:+: s := by
  induction s with
  | nil =>
    cases sub with
    | nil => simp [includes]
    | cons c cs => simp [includes]
  | cons c cs ih =>
    rw [includes, Bool.or_eq_true, ih, List.infix_cons_iff, List.isPrefixOf_iff_prefix]

theorem infix_dropWhile (sub s : List Char)
    (h : ∀ c, sub.head? = some c → isWhiteSpace c = false) (hne : sub ≠ []) :
    sub <:+: s.dropWhile isWhiteSpace ↔ sub <:+: s := by
  induction s with
  | nil => simp
  | cons c cs ih =>
    by_cases hc : isWhiteSpace c = true
    · rw [List.dropWhile_cons_of_pos hc, ih, List.infix_cons_iff]
      constructor
      · exact fun h' => Or.inr h'
      · rintro (hp | hi)
        · exfalso
          cases sub with
          | nil => exact hne rfl
          | cons d ds =>
            obtain ⟨t, ht⟩ := hp
            simp only [List.cons_append, List.cons.injEq] at ht
            have := h d rfl
            rw [ht.1, hc] at this
            cases this
        · exact hi
    · rw [List.dropWhile_cons_of_neg hc]

theorem infix_trim (sub s : List Char)
    (h : ∀ c, sub.head? = some c → isWhiteSpace c = false)
    (hl : ∀ c, sub.reverse.head? = some c → isWhiteSpace c = false) (hne : sub ≠ []) :
    sub <:+: trim s ↔ sub <:+: s := by
  unfold trim
  rw [← List.reverse_infix, List.reverse_reverse,
    infix_dropWhile sub.reverse _ hl (by simpa using hne), List.reverse_infix,
    infix_dropWhile sub s h hne]

theorem includes_trim (sub s : List Char)
    (h : ∀ c, sub.head? = some c → isWhiteSpace c = false)
    (hl : ∀ c, sub.reverse.head? = some c → isWhiteSpace c = false) (hne : sub ≠ []) :
    includes (trim s) sub = includes s sub := by
  rw [Bool.eq_iff_iff, includes_iff_infix, includes_iff_infix, infix_trim sub s h hl hne]

theorem includes_trim_city (s : List Char) :
    ∀ p ∈ cityStates, includes (trim s) p.1 = includes s p.1 := by
  have key : ∀ p ∈ cityStates,
      (∀ c, p.1.head? = some c → isWhiteSpace c = false) ∧
      (∀ c, p.1.reverse.head? = some c → isWhiteSpace c = false) ∧ p.1 ≠ [] := by
    decide
  intro p hp
  obtain ⟨h1, h2, h3⟩ := key p hp
  exact includes_trim p.1 s h1 h2 h3

theorem extractStateFromAddress_eq (address : List Char) :
    extractStateFromAddress address =
      match secondSegment address with
      | some seg => stateOfSegment seg
      | none => "Unknown".toList := by
  simp only [extractStateFromAddress, secondSegment]
  generalize (splitChar ',' address).tail.head? = o
  cases o with
  | none => rfl
  | some part =>
    have h0 : includes (trim part) "Hobart".toList = includes part "Hobart".toList :=
      includes_trim_city part ("Hobart".toList, "TAS".toList) (by decide)
    have h1 : includes (trim part) "Brisbane".toList = includes part "Brisbane".toList :=
      includes_trim_city part ("Brisbane".toList, "QLD".toList) (by decide)
    have h2 : includes (trim part) "Sydney".toList = includes part "Sydney".toList :=
      includes_trim_city part ("Sydney".toList, "NSW".toList) (by decide)
    have h3 : includes (trim part) "Newcastle".toList = includes part "Newcastle".toList :=
      includes_trim_city part ("Newcastle".toList, "NSW".toList) (by decide)
    have h4 : includes (trim part) "Melbourne".toList = includes part "Melbourne".toList :=
      includes_trim_city part ("Melbourne".toList, "VIC".toList) (by decide)
    have h5 : includes (trim part) "Geelong".toList = includes part "Geelong".toList :=
      includes_trim_city part ("Geelong".toList, "VIC".toList) (by decide)
    have h6 : includes (trim part) "Perth".toList = includes part "Perth".toList :=
      includes_trim_city part ("Perth".toList, "WA".toList) (by decide)
    have h7 : includes (trim part) "Adelaide".toList = includes part "Adelaide".toList :=
      includes_trim_city part ("Adelaide".toList, "SA".toList) (by decide)
    have h8 : includes (trim part) "Darwin".toList = includes part "Darwin".toList :=
      includes_trim_city part ("Darwin".toList, "NT".toList) (by decide)
    have h9 : includes (trim part) "Canberra".toList = includes part "Canberra".toList :=
      includes_trim_city part ("Canberra".toList, "ACT".toList) (by decide)
    simp only [h0, h1, h2, h3, h4, h5, h6, h7, h8, h9, stateOfSegment, cityStates,
      List.find?]
    generalize includes part "Hobart".toList = b0
    generalize includes part "Brisbane".toList = b1
    generalize includes part "Sydney".toList = b2
    generalize includes part "Newcastle".toList = b3
    generalize includes part "Melbourne".toList = b4
    generalize includes part "Geelong".toList = b5
    generalize includes part "Perth".toList = b6
    generalize includes part "Adelaide".toList = b7
    generalize includes part "Darwin".toList = b8
    generalize includes part "Canberra".toList = b9
    cases b0; swap; · rfl
    cases b1; swap; · rfl
    cases b2; swap; · rfl
    cases b3; swap; · rfl
    cases b4; swap; · rfl
    cases b5; swap; · rfl
    cases b6; swap; · rfl
    cases b7; swap; · rfl
    cases b8; swap; · rfl
    cases b9; swap; · rfl
    rfl

theorem stateOfSegment_mem (seg : List Char) : stateOfSegment seg ∈ stateCodes := by
  unfold stateOfSegment
  cases h : cityStates.find? (fun p => includes seg p.1) with
  | none => decide
  | some p =>
    have hp := List.mem_of_find?_eq_some h
    have key : ∀ q ∈ cityStates, q.2 ∈ stateCodes := by decide
    exact key p hp

/-- C11: `extractStateFromAddress` is a total function of the address whose result depends
only on the second comma-delimited segment: it is the state of the first city name, in the
order Hobart, Brisbane, Sydney, Newcastle, Melbourne, Geelong, Perth, Adelaide, Darwin,
Canberra, that the segment contains, and `Unknown` when the segment contains none or the
address has fewer than two segments; the result is one of the eight state codes or
`Unknown`. -/
theorem extractStateFromAddress_segment :
    (∀ address : List Char,
      extractStateFromAddress address =
        match secondSegment address with
        | some seg => stateOfSegment seg
        | none => "Unknown".toList) ∧
    (∀ address address' : List Char, secondSegment address = secondSegment address' →
      extractStateFromAddress address = extractStateFromAddress address') ∧
    (∀ address : List Char, extractStateFromAddress address ∈ stateCodes) ∧
    (∀ seg : List Char,
      stateOfSegment seg =
        match cityStates.find? (fun p => decide (p.1 <:+: seg)) with
        | some p => p.2
        | none => "Unknown".toList) ∧
    cityStates.map Prod.fst =
      ["Hobart".toList, "Brisbane".toList, "Sydney".toList, "Newcastle".toList,
        "Melbourne".toList, "Geelong".toList, "Perth".toList, "Adelaide".toList,
        "Darwin".toList, "Canberra".toList] ∧
    extractStateFromAddress "2 Swan Street,North Hobart,7000".toList = "TAS".toList ∧
    extractStateFromAddress "1 Pier Road, Sydney via Newcastle ,2000".toList = "NSW".toList ∧
    extractStateFromAddress "Hobart".toList = "Unknown".toList ∧
    extractStateFromAddress "Hobart,Kingston,7050".toList = "Unknown".toList ∧
    extractStateFromAddress [] = "Unknown".toList := by
  refine ⟨extractStateFromAddress_eq, ?_, ?_, ?_, rfl, by decide, by decide, by decide,
    by decide, by decide⟩
  · intro a a' h
    rw [extractStateFromAddress_eq, extractStateFromAddress_eq, h]
  · intro a
    rw [extractStateFromAddress_eq]
    cases secondSegment a with
    | none => decide
    | some seg => exact stateOfSegment_mem seg
  · intro seg
    unfold stateOfSegment
    have : (fun p : List Char × List Char => includes seg p.1) =
        (fun p => decide (p.1 <:+: seg)) := by
      funext p
      rw [Bool.eq_iff_iff, includes_iff_infix]
      simp
    rw [this]

/-- C11 at two addresses with the same second segment. -/
theorem extractStateFromAddress_segment_witness :
    extractStateFromAddress "2 Swan Street,North Hobart,7000".toList =
      extractStateFromAddress "9 Elm Road,North Hobart".toList :=
  extractStateFromAddress_segment.2.1 _ _ (by decide)

/-! ## The form of the times of the HTML path -/

theorem toNat_digitChar (d : Nat) (h : d < 10) : (digitChar d).toNat - 48 = d := by
  interval_cases d <;> rfl

theorem isCanonicalTime_twoDigits (hour minute : Nat) (hh : hour ≤ 23) (hm : minute ≤ 59) :
    isCanonicalTime (twoDigits hour ++ ':' :: twoDigits minute) = true := by
  have h1 : hour / 10 < 10 := by omega
  have h2 : hour % 10 < 10 := by omega
  have h3 : minute / 10 < 10 := by omega
  have h4 : minute % 10 < 10 := by omega
  simp only [twoDigits, List.cons_append, List.nil_append, isCanonicalTime,
    isDigit_digitChar _ h1, isDigit_digitChar _ h2, isDigit_digitChar _ h3,
    isDigit_digitChar _ h4, toNat_digitChar _ h1, toNat_digitChar _ h2,
    toNat_digitChar _ h3, toNat_digitChar _ h4, beq_self_eq_true, Bool.and_self,
    Bool.true_and, Bool.and_eq_true, decide_eq_true_eq]
  omega

theorem convertTo24Hour_of_wellFormed (text : List Char) (h : WellFormedClock text) :
    ∃ hour minute, hour ≤ 23 ∧ minute ≤ 59 ∧
      convertTo24Hour text = .ok (twoDigits hour ++ ':' :: twoDigits minute) := by
  obtain ⟨h, m, pm, hours, ws, ap, h1, h12, hm, hh, hap, hws, rfl⟩ := h
  have hmem : h ∈ List.range' 1 12 := by
    rw [List.mem_range'_1]; omega
  obtain ⟨hd, htab⟩ := hoursIn24_table h hmem hours hh pm ap hap
  have := convertTo24Hour_clock hours (twoDigits m) ws ap pm
    (fun c hc => List.all_eq_true.mp hd c hc) (isDigit_twoDigits m (by omega)) hws hap
  rw [htab] at this
  refine ⟨hour24 h pm, m, ?_, by omega, this⟩
  unfold hour24
  split_ifs <;> omega

theorem forall₂_exists_left {α β : Type} (r : α → β → Prop) (l₁ : List α) (l₂ : List β)
    (h : List.Forall₂ r l₁ l₂) : ∀ b ∈ l₂, ∃ a ∈ l₁, r a b := by
  induction h with
  | nil => intro b hb; cases hb
  | cons hab _ ih =>
    intro b hb
    rcases List.mem_cons.mp hb with rfl | hb
    · exact ⟨_, by simp, hab⟩
    · obtain ⟨a, ha, hr⟩ := ih b hb
      exact ⟨a, by simp [ha], hr⟩

set_option maxRecDepth 1000000 in
/-- C14, as stated, fails: the time pattern accepts `13:30 pm` and `99:75 pm`, and the
Shift made from them has the start time `25:30` and the end time `111:75`, neither in the
canonical form. -/
theorem parseShiftData_late_hour :
    parseShiftData numberOfText lateHourPage "hall".toList =
      .ok [shiftRecord "hall".toList "Unknown".toList "Unknown".toList [] (.num "0".toList)
        (.num "0".toList) "Wed".toList "25:30".toList "111:75".toList] ∧
    isCanonicalTime "25:30".toList = false ∧
    isCanonicalTime "111:75".toList = false := by
  refine ⟨rfl, rfl, rfl⟩

/-- C14, amended: every Shift `parseShiftData` emits comes from a fragment the time
pattern accepted, its start and end time being what `convertTo24Hour` returns on the
fragment's two times; where such a time is a well-formed 12-hour time, hour 1 to 12 and
minute 00 to 59, the Shift's time is in the canonical form `HH:MM` with the hour in 00..23
and the minute in 00..59. -/
theorem parseShiftData_canonical_times :
    ∀ (parseFloat : List Char → JsVal) (html slug : List Char) (shifts : List JsVal),
      parseShiftData parseFloat html slug = .ok shifts →
      ∀ shift ∈ shifts, ∃ day start finish start24 end24,
        [day, start, finish] ∈ shiftFragments html ∧
        convertTo24Hour start = .ok start24 ∧ convertTo24Hour finish = .ok end24 ∧
        propOf shift "start_time".toList = .str start24 ∧
        propOf shift "end_time".toList = .str end24 ∧
        (WellFormedClock start → isCanonicalTime start24 = true) ∧
        (WellFormedClock finish → isCanonicalTime end24 = true) := by
  intro parseFloat html slug shifts h shift hs
  rw [parseShiftData_eq] at h
  obtain ⟨out, h1, h2⟩ := parseShiftLoop_ok (locationNameOf html slug) (addressOf html)
    (latOf parseFloat html) (lngOf parseFloat html) (shiftElements html) []
  rw [h1] at h
  simp only [List.nil_append, Except.ok.injEq] at h
  subst h
  obtain ⟨frag, hfrag, start24, end24, e1, e2, rfl⟩ := forall₂_exists_left _ _ _ h2 shift hs
  obtain ⟨day, start, finish, rfl, _, _⟩ := shiftFragments_shape html frag hfrag
  refine ⟨day, start, finish, start24, end24, hfrag, e1, e2, rfl, rfl, ?_, ?_⟩
  · intro hw
    obtain ⟨hour, minute, hh, hm, hc⟩ := convertTo24Hour_of_wellFormed start hw
    have e1' : convertTo24Hour start = .ok start24 := e1
    rw [hc] at e1'
    cases e1'
    exact isCanonicalTime_twoDigits hour minute hh hm
  · intro hw
    obtain ⟨hour, minute, hh, hm, hc⟩ := convertTo24Hour_of_wellFormed finish hw
    have e2' : convertTo24Hour finish = .ok end24 := e2
    rw [hc] at e2'
    cases e2'
    exact isCanonicalTime_twoDigits hour minute hh hm

set_option maxRecDepth 1000000 in
/-- C14, amended, at the scenario page: its Shift has times of a fragment of the page. -/
theorem parseShiftData_canonical_times_witness :
    ∃ day start finish start24 end24,
      [day, start, finish] ∈ shiftFragments hobartPage ∧
      convertTo24Hour start = .ok start24 ∧ convertTo24Hour finish = .ok end24 ∧
      propOf (shiftRecord "north hobart uniting church".toList "North Hobart".toList
        "TAS".toList "2 Swan Street,North Hobart,7000".toList (.num "-42.88".toList)
        (.num "147.33".toList) "Wed".toList "09:30".toList "11:30".toList)
        "start_time".toList = .str start24 ∧
      propOf (shiftRecord "north hobart uniting church".toList "North Hobart".toList
        "TAS".toList "2 Swan Street,North Hobart,7000".toList (.num "-42.88".toList)
        (.num "147.33".toList) "Wed".toList "09:30".toList "11:30".toList)
        "end_time".toList = .str end24 ∧
      (WellFormedClock start → isCanonicalTime start24 = true) ∧
      (WellFormedClock finish → isCanonicalTime end24 = true) :=
  parseShiftData_canonical_times numberOfText hobartPage
    "north_hobart_uniting_church".toList _ rfl _ (List.mem_singleton.mpr rfl)

/-! ## Pages without an address anchor -/

theorem locationNamePattern_captures (html : List Char) (m : List (List Char))
    (h : reMatch false locationNamePattern html = some m) :
    ∃ name, m = [name] ∧ name ≠ [] := by
  obtain ⟨sub, segs, rest, hm, rfl⟩ := reMatch_sound _ _ _ _ h
  obtain ⟨hF, _⟩ := matchItems_sound _ _ _ _ _ hm
  simp only [locationNamePattern] at hF ⊢
  obtain ⟨s0, u0, h0, hF0, rfl⟩ := List.forall₂_cons_left_iff.mp hF
  obtain ⟨s1, u1, h1, hF1, rfl⟩ := List.forall₂_cons_left_iff.mp hF0
  obtain ⟨s2, u2, h2, hF2, rfl⟩ := List.forall₂_cons_left_iff.mp hF1
  obtain ⟨s3, u3, h3, hF3, rfl⟩ := List.forall₂_cons_left_iff.mp hF2
  obtain ⟨s4, u4, h4, hF4, rfl⟩ := List.forall₂_cons_left_iff.mp hF3
  have hnil := List.forall₂_nil_left_iff.mp hF4
  subst hnil
  refine ⟨s2, by simp [captures], ?_⟩
  intro e
  have := h2.2.1
  rw [e] at this
  simp at this

theorem locationNameOf_ne_nil (html slug : List Char) (h : slug ≠ []) :
    locationNameOf html slug ≠ [] := by
  unfold locationNameOf
  cases hm : reMatch false locationNamePattern html with
  | none => simpa using h
  | some m =>
    obtain ⟨name, rfl, hne⟩ := locationNamePattern_captures html m hm
    exact hne

theorem anchorOf_none (html : List Char) (h : reMatch false addressPattern html = none) :
    addressOf html = [] ∧
      ∀ parseFloat : List Char → JsVal,
        latOf parseFloat html = .num "0".toList ∧ lngOf parseFloat html = .num "0".toList := by
  unfold addressOf latOf lngOf anchorOf
  rw [h]
  exact ⟨rfl, fun _ => ⟨rfl, rfl⟩⟩

theorem arrayIssues_shiftRecords (xs : List JsVal) (index : Nat)
    (h : ∀ x ∈ xs, ∃ name suburb state address day start24 end24,
      x = shiftRecord name suburb state address (.num "0".toList) (.num "0".toList) day
        start24 end24) :
    arrayIssues Scraper.ShiftSchema index xs = [] ∧
      (arrayOutput Scraper.ShiftSchema xs).map .obj = xs := by
  induction xs generalizing index with
  | nil => exact ⟨rfl, rfl⟩
  | cons x xs ih =>
    obtain ⟨name, suburb, state, address, day, start24, end24, rfl⟩ := h x (by simp)
    obtain ⟨h1, h2⟩ := ih (index + 1) (fun y hy => h y (by simp [hy]))
    constructor
    · rw [arrayIssues, h1]
      rfl
    · show JsVal.obj _ :: (arrayOutput Scraper.ShiftSchema xs).map .obj = _
      rw [h2]
      rfl

/-- C15: on every page without an address-anchor match and with a non-empty slug,
`parseShiftData` does not fail; it emits one Shift per matching fragment, each with
latitude and longitude zero, an empty address, a non-empty service name (the page's name:
the location-name element's text, or the slug with underscores as spaces), the suburb
`Unknown` and a day of three characters; each satisfies the completeness rule, and the
validation of `scraper.js` accepts the sequence unchanged, so that both files are
written. -/
theorem parseShiftData_without_anchor :
    ∀ (parseFloat : List Char → JsVal) (html slug : List Char),
      reMatch false addressPattern html = none → slug ≠ [] →
      ∃ shifts, parseShiftData parseFloat html slug = .ok shifts ∧
        shifts.length = (shiftFragments html).length ∧
        (∀ shift ∈ shifts, ∃ fields, shift = .obj fields ∧
          lookupKey "lat".toList fields = .num "0".toList ∧
          lookupKey "lng".toList fields = .num "0".toList ∧
          lookupKey "address".toList fields = .str [] ∧
          lookupKey "service_name".toList fields = .str (locationNameOf html slug) ∧
          locationNameOf html slug ≠ [] ∧
          lookupKey "suburb".toList fields = .str "Unknown".toList ∧
          isCompleteRecord fields = true) ∧
        (∃ validated, zodParse Scraper.ShiftSchema shifts = .ok validated ∧
          validated.map .obj = shifts ∧
          Scraper.mainAfterCollection shifts =
            ⟨[.jsonFile validated, .csvFile (Scraper.convertToCSV validated)], 0⟩) := by
  intro parseFloat html slug hanchor hslug
  obtain ⟨haddr, hll⟩ := anchorOf_none html hanchor
  obtain ⟨hlat, hlng⟩ := hll parseFloat
  have hname := locationNameOf_ne_nil html slug hslug
  obtain ⟨out, h1, h2⟩ := parseShiftLoop_ok (locationNameOf html slug) (addressOf html)
    (latOf parseFloat html) (lngOf parseFloat html) (shiftElements html) []
  rw [haddr, hlat, hlng] at h1 h2
  have hshape : ∀ shift ∈ out, ∃ day start24 end24, day.length = 3 ∧
      shift = shiftRecord (locationNameOf html slug) "Unknown".toList "Unknown".toList []
        (.num "0".toList) (.num "0".toList) day start24 end24 := by
    intro shift hs
    obtain ⟨frag, hfrag, start24, end24, _, _, rfl⟩ := forall₂_exists_left _ _ _ h2 shift hs
    obtain ⟨day, start, finish, rfl, hlen, _⟩ := shiftFragments_shape html frag hfrag
    exact ⟨day, start24, end24, hlen, rfl⟩
  have hissues := arrayIssues_shiftRecords out 0 (fun x hx => by
    obtain ⟨day, start24, end24, _, rfl⟩ := hshape x hx
    exact ⟨_, _, _, _, _, _, _, rfl⟩)
  have hparse : zodParse Scraper.ShiftSchema out = .ok (arrayOutput Scraper.ShiftSchema out) := by
    unfold zodParse
    rw [hissues.1]
  refine ⟨out, ?_, ?_, ?_, ?_⟩
  · rw [parseShiftData_eq, haddr, hlat, hlng]
    simpa using h1
  · exact h2.length_eq.symm
  · intro shift hs
    obtain ⟨day, start24, end24, hlen, rfl⟩ := hshape shift hs
    refine ⟨_, rfl, rfl, rfl, rfl, rfl, hname, rfl, ?_⟩
    have hday : nonEmpty (.str day) = true := by
      cases day with
      | nil => simp at hlen
      | cons c cs => simp [nonEmpty]
    have hn : nonEmpty (.str (locationNameOf html slug)) = true := by
      simpa [nonEmpty] using hname
    show (nonEmpty (.str (locationNameOf html slug)) && nonEmpty (.str "Unknown".toList) &&
      (nonEmpty (.str day) || nonEmpty (.str start24) || nonEmpty (.str end24))) = true
    rw [hn, hday]
    rfl
  · refine ⟨_, hparse, hissues.2, ?_⟩
    unfold Scraper.mainAfterCollection
    rw [hparse]

set_option maxRecDepth 1000000 in
/-- C15 at a page holding one shift-time element and nothing else. -/
theorem parseShiftData_without_anchor_witness :
    ∃ shifts, parseShiftData numberOfText bareShiftPage "north_hobart".toList = .ok shifts ∧
      shifts.length = (shiftFragments bareShiftPage).length ∧
      (∀ shift ∈ shifts, ∃ fields, shift = .obj fields ∧
        lookupKey "lat".toList fields = .num "0".toList ∧
        lookupKey "lng".toList fields = .num "0".toList ∧
        lookupKey "address".toList fields = .str [] ∧
        lookupKey "service_name".toList fields =
          .str (locationNameOf bareShiftPage "north_hobart".toList) ∧
        locationNameOf bareShiftPage "north_hobart".toList ≠ [] ∧
        lookupKey "suburb".toList fields = .str "Unknown".toList ∧
        isCompleteRecord fields = true) ∧
      (∃ validated, zodParse Scraper.ShiftSchema shifts = .ok validated ∧
        validated.map .obj = shifts ∧
        Scraper.mainAfterCollection shifts =
          ⟨[.jsonFile validated, .csvFile (Scraper.convertToCSV validated)], 0⟩) :=
  parseShiftData_without_anchor numberOfText bareShiftPage "north_hobart".toList rfl
    (by decide)

/-! ## Shape validation in `api_scraper.js` -/

theorem accepts_string (v : JsVal) : ZType.accepts .string v = true ↔ IsString v := by
  cases v <;> simp [ZType.accepts, typeOf, IsString]

theorem accepts_number (v : JsVal) : ZType.accepts .number v = true ↔ IsNumber v := by
  cases v <;> simp [ZType.accepts, IsNumber]

theorem accepts_optional_string (v : JsVal) :
    ZType.accepts (.optional .string) v = true ↔ AbsentOrString v := by
  cases v <;> simp [ZType.accepts, typeOf, AbsentOrString, IsString]

theorem filterMap_issue_nil (shape : List (List Char × ZType)) (index : Nat)
    (r : List (List Char × JsVal)) :
    shape.filterMap (fun kt =>
        if kt.2.accepts (lookupKey kt.1 r) then none
        else some (ZodIssue.mk index (some kt.1))) = [] ↔
      ∀ kt ∈ shape, kt.2.accepts (lookupKey kt.1 r) = true := by
  induction shape with
  | nil => simp
  | cons kt rest ih =>
    rw [List.filterMap_cons]
    by_cases h : kt.2.accepts (lookupKey kt.1 r) = true
    · simp only [h, if_true, List.mem_cons, forall_eq_or_imp, true_and]
      exact ih
    · simp only [h, if_false, Bool.false_eq_true, List.mem_cons, forall_eq_or_imp, false_and,
        iff_false]
      intro e
      cases e

theorem objectIssues_nil (index : Nat) (v : JsVal) :
    objectIssues ShiftSchema index v = [] ↔ ∃ r, v = .obj r ∧ ConformsToShape r := by
  cases v with
  | obj r =>
    simp only [objectIssues, filterMap_issue_nil, JsVal.obj.injEq, exists_eq_left']
    simp only [ShiftSchema, List.mem_cons, List.mem_singleton, List.not_mem_nil, or_false,
      forall_eq_or_imp, forall_eq, accepts_string, accepts_number, accepts_optional_string,
      ConformsToShape]
  | undefined =>
    exact ⟨fun h => absurd h (List.cons_ne_nil _ _), fun ⟨_, h, _⟩ => by cases h⟩
  | null =>
    exact ⟨fun h => absurd h (List.cons_ne_nil _ _), fun ⟨_, h, _⟩ => by cases h⟩
  | bool b =>
    exact ⟨fun h => absurd h (List.cons_ne_nil _ _), fun ⟨_, h, _⟩ => by cases h⟩
  | num t =>
    exact ⟨fun h => absurd h (List.cons_ne_nil _ _), fun ⟨_, h, _⟩ => by cases h⟩
  | str s =>
    exact ⟨fun h => absurd h (List.cons_ne_nil _ _), fun ⟨_, h, _⟩ => by cases h⟩
  | arr xs =>
    exact ⟨fun h => absurd h (List.cons_ne_nil _ _), fun ⟨_, h, _⟩ => by cases h⟩

theorem arrayIssues_nil (index : Nat) (xs : List JsVal) :
    arrayIssues ShiftSchema index xs = [] ↔
      ∀ x ∈ xs, ∃ r, x = .obj r ∧ ConformsToShape r := by
  induction xs generalizing index with
  | nil => exact ⟨fun _ x hx => absurd hx (List.not_mem_nil x), fun _ => rfl⟩
  | cons x xs ih =>
    rw [arrayIssues, List.append_eq_nil, objectIssues_nil, ih]
    simp only [List.mem_cons, forall_eq_or_imp]

theorem zodParse_ok_iff (xs : List JsVal) :
    (∃ out, zodParse ShiftSchema xs = .ok out) ↔
      ∀ x ∈ xs, ∃ r, x = .obj r ∧ ConformsToShape r := by
  rw [← arrayIssues_nil 0 xs]
  unfold zodParse
  cases h : arrayIssues ShiftSchema 0 xs with
  | nil => exact ⟨fun _ => rfl, fun _ => ⟨_, rfl⟩⟩
  | cons issue issues => exact ⟨fun ⟨_, h'⟩ => (by cases h'), fun h' => (by cases h')⟩

theorem zodParse_of_ok (xs : List JsVal) (out : List (List (List Char × JsVal)))
    (h : zodParse ShiftSchema xs = .ok out) : out = arrayOutput ShiftSchema xs := by
  unfold zodParse at h
  cases hi : arrayIssues ShiftSchema 0 xs with
  | nil => rw [hi] at h; cases h; rfl
  | cons issue issues => rw [hi] at h; cases h

theorem arrayOutput_map_obj (shape : List (List Char × ZType))
    (records : List (List (List Char × JsVal))) :
    arrayOutput shape (records.map .obj) = records.map (objectOutput shape) := by
  induction records with
  | nil => rfl
  | cons r rest ih =>
    show objectOutput shape r :: arrayOutput shape (rest.map .obj) = _
    rw [ih]
    rfl

theorem pairs_of_nodup (r : List (List Char × JsVal)) (h : (r.map Prod.fst).Nodup) :
    (r.map Prod.fst).map (fun k => (k, lookupKey k r)) = r := by
  induction r with
  | nil => rfl
  | cons kv rest ih =>
    obtain ⟨k, v⟩ := kv
    simp only [List.map_cons, List.nodup_cons] at h ⊢
    simp only [lookupKey, if_true, List.cons.injEq, true_and]
    conv_rhs => rw [← ih h.2]
    apply List.map_congr_left
    intro k' hk'
    have : k ≠ k' := fun e => h.1 (e ▸ hk')
    simp [this]

theorem objectOutput_of_keys (shape : List (List Char × ZType))
    (r : List (List Char × JsVal)) (hk : r.map Prod.fst = shape.map Prod.fst)
    (hnd : (shape.map Prod.fst).Nodup) : objectOutput shape r = r := by
  have hall : ∀ kt ∈ shape, hasKey kt.1 r = true := by
    intro kt hkt
    have hmem : kt.1 ∈ r.map Prod.fst := by
      rw [hk]
      exact List.mem_map_of_mem _ hkt
    obtain ⟨kv, hkv, he⟩ := List.mem_map.mp hmem
    simp only [hasKey, List.any_eq_true, beq_iff_eq]
    exact ⟨kv, hkv, he⟩
  have hmap : objectOutput shape r = shape.map (fun kt => (kt.1, lookupKey kt.1 r)) := by
    unfold objectOutput
    clear hk hnd
    induction shape with
    | nil => rfl
    | cons kt rest ih =>
      rw [List.filterMap_cons, List.map_cons]
      simp only [hall kt (by simp), if_true]
      rw [ih (fun kt' h' => hall kt' (by simp [h']))]
  rw [hmap]
  have : shape.map (fun kt => (kt.1, lookupKey kt.1 r)) =
      (shape.map Prod.fst).map (fun k => (k, lookupKey k r)) := by
    simp only [List.map_map]; rfl
  rw [this, ← hk]
  exact pairs_of_nodup r (hk ▸ hnd)

theorem jsOr_ne_undefined (a b : JsVal) (h : b ≠ .undefined) : jsOr a b ≠ .undefined := by
  unfold jsOr
  by_cases ha : truthy a = true
  · rw [if_pos ha]
    intro e
    rw [e] at ha
    cases ha
  · rw [if_neg ha]
    exact h

theorem resolveValue_ne_undefined (v : JsVal) : resolveValue v ≠ .undefined := by
  unfold resolveValue
  by_cases ht : truthy v = true
  · simp only [ht, Bool.not_true, Bool.false_eq_true, if_false]
    cases v with
    | undefined => cases ht
    | null => cases ht
    | bool b => intro e; cases e
    | num t => intro e; cases e
    | str s => intro e; cases e
    | arr xs => intro e; cases e
    | obj fields =>
      exact jsOr_ne_undefined _ _ (jsOr_ne_undefined _ _ (jsOr_ne_undefined _ _
        (fun e => by cases e)))
  · have ht : truthy v = false := by simpa using ht
    simp only [ht, Bool.not_false, if_true]
    intro e
    cases e

theorem mem_collectShifts (fetched : List (JsVal × List JsVal)) (x : JsVal)
    (h : x ∈ collectShifts fetched) : ∃ a l, x = resolvedShift a l := by
  unfold collectShifts at h
  have key : ∀ (fs : List (JsVal × List JsVal)) (acc : List JsVal),
      (∀ y ∈ acc, ∃ a l, y = resolvedShift a l) →
      ∀ y ∈ fs.foldl (fun acc p => pushConverted acc p.1 p.2) acc,
        ∃ a l, y = resolvedShift a l := by
    intro fs
    induction fs with
    | nil => intro acc hacc y hy; exact hacc y hy
    | cons p rest ih =>
      intro acc hacc y hy
      rw [List.foldl_cons] at hy
      refine ih _ ?_ y hy
      intro z hz
      rw [pushConverted_eq, List.mem_append] at hz
      rcases hz with hz | hz
      · exact hacc z hz
      · rw [List.mem_filter, List.mem_map] at hz
        obtain ⟨⟨a, _, rfl⟩, hnn⟩ := hz
        rw [convertShiftData_eq] at hnn ⊢
        by_cases hn : (isNullish a || isNullish p.1) = true
        · rw [if_pos hn] at hnn
          cases hnn
        · rw [if_neg hn]
          exact ⟨a, p.1, rfl⟩
  exact key fetched [] (fun y hy => absurd hy (List.not_mem_nil y)) x h

theorem exists_records (P : List (List Char × JsVal) → Prop) (xs : List JsVal)
    (h : ∀ x ∈ xs, ∃ r, x = .obj r ∧ P r) :
    ∃ rs : List (List (List Char × JsVal)), xs = rs.map .obj ∧ ∀ r ∈ rs, P r := by
  induction xs with
  | nil => exact ⟨[], rfl, fun r hr => absurd hr (List.not_mem_nil r)⟩
  | cons x rest ih =>
    obtain ⟨r, rfl, hr⟩ := h x (List.mem_cons_self _ _)
    obtain ⟨rs, rfl, hrs⟩ := ih (fun y hy => h y (List.mem_cons_of_mem _ hy))
    refine ⟨r :: rs, rfl, ?_⟩
    intro r' hr'
    rcases List.mem_cons.mp hr' with e | e
    · rw [e]; exact hr
    · exact hrs r' e

theorem resolvedShift_built (a l : JsVal) :
    ∃ r, resolvedShift a l = .obj r ∧ IsBuiltRecord r :=
  ⟨_, rfl, rfl,
    jsOr_ne_undefined _ _ (resolveValue_ne_undefined _),
    jsOr_ne_undefined _ _ (resolveValue_ne_undefined _),
    jsOr_ne_undefined _ _ (resolveValue_ne_undefined _)⟩

theorem absentOrString_iff (v : JsVal) (h : v ≠ .undefined) : AbsentOrString v ↔ IsString v :=
  ⟨fun hv => hv.elim (fun e => absurd e h) id, Or.inr⟩

theorem conforms_iff_canonical (r : List (List Char × JsVal)) (h : IsBuiltRecord r) :
    ConformsToShape r ↔ IsCanonicalShift r := by
  unfold ConformsToShape IsCanonicalShift
  rw [absentOrString_iff _ h.2.1, absentOrString_iff _ h.2.2.1, absentOrString_iff _ h.2.2.2]
  constructor
  · rintro ⟨h1, h2, h3, h4, h5, h6, h7, h8, h9, h10, h11⟩
    exact ⟨h1, h2, h3, h4, h7, h8, h9, h5, h6, h10, h11⟩
  · rintro ⟨h1, h2, h3, h4, h7, h8, h9, h5, h6, h10, h11⟩
    exact ⟨h1, h2, h3, h4, h5, h6, h7, h8, h9, h10, h11⟩

theorem zodParse_built (complete : List (List (List Char × JsVal)))
    (hb : ∀ r ∈ complete, IsBuiltRecord r) :
    ((∃ out, zodParse ShiftSchema (complete.map .obj) = .ok out) ↔
      ∀ r ∈ complete, IsCanonicalShift r) ∧
    (∀ out, zodParse ShiftSchema (complete.map .obj) = .ok out → out = complete) := by
  constructor
  · rw [zodParse_ok_iff]
    constructor
    · intro h r hr
      obtain ⟨r', e, hc⟩ := h (.obj r) (List.mem_map_of_mem _ hr)
      cases e
      exact (conforms_iff_canonical r (hb r hr)).mp hc
    · intro h x hx
      obtain ⟨r, hr, rfl⟩ := List.mem_map.mp hx
      exact ⟨r, rfl, (conforms_iff_canonical r (hb r hr)).mpr (h r hr)⟩
  · intro out h
    rw [zodParse_of_ok _ _ h, arrayOutput_map_obj]
    conv_rhs => rw [← List.map_id complete]
    apply List.map_congr_left
    intro r hr
    exact objectOutput_of_keys ShiftSchema r (hb r hr).1 (by decide)

/-- C12, as stated, fails: at a location of the directory whose latitude is `NaN` the
collected Shift passes the completeness filter and has the stated shape, every listed
field a string and both coordinates of the type number, yet its validation fails with an
issue at `lat` and `main` writes no file. -/
theorem shiftSchema_nan_latitude :
    collectShifts [(nanHall, [testHallPayload])] = [.obj nanRecord] ∧
    completeShifts [.obj nanRecord] = .ok [.obj nanRecord] ∧
    HasStatedShape nanRecord ∧
    zodParse ShiftSchema [.obj nanRecord] = .error [⟨0, some "lat".toList⟩] ∧
    mainAfterCollection (collectShifts [(nanHall, [testHallPayload])]) = ⟨[], 1⟩ :=
  ⟨rfl, rfl,
    ⟨⟨_, rfl⟩, ⟨_, rfl⟩, ⟨_, rfl⟩, ⟨_, rfl⟩, ⟨_, rfl⟩, ⟨_, rfl⟩, ⟨_, rfl⟩, rfl, rfl,
      Or.inr ⟨_, rfl⟩, Or.inr ⟨_, rfl⟩⟩,
    rfl, rfl⟩

/-- C12, amended: on whatever `main` has collected the completeness filter returns, and
the validation of the filtered records with `ShiftSchema` succeeds if and only if every
record has string `service_name`, `suburb`, `state`, `address`, `day`, `start_time` and
`end_time`, `lat` and `lng` numbers other than `NaN`, and `shift_status` and `van_asset`
each absent or a string; it then returns every record unchanged and `main` writes the JSON
and the CSV file of these records; if a single filtered record is not of this shape the
validation fails with an error and `main` writes neither file and exits with code 1. -/
theorem shiftSchema_all_or_nothing (fetched : List (JsVal × List JsVal)) :
    ∃ complete : List (List (List Char × JsVal)),
      completeShifts (collectShifts fetched) = .ok (complete.map .obj) ∧
      ((∃ out, zodParse ShiftSchema (complete.map .obj) = .ok out) ↔
        ∀ r ∈ complete, IsCanonicalShift r) ∧
      ((∀ r ∈ complete, IsCanonicalShift r) →
        zodParse ShiftSchema (complete.map .obj) = .ok complete ∧
        (collectShifts fetched ≠ [] →
          mainAfterCollection (collectShifts fetched) =
            ⟨[.jsonFile complete, .csvFile (convertToCSV complete)], 0⟩)) ∧
      ((∃ r ∈ complete, ¬ IsCanonicalShift r) →
        (∃ issue issues,
          zodParse ShiftSchema (complete.map .obj) = .error (issue :: issues)) ∧
        mainAfterCollection (collectShifts fetched) = ⟨[], 1⟩) := by
  obtain ⟨rs, hrs, hbuilt⟩ := exists_records IsBuiltRecord (collectShifts fetched)
    (fun x hx => by
      obtain ⟨a, l, rfl⟩ := mem_collectShifts fetched x hx
      exact resolvedShift_built a l)
  have hb : ∀ r ∈ rs.filter isCompleteRecord, IsBuiltRecord r :=
    fun r hr => hbuilt r (List.mem_filter.mp hr).1
  have hc : completeShifts (collectShifts fetched) =
      .ok ((rs.filter isCompleteRecord).map .obj) := by
    rw [hrs]
    exact completeShifts_records rs
  obtain ⟨hiff, hout⟩ := zodParse_built (rs.filter isCompleteRecord) hb
  refine ⟨rs.filter isCompleteRecord, hc, hiff, ?_, ?_⟩
  · intro hall
    obtain ⟨out, ho⟩ := hiff.mpr hall
    have hz : zodParse ShiftSchema ((rs.filter isCompleteRecord).map .obj) =
        .ok (rs.filter isCompleteRecord) := by
      rw [ho, hout out ho]
    refine ⟨hz, ?_⟩
    intro hne
    unfold mainAfterCollection
    have hlen : ¬ (collectShifts fetched).length = 0 :=
      fun h0 => hne (List.length_eq_zero.mp h0)
    rw [if_neg hlen, hc]
    simp only [hz]
  · rintro ⟨r, hr, hbad⟩
    have herr : ∃ issue issues,
        zodParse ShiftSchema ((rs.filter isCompleteRecord).map .obj) =
          .error (issue :: issues) := by
      cases hz : zodParse ShiftSchema ((rs.filter isCompleteRecord).map .obj) with
      | ok out => exact absurd (hiff.mp ⟨out, hz⟩ r hr) hbad
      | error issues =>
        unfold zodParse at hz
        cases hi : arrayIssues ShiftSchema 0 ((rs.filter isCompleteRecord).map .obj) with
        | nil => rw [hi] at hz; cases hz
        | cons issue rest => rw [hi] at hz; cases hz; exact ⟨issue, rest, rfl⟩
    refine ⟨herr, ?_⟩
    obtain ⟨issue, issues, hz⟩ := herr
    unfold mainAfterCollection
    have hlen : ¬ (collectShifts fetched).length = 0 := by
      intro h0
      rw [hrs, List.length_map] at h0
      have : rs = [] := List.length_eq_zero.mp h0
      rw [this] at hr
      exact absurd hr (List.not_mem_nil r)
    rw [if_neg hlen, hc]
    simp only [hz]

/-- C12, amended, on a run that collected the scenario Shift and one whose day is the
number 3: the single record of the wrong type makes the validation fail, and `main` writes
neither file and exits with code 1. -/
theorem shiftSchema_all_or_nothing_witness :
    collectShifts mixedFetch = [.obj testHallRecord, .obj numericDayRecord] ∧
    mainAfterCollection (collectShifts mixedFetch) = ⟨[], 1⟩ := by
  refine ⟨rfl, ?_⟩
  obtain ⟨complete, hc, _, _, hfail⟩ := shiftSchema_all_or_nothing mixedFetch
  have he : completeShifts (collectShifts mixedFetch) =
      .ok ([testHallRecord, numericDayRecord].map .obj) := rfl
  rw [he] at hc
  have hmap : [testHallRecord, numericDayRecord].map JsVal.obj = complete.map JsVal.obj :=
    Except.ok.inj hc
  have hinj : Function.Injective JsVal.obj := fun _ _ e => JsVal.obj.inj e
  have hcomplete : [testHallRecord, numericDayRecord] = complete :=
    List.map_injective_iff.mpr hinj hmap
  refine (hfail ⟨numericDayRecord, ?_, ?_⟩).2
  · rw [← hcomplete]
    exact List.mem_cons_of_mem _ (List.mem_singleton.mpr rfl)
  · intro hshape
    obtain ⟨s, hs⟩ := hshape.2.2.2.2.1
    have hday : lookupKey "day".toList numericDayRecord = .num "3".toList := rfl
    rw [hday] at hs
    cases hs

end OrangeSky
